import Mathlib

/-!
# Mini Praisells: the bidding engine of `server.js`

A shallow embedding of the request handlers of `src/server.js` (with the
constants of `src/config.js`) and the properties of the bid-placement and
bid-withdrawal flow.

Modelling conventions.

* A Mongo collection is the list of its documents in natural (insertion)
  order.  `findOne q` is the first document matching `q`, `updateOne q u`
  rewrites the first document matching `q`, `insertOne` appends.
* The handlers look a bid up with `findOne q` and then rewrite it with
  `updateOne({ _id: found._id }, ..)` on the same, unchanged collection.
  `_id` is the identity of the document that was found, so that pair is the
  rewrite of the first document matching `q`.
* Request fields are only tested for falsiness.  A missing field and the empty
  string are both falsy, so both are the empty string here; a missing
  `bidAmount` and `0` are both falsy, so both are `0`.
* Every `new Date()` of one request is the single time stamp `now`.
* The handlers are embedded twice.  The first embedding takes every amount,
  balance, reserve and high bid to be an integer and computes with them
  exactly: it is the handlers on bodies whose `bidAmount` is an integer, as long
  as the numbers stay within `±2^53`, where the arithmetic of doubles is exact.
  The `catch` branches are not part of it: on integers the store refuses no
  update.  The second embedding, the namespace `Js`, follows the handlers on
  every JSON number (an IEEE 754 double) and on strings of decimal digits,
  with the `catch` branch taken when the store refuses to `$inc` by a string.
-/

namespace MiniPraisells

/-! ## config.js -/

namespace CONFIG

def STARTING_APPRAICENTS : Int := 1000

def MIN_BID_INCREMENT : Int := 1

def MAX_BID_AMOUNT : Int := 999999

end CONFIG

/-! ## Documents and collections -/

/-- A document of the `users` collection. -/
structure User where
  uid : String
  username : String
  appraiCentsBalance : Int
  totalBidsPlaced : Int
  totalWins : Int
  createdAt : Nat
  lastActivity : Nat
deriving DecidableEq, Repr

/-- A document of the `auctions` collection. -/
structure Auction where
  id : String
  artistName : String
  artworkTitle : String
  description : String
  reserveBid : Int
  currentHighBid : Int
  highestBidder : Option String
  endDate : Nat
  active : Bool
  createdAt : Nat
  lastBidAt : Option Nat
deriving DecidableEq, Repr

/-- A document of the `bids` collection. -/
structure Bid where
  uid : String
  username : String
  itemId : String
  amount : Int
  active : Bool
  createdAt : Nat
  replacedAt : Option Nat
  outbidAt : Option Nat
  removedAt : Option Nat
deriving DecidableEq, Repr

/-- The database: the three collections. -/
structure Db where
  users : List User
  auctions : List Auction
  bids : List Bid
deriving DecidableEq, Repr

/-- Rewrite the first document that matches `q` (Mongo `updateOne`). -/
def updateOne {α : Type} (q : α → Bool) (u : α → α) : List α → List α
  | [] => []
  | x :: xs => if q x then u x :: xs else x :: updateOne q u xs

/-- The query `{ uid: uid }` on `users`. -/
def userQuery (uid : String) (u : User) : Bool := u.uid == uid

/-- The query `{ uid: uid, itemId: auctionId, active: true }` on `bids`. -/
def ownBidQuery (uid auctionId : String) (b : Bid) : Bool :=
  b.uid == uid && b.itemId == auctionId && b.active

/-- The query `{ itemId: auctionId, username: name, active: true }` on `bids`. -/
def namedBidQuery (auctionId name : String) (b : Bid) : Bool :=
  b.itemId == auctionId && b.username == name && b.active

/-- The query `{ itemId: auctionId, active: true }` on `bids`. -/
def itemBidQuery (auctionId : String) (b : Bid) : Bool :=
  b.itemId == auctionId && b.active

/-- The query `{ id: auctionId, active: true }` on `auctions`. -/
def activeAuctionQuery (auctionId : String) (a : Auction) : Bool :=
  a.id == auctionId && a.active

/-- The query `{ id: auctionId }` on `auctions`. -/
def auctionQuery (auctionId : String) (a : Auction) : Bool := a.id == auctionId

/-- The update `{ $inc: { appraiCentsBalance: n } }`. -/
def incBalance (n : Int) (u : User) : User :=
  { u with appraiCentsBalance := u.appraiCentsBalance + n }

/-- The update `{ $inc: { appraiCentsBalance: -bidAmount, totalBidsPlaced: 1 } }`. -/
def debitBid (bidAmount : Int) (u : User) : User :=
  { u with appraiCentsBalance := u.appraiCentsBalance + -bidAmount,
           totalBidsPlaced := u.totalBidsPlaced + 1 }

/-- The update `{ $set: { active: false, replacedAt: now } }`. -/
def markReplaced (now : Nat) (b : Bid) : Bid :=
  { b with active := false, replacedAt := some now }

/-- The update `{ $set: { active: false, outbidAt: now } }`. -/
def markOutbid (now : Nat) (b : Bid) : Bid :=
  { b with active := false, outbidAt := some now }

/-- The update `{ $set: { active: false, removedAt: now } }`. -/
def markRemoved (now : Nat) (b : Bid) : Bid :=
  { b with active := false, removedAt := some now }

/-- The update `{ $set: { currentHighBid, highestBidder, lastBidAt: now } }`. -/
def setHighBid (amount : Int) (name : String) (now : Nat) (a : Auction) : Auction :=
  { a with currentHighBid := amount, highestBidder := some name, lastBidAt := some now }

/-- The update `{ $set: { currentHighBid, highestBidder } }` of the removal. -/
def resetHighBid (amount : Int) (name : Option String) (a : Auction) : Auction :=
  { a with currentHighBid := amount, highestBidder := name }

/-! ## Responses -/

/-- The JSON envelope of the bid handlers. -/
structure Response where
  success : Bool
  message : String
  newBalance : Option Int
  refundedAmount : Option Int
deriving DecidableEq, Repr

/-- The envelope `{ success: false, message }`. -/
def failure (message : String) : Response :=
  { success := false, message := message, newBalance := none, refundedAmount := none }

/-- The body of `POST /api/bid`. -/
structure BidRequest where
  uid : String
  username : String
  auctionId : String
  bidAmount : Int
deriving DecidableEq, Repr

/-- The body of `POST /api/bid/remove`. -/
structure RemoveRequest where
  uid : String
  auctionId : String
deriving DecidableEq, Repr

/-! ## `POST /api/bid` -/

/-- The guard `!uid || !username || !auctionId || !bidAmount`. -/
def missingField (r : BidRequest) : Bool :=
  r.uid == "" || r.username == "" || r.auctionId == "" || r.bidAmount == 0

/-- The floor `(auction.currentHighBid || auction.reserveBid) + MIN_BID_INCREMENT`. -/
def minimumBid (auction : Auction) : Int :=
  (if auction.currentHighBid ≠ 0 then auction.currentHighBid else auction.reserveBid)
    + CONFIG.MIN_BID_INCREMENT

/-- Lines 319-338: refund and deactivate the bidder's own active bid. -/
def refundExisting (now : Nat) (r : BidRequest) (s : Db) : Db :=
  match s.bids.find? (ownBidQuery r.uid r.auctionId) with
  | some existingBid =>
    { s with
      users := updateOne (userQuery r.uid) (incBalance existingBid.amount) s.users,
      bids := updateOne (ownBidQuery r.uid r.auctionId) (markReplaced now) s.bids }
  | none => s

/-- The guard `auction.currentHighBid > 0 && auction.highestBidder &&
auction.highestBidder !== username`; it yields the name to look up. -/
def outbidName (auction : Auction) (username : String) : Option String :=
  match auction.highestBidder with
  | some h =>
    if 0 < auction.currentHighBid ∧ h ≠ "" ∧ h ≠ username then some h else none
  | none => none

/-- Lines 340-359: refund and deactivate the bid of the previous highest bidder. -/
def refundOutbid (now : Nat) (r : BidRequest) (auction : Auction) (s : Db) : Db :=
  match outbidName auction r.username with
  | some h =>
    match s.bids.find? (namedBidQuery r.auctionId h) with
    | some previousHighBid =>
      { s with
        users := updateOne (userQuery previousHighBid.uid)
                   (incBalance previousHighBid.amount) s.users,
        bids := updateOne (namedBidQuery r.auctionId h) (markOutbid now) s.bids }
    | none => s
  | none => s

/-- The document `newBid` of lines 373-380. -/
def newBid (now : Nat) (r : BidRequest) : Bid :=
  { uid := r.uid, username := r.username, itemId := r.auctionId, amount := r.bidAmount,
    active := true, createdAt := now, replacedAt := none, outbidAt := none,
    removedAt := none }

/-- Lines 361-394: debit the bidder, insert the bid, update the auction. -/
def commitBid (now : Nat) (r : BidRequest) (s : Db) : Db :=
  { users := updateOne (userQuery r.uid) (debitBid r.bidAmount) s.users,
    bids := s.bids ++ [newBid now r],
    auctions := updateOne (auctionQuery r.auctionId)
                  (setHighBid r.bidAmount r.username now) s.auctions }

/-- The amount of the bidder's own active bid, `0` when there is none. -/
def existingAmount (s : Db) (r : BidRequest) : Int :=
  match s.bids.find? (ownBidQuery r.uid r.auctionId) with
  | some existingBid => existingBid.amount
  | none => 0

/-- The handler of `POST /api/bid`: the database after the request and the
response. -/
def placeBid (now : Nat) (s : Db) (r : BidRequest) : Db × Response :=
  if missingField r then (s, failure "All fields required")
  else
    match s.users.find? (userQuery r.uid) with
    | none => (s, failure "User not found")
    | some user =>
      if user.appraiCentsBalance < r.bidAmount then
        (s, failure "Insufficient appraiCENTS balance")
      else
        match s.auctions.find? (activeAuctionQuery r.auctionId) with
        | none => (s, failure "Auction not found or inactive")
        | some auction =>
          if r.bidAmount < minimumBid auction then
            (s, failure ("Bid must be at least " ++ toString (minimumBid auction) ++ " aC"))
          else
            (commitBid now r (refundOutbid now r auction (refundExisting now r s)),
             { success := true, message := "Bid placed successfully",
               newBalance := some (user.appraiCentsBalance - r.bidAmount + existingAmount s r),
               refundedAmount := none })

/-! ## `POST /api/bid/remove` -/

/-- The remaining bids `find({ itemId, active: true }).sort({ amount: -1 })`:
a stable sort by decreasing amount. -/
def remainingBids (auctionId : String) (bids : List Bid) : List Bid :=
  (bids.filter (itemBidQuery auctionId)).insertionSort (fun a b => b.amount ≤ a.amount)

/-- The handler of `POST /api/bid/remove`. -/
def removeBid (now : Nat) (s : Db) (r : RemoveRequest) : Db × Response :=
  if r.uid == "" || r.auctionId == "" then (s, failure "UID and auction ID required")
  else
    match s.bids.find? (ownBidQuery r.uid r.auctionId) with
    | none => (s, failure "No active bid found")
    | some bid =>
      let users := updateOne (userQuery r.uid) (incBalance bid.amount) s.users
      let bids := updateOne (ownBidQuery r.uid r.auctionId) (markRemoved now) s.bids
      let auctions :=
        match remainingBids r.auctionId bids with
        | top :: _ =>
          updateOne (auctionQuery r.auctionId)
            (resetHighBid top.amount (some top.username)) s.auctions
        | [] => updateOne (auctionQuery r.auctionId) (resetHighBid 0 none) s.auctions
      ({ users := users, auctions := auctions, bids := bids },
       { success := true, message := "Bid removed and appraiCENTS refunded",
         newBalance := none, refundedAmount := some bid.amount })

/-! ## `initializeUser` and `POST /api/user/balance` -/

/-- The body of `POST /api/user/balance`. -/
structure BalanceRequest where
  uid : String
  username : String
deriving DecidableEq, Repr

/-- The update `{ $set: { lastActivity: now } }`. -/
def touchActivity (now : Nat) (u : User) : User := { u with lastActivity := now }

/-- The document `user` of lines 193-201. -/
def newUser (now : Nat) (uid username : String) : User :=
  { uid := uid, username := username, appraiCentsBalance := CONFIG.STARTING_APPRAICENTS,
    totalBidsPlaced := 0, totalWins := 0, createdAt := now, lastActivity := now }

/-- The function `initializeUser`: the database afterwards and the user it
returns (the document read before the activity touch). -/
def initializeUser (now : Nat) (s : Db) (uid username : String) : Db × User :=
  match s.users.find? (userQuery uid) with
  | none => ({ s with users := s.users ++ [newUser now uid username] }, newUser now uid username)
  | some user =>
    ({ s with users := updateOne (userQuery uid) (touchActivity now) s.users }, user)

/-- The handler of `POST /api/user/balance`, as a change of the database. -/
def getBalance (now : Nat) (s : Db) (r : BalanceRequest) : Db :=
  if r.uid == "" || r.username == "" then s
  else (initializeUser now s r.uid r.username).1

/-! ## Read-outs, invariants and request sequences -/

/-- The stored balance of the user `uid` (`findOne({ uid })`), if there is one. -/
def balanceOf (s : Db) (uid : String) : Option Int :=
  (s.users.find? (userQuery uid)).map (fun u => u.appraiCentsBalance)

/-- The active bids of `uid` on `auctionId`. -/
def ownActiveBids (s : Db) (uid auctionId : String) : List Bid :=
  s.bids.filter (ownBidQuery uid auctionId)

/-- Single active bid: every (uid, auction) pair has at most one active bid. -/
def SingleActive (s : Db) : Prop :=
  ∀ uid auctionId : String, (ownActiveBids s uid auctionId).length ≤ 1

/-- High-bid consistency of one auction against the bids collection: no active
bid on the auction exceeds `currentHighBid`, and either some active bid on it
has that amount and carries the name `highestBidder`, or there is no active bid
on it and the auction is at `(0, null)`. -/
def HighBidConsistent (bids : List Bid) (a : Auction) : Prop :=
  (∀ b ∈ bids, itemBidQuery a.id b = true → b.amount ≤ a.currentHighBid) ∧
  ((∃ b ∈ bids, itemBidQuery a.id b = true ∧ b.amount = a.currentHighBid ∧
      a.highestBidder = some b.username) ∨
   ((∀ b ∈ bids, itemBidQuery a.id b = false) ∧ a.currentHighBid = 0 ∧
      a.highestBidder = none))

instance (bids : List Bid) (a : Auction) : Decidable (HighBidConsistent bids a) := by
  unfold HighBidConsistent; infer_instance

/-- Every auction of the database is high-bid consistent. -/
def AllConsistent (s : Db) : Prop := ∀ a ∈ s.auctions, HighBidConsistent s.bids a

/-- The field `id` is a key of the `auctions` collection. -/
def UniqueAuctionIds (s : Db) : Prop := (s.auctions.map (fun a => a.id)).Nodup

/-- The data model's `reserveBid: integer > 0`. -/
def PositiveReserves (s : Db) : Prop := ∀ a ∈ s.auctions, 0 < a.reserveBid

/-- The amount `uid` has in escrow: the sum of the amounts of the active bids
of `uid`. -/
def escrow (bids : List Bid) (uid : String) : Int :=
  ((bids.filter (fun b => b.uid == uid && b.active)).map (fun b => b.amount)).sum

/-- For every user document, in order, its `uid` with its balance plus its
escrow. -/
def conserved (s : Db) : List (String × Int) :=
  s.users.map (fun u => (u.uid, u.appraiCentsBalance + escrow s.bids u.uid))

/-- The field `uid` is a key of the `users` collection. -/
def UniqueUids (s : Db) : Prop := (s.users.map (fun u => u.uid)).Nodup

/-- A request to one of the three state-changing endpoints. -/
inductive Call where
  | balance (now : Nat) (r : BalanceRequest)
  | bid (now : Nat) (r : BidRequest)
  | remove (now : Nat) (r : RemoveRequest)
deriving DecidableEq, Repr

/-- The database after one request. -/
def step (s : Db) : Call → Db
  | .balance now r => getBalance now s r
  | .bid now r => (placeBid now s r).1
  | .remove now r => (removeBid now s r).1

/-- The database after a sequence of requests, served one at a time. -/
def run (s : Db) (calls : List Call) : Db := calls.foldl step s

/-- The database at start-up: the seeded auctions, no users, no bids. -/
def freshDb (auctions : List Auction) : Db := { users := [], auctions := auctions, bids := [] }

instance (s : Db) : Decidable (AllConsistent s) := by
  unfold AllConsistent; infer_instance

instance (s : Db) : Decidable (UniqueAuctionIds s) := by
  unfold UniqueAuctionIds; infer_instance

instance (s : Db) : Decidable (PositiveReserves s) := by
  unfold PositiveReserves; infer_instance

instance (s : Db) : Decidable (UniqueUids s) := by
  unfold UniqueUids; infer_instance

/-! ## Sample data -/

/-- The seeded auction `auction1` of `addSampleAuctions`. -/
def auction1 : Auction :=
  { id := "auction1", artistName := "Digital Dreams Studio", artworkTitle := "Neon Cityscape",
    description := "A vibrant digital painting of a futuristic city at night",
    reserveBid := 50, currentHighBid := 0, highestBidder := none, endDate := 604800,
    active := true, createdAt := 0, lastBidAt := none }

/-- The seeded auction `auction3` of `addSampleAuctions`. -/
def auction3 : Auction :=
  { id := "auction3", artistName := "Virtual Canvas Co.", artworkTitle := "Mountain Sunrise",
    description := "Serene digital landscape of mountains at sunrise",
    reserveBid := 30, currentHighBid := 0, highestBidder := none, endDate := 604800,
    active := true, createdAt := 0, lastBidAt := none }

/-- A user document as `initializeUser` creates it, with a given balance. -/
def sampleUser (uid username : String) (balance : Int) : User :=
  { uid := uid, username := username, appraiCentsBalance := balance, totalBidsPlaced := 0,
    totalWins := 0, createdAt := 0, lastActivity := 0 }

/-- Two fresh users and the seeded auctions, no bids. -/
def dbFresh : Db :=
  { users := [sampleUser "u1" "alice" 1000, sampleUser "u2" "bob" 1000],
    auctions := [auction1, auction3], bids := [] }

/-- The active bid of 100 by `u1` under the name `name` on `auction1`. -/
def bid100 (name : String) : Bid :=
  { uid := "u1", username := name, itemId := "auction1", amount := 100, active := true,
    createdAt := 1, replacedAt := none, outbidAt := none, removedAt := none }

/-- The database after alice (`u1`) has bid 100 on `auction1`. -/
def dbAliceHigh : Db :=
  { users := [{ sampleUser "u1" "alice" 900 with totalBidsPlaced := 1 },
              sampleUser "u2" "bob" 1000],
    auctions := [{ auction1 with currentHighBid := 100, highestBidder := some "alice",
                                 lastBidAt := some 1 }, auction3],
    bids := [bid100 "alice"] }

/-- Two users `u1` and `u3` that both go by the name sam; `u1` holds the high
bid of 100 on `auction1`. -/
def dbTwoSams : Db :=
  { users := [{ sampleUser "u1" "sam" 900 with totalBidsPlaced := 1 },
              sampleUser "u3" "sam" 1000],
    auctions := [{ auction1 with currentHighBid := 100, highestBidder := some "sam",
                                 lastBidAt := some 1 }, auction3],
    bids := [bid100 "sam"] }

/-- The seeded auctions before any user exists. -/
def dbNoUsers : Db := freshDb [auction1, auction3]

/-- The requests that lead from start-up to `dbAliceHigh`. -/
def callsAliceHigh : List Call :=
  [.balance 0 ⟨"u1", "alice"⟩, .balance 0 ⟨"u2", "bob"⟩,
   .bid 1 ⟨"u1", "alice", "auction1", 100⟩]

/-! ## Further handlers, invariants and sample data -/

/-- The data model's `amount: integer`, never negative, for the stored bids. -/
def NonnegativeBids (s : Db) : Prop := ∀ b ∈ s.bids, 0 ≤ b.amount

instance (s : Db) : Decidable (NonnegativeBids s) := by
  unfold NonnegativeBids; infer_instance

/-- Balances never negative: the data model's `balance: integer ≥ 0`. -/
def NonnegativeBalances (s : Db) : Prop := ∀ u ∈ s.users, 0 ≤ u.appraiCentsBalance

instance (s : Db) : Decidable (NonnegativeBalances s) := by
  unfold NonnegativeBalances; infer_instance

/-- No auction has a negative `currentHighBid` (data model: `integer ≥ 0`). -/
def NonnegativeHighBids (s : Db) : Prop := ∀ a ∈ s.auctions, 0 ≤ a.currentHighBid

instance (s : Db) : Decidable (NonnegativeHighBids s) := by
  unfold NonnegativeHighBids; infer_instance

/-- No balance exceeds `MAX_BID_AMOUNT`. -/
def BalancesWithinMax (s : Db) : Prop :=
  ∀ u ∈ s.users, u.appraiCentsBalance ≤ CONFIG.MAX_BID_AMOUNT

instance (s : Db) : Decidable (BalancesWithinMax s) := by
  unfold BalancesWithinMax; infer_instance

/-- A database in which alice holds a balance of two million. -/
def dbRich : Db :=
  { users := [sampleUser "u1" "alice" 2000000], auctions := [auction1, auction3], bids := [] }

/-- The JSON envelope of `POST /api/user/balance`: the refusal
`{ success: false, message }`, or `{ success: true, balance, user: { username,
totalBids, totalWins } }`. -/
inductive BalanceResponse where
  | refused (message : String)
  | ok (balance : Int) (username : String) (totalBids : Int) (totalWins : Int)
deriving DecidableEq, Repr

/-- The handler of `POST /api/user/balance` with its response. -/
def userBalance (now : Nat) (s : Db) (r : BalanceRequest) : Db × BalanceResponse :=
  if r.uid == "" || r.username == "" then (s, .refused "UID and username required")
  else
    ((initializeUser now s r.uid r.username).1,
     .ok (initializeUser now s r.uid r.username).2.appraiCentsBalance
       (initializeUser now s r.uid r.username).2.username
       (initializeUser now s r.uid r.username).2.totalBidsPlaced
       (initializeUser now s r.uid r.username).2.totalWins)

/-- The handler of `GET /api/auctions`: `find({ active: true })`. -/
def listActiveAuctions (s : Db) : Db × List Auction :=
  (s, s.auctions.filter (fun a => a.active))

/-- The JSON envelope of `POST /api/user/bids`. -/
inductive BidsResponse where
  | refused (message : String)
  | ok (bids : List Bid)
deriving DecidableEq, Repr

/-- The handler of `POST /api/user/bids`: `find({ uid: uid, active: true })`. -/
def listUserBids (s : Db) (uid : String) : Db × BidsResponse :=
  if uid == "" then (s, .refused "UID required")
  else (s, .ok (s.bids.filter (fun b => b.uid == uid && b.active)))

/-- The (uid, username) pairs of the bid requests of a request sequence. -/
def bidPairs (calls : List Call) : List (String × String) :=
  calls.filterMap (fun c =>
    match c with
    | .bid _ r => some (r.uid, r.username)
    | _ => none)

/-- Naming discipline of a request sequence: two bid requests carry the same
uid exactly when they carry the same username. -/
def Disciplined (calls : List Call) : Prop :=
  ∀ p ∈ bidPairs calls, ∀ q ∈ bidPairs calls, (p.1 = q.1 ↔ p.2 = q.2)

instance (calls : List Call) : Decidable (Disciplined calls) := by
  unfold Disciplined; infer_instance

/-- Every auction is unbid: `currentHighBid` 0 and `highestBidder` null. -/
def AllUnbid (s : Db) : Prop :=
  ∀ a ∈ s.auctions, a.currentHighBid = 0 ∧ a.highestBidder = none

instance (s : Db) : Decidable (AllUnbid s) := by
  unfold AllUnbid; infer_instance

/-- The invariant behind one active bid per auction, relative to the
(uid, username) pairs that requests may carry: the auctions are well formed and
high-bid consistent, no auction id has two active bids, and every active bid
has a positive amount, a non-empty name, a permitted (uid, username) pair and
an auction document. -/
def OneBidInv (pairs : List (String × String)) (s : Db) : Prop :=
  UniqueAuctionIds s ∧ PositiveReserves s ∧ AllConsistent s ∧
  (∀ aid : String, (s.bids.filter (itemBidQuery aid)).length ≤ 1) ∧
  (∀ b ∈ s.bids, b.active = true →
    0 < b.amount ∧ b.username ≠ "" ∧ (b.uid, b.username) ∈ pairs ∧
    ∃ a ∈ s.auctions, a.id = b.itemId)

/-- Alice bids 100 on `auction1` and bob outbids her with 150. -/
def callsOutbid : List Call :=
  [.bid 1 ⟨"u1", "alice", "auction1", 100⟩, .bid 2 ⟨"u2", "bob", "auction1", 150⟩]

/-! ## Sample data outside the data model -/

/-- An ended copy of `auction1` precedes the running one: two auction documents
carry the id `auction1`, the first with `active: false`; both are unbid. -/
def dbShadowed : Db :=
  { users := [sampleUser "u1" "alice" 1000, sampleUser "u2" "bob" 1000],
    auctions := [{ auction1 with active := false }, auction1], bids := [] }

/-- Alice bids 100 on `auction1`, then bob bids 60 on it. -/
def callsShadowed : List Call :=
  [.bid 1 ⟨"u1", "alice", "auction1", 100⟩, .bid 2 ⟨"u2", "bob", "auction1", 60⟩]

/-- The auction `auction1` with a reserve of -10, and `auction3`; two users, no
bids. -/
def dbNegativeReserve : Db :=
  { users := [sampleUser "u1" "alice" 1000, sampleUser "u2" "bob" 1000],
    auctions := [{ auction1 with reserveBid := -10 }, auction3], bids := [] }

/-- Alice bids -5 on `auction1`, then bob bids -3 on it. -/
def callsBelowZero : List Call :=
  [.bid 1 ⟨"u1", "alice", "auction1", -5⟩, .bid 2 ⟨"u2", "bob", "auction1", -3⟩]

/-- Alice bids -5 on `auction1`, bids her whole balance of 1005 on `auction3`,
and withdraws the bid on `auction1`. -/
def callsOverdraw : List Call :=
  [.bid 1 ⟨"u1", "alice", "auction1", -5⟩, .bid 2 ⟨"u1", "alice", "auction3", 1005⟩,
   .remove 3 ⟨"u1", "auction1"⟩]

/-- An active bid of 0 by bob (`u2`) on `auction1`. -/
def bidZero : Bid :=
  { uid := "u2", username := "bob", itemId := "auction1", amount := 0, active := true,
    createdAt := 1, replacedAt := none, outbidAt := none, removedAt := none }

/-- The auction `auction1` with a reserve of -10 on which bob holds the active
bid `bidZero`: the high bid is 0 and the highest bidder is bob. -/
def dbZeroBid : Db :=
  { users := [sampleUser "u1" "alice" 1000, sampleUser "u2" "bob" 1000],
    auctions := [{ auction1 with reserveBid := -10, highestBidder := some "bob" }],
    bids := [bidZero] }

/-- Alice has a balance of 0 and the stored active bid of -5 on `auction1`. -/
def dbNegativeBid : Db :=
  { users := [sampleUser "u1" "alice" 0],
    auctions := [{ auction1 with currentHighBid := -5, highestBidder := some "alice" }],
    bids := [{ bid100 "alice" with amount := -5 }] }

/-! ## The handlers on JSON values

`express.json()` hands the handlers whatever the request body holds: the
definitions above follow them on integer amounts, the definitions of this
section on every JSON number and on strings of decimal digits.  A JavaScript
number is an IEEE 754 double, and so is what `$inc` computes on it. -/

namespace Js

/-- A JavaScript number.  Every finite double is an integer multiple of
`2^-1074`: `fin u` is the double `u * 2^-1074`.  The two zeros are one value
(no operation of the handlers tells them apart). -/
inductive Number where
  | fin (units : Int)
  | inf (negative : Bool)
  | nan
deriving DecidableEq, Repr

namespace Number

/-- The number 1 in units of `2^-1074`. -/
def one : Nat := 1 <<< 1074

/-- The least magnitude that rounds to an infinity, `2^1024`, in units. -/
def overflow : Nat := 1 <<< 2098

/-- The number of binary digits of `n < 2^(2^fuel)`, by bisection. -/
def bitLengthAux : Nat → Nat → Nat
  | 0, n => if n = 0 then 0 else 1
  | fuel + 1, n =>
    if n < 1 <<< (1 <<< fuel) then bitLengthAux fuel n
    else (1 <<< fuel) + bitLengthAux fuel (n >>> (1 <<< fuel))

/-- The number of binary digits of `n < 2^4096`. -/
def bitLength (n : Nat) : Nat := bitLengthAux 12 n

/-- Round to nearest, ties to even: the double nearest to `num / den` units,
with the given sign.  A magnitude below `2^53` units is rounded to a whole
number of units, a larger one to 53 binary digits. -/
def round (negative : Bool) (num den : Nat) : Number :=
  if overflow ≤ num / den then inf negative
  else
    let k := bitLength (num / den) - 53
    let d := den <<< k
    let q := num / d
    let m := (if d < 2 * (num % d) ∨ (2 * (num % d) = d ∧ q % 2 = 1) then q + 1 else q) <<< k
    if overflow ≤ m then inf negative else fin (if negative then -(m : Int) else m)

/-- The double nearest to the fraction `n / d`. -/
def ofQuotient (n : Int) (d : Nat) : Number := round (decide (n < 0)) (n.natAbs * one) d

/-- The double nearest to the integer `n`. -/
def ofInt (n : Int) : Number := ofQuotient n 1

/-- The double that the JSON numeral `mantissa / 10^decimals` parses to:
`ofDecimal 1282 1` is `128.2`. -/
def ofDecimal (mantissa : Int) (decimals : Nat) : Number := ofQuotient mantissa (10 ^ decimals)

/-- The double nearest to `u` units. -/
def ofUnits (u : Int) : Number := round (decide (u < 0)) u.natAbs 1

/-- The sum `a + b` of two doubles. -/
def add : Number → Number → Number
  | fin a, fin b => ofUnits (a + b)
  | fin _, inf s => inf s
  | inf s, fin _ => inf s
  | inf s, inf t => if s = t then inf s else nan
  | _, _ => nan

/-- The negation `-a`. -/
def neg : Number → Number
  | fin a => fin (-a)
  | inf s => inf (!s)
  | nan => nan

/-- The difference `a - b`. -/
def sub (a b : Number) : Number := add a (neg b)

/-- The comparison `a < b`; false when either side is NaN. -/
def lt : Number → Number → Bool
  | fin a, fin b => decide (a < b)
  | fin _, inf s => !s
  | inf s, fin _ => s
  | inf s, inf t => s && !t
  | _, _ => false

/-- Truthiness: every number but 0 and NaN. -/
def truthy : Number → Bool
  | fin a => decide (a ≠ 0)
  | inf _ => true
  | nan => false

end Number

/-- A JSON value as far as the handlers compute with it: a number, or a string
of decimal digits such as `"60"`. -/
inductive Value where
  | num (x : Number)
  | digits (ds : List (Fin 10))
deriving DecidableEq, Repr

namespace Value

/-- The conversion `ToNumber`: a string of digits is read as a decimal numeral,
the empty string as 0. -/
def toNumber : Value → Number
  | num x => x
  | digits ds => Number.ofInt (ds.foldl (fun acc d => 10 * acc + d.val) 0 : Nat)

/-- Truthiness: a number that is truthy, or a string that is not empty. -/
def truthy : Value → Bool
  | num x => x.truthy
  | digits ds => !ds.isEmpty

/-- The order `a < b` of two strings of digits, by code units. -/
def digitsLt : List (Fin 10) → List (Fin 10) → Bool
  | _, [] => false
  | [], _ :: _ => true
  | a :: as, b :: bs => decide (a < b) || (a == b && digitsLt as bs)

/-- The comparison `a < b`: of two strings by code units, otherwise of the
numbers the operands convert to. -/
def lt (a b : Value) : Bool :=
  match a, b with
  | digits x, digits y => digitsLt x y
  | _, _ => Number.lt a.toNumber b.toNumber

/-- The sum `v + CONFIG.MIN_BID_INCREMENT`: a number is added to, a string is
extended by the numeral `1`, the text of the increment. -/
def plusIncrement : Value → Value
  | num x => num (x.add (Number.ofInt CONFIG.MIN_BID_INCREMENT))
  | digits ds => digits (ds ++ [1])

/-- The sort order of the store: numbers before strings, NaN the least number,
strings by code units. -/
def storeLe : Value → Value → Bool
  | num x, num y => x == Number.nan || (!(y == Number.nan) && !Number.lt y x)
  | num _, digits _ => true
  | digits _, num _ => false
  | digits a, digits b => !digitsLt b a

end Value

/-- A document of the `users` collection. -/
structure User where
  uid : String
  username : String
  appraiCentsBalance : Number
  totalBidsPlaced : Int
  totalWins : Int
  createdAt : Nat
  lastActivity : Nat
deriving DecidableEq, Repr

/-- A document of the `auctions` collection. -/
structure Auction where
  id : String
  artistName : String
  artworkTitle : String
  description : String
  reserveBid : Number
  currentHighBid : Value
  highestBidder : Option String
  endDate : Nat
  active : Bool
  createdAt : Nat
  lastBidAt : Option Nat
deriving DecidableEq, Repr

/-- A document of the `bids` collection. -/
structure Bid where
  uid : String
  username : String
  itemId : String
  amount : Value
  active : Bool
  createdAt : Nat
  replacedAt : Option Nat
  outbidAt : Option Nat
  removedAt : Option Nat
deriving DecidableEq, Repr

/-- The database: the three collections. -/
structure Db where
  users : List User
  auctions : List Auction
  bids : List Bid
deriving DecidableEq, Repr

/-- The query `{ uid: uid }` on `users`. -/
def userQuery (uid : String) (u : User) : Bool := u.uid == uid

/-- The query `{ uid: uid, itemId: auctionId, active: true }` on `bids`. -/
def ownBidQuery (uid auctionId : String) (b : Bid) : Bool :=
  b.uid == uid && b.itemId == auctionId && b.active

/-- The query `{ itemId: auctionId, username: name, active: true }` on `bids`. -/
def namedBidQuery (auctionId name : String) (b : Bid) : Bool :=
  b.itemId == auctionId && b.username == name && b.active

/-- The query `{ itemId: auctionId, active: true }` on `bids`. -/
def itemBidQuery (auctionId : String) (b : Bid) : Bool :=
  b.itemId == auctionId && b.active

/-- The query `{ id: auctionId, active: true }` on `auctions`. -/
def activeAuctionQuery (auctionId : String) (a : Auction) : Bool :=
  a.id == auctionId && a.active

/-- The query `{ id: auctionId }` on `auctions`. -/
def auctionQuery (auctionId : String) (a : Auction) : Bool := a.id == auctionId

/-- The update `{ $inc: { appraiCentsBalance: n } }` for a number `n`. -/
def incBalance (n : Number) (u : User) : User :=
  { u with appraiCentsBalance := u.appraiCentsBalance.add n }

/-- The update `{ $inc: { appraiCentsBalance: -bidAmount, totalBidsPlaced: 1 } }`. -/
def debitBid (bidAmount : Value) (u : User) : User :=
  { u with appraiCentsBalance := u.appraiCentsBalance.add bidAmount.toNumber.neg,
           totalBidsPlaced := u.totalBidsPlaced + 1 }

/-- The update `{ $set: { active: false, replacedAt: now } }`. -/
def markReplaced (now : Nat) (b : Bid) : Bid :=
  { b with active := false, replacedAt := some now }

/-- The update `{ $set: { active: false, outbidAt: now } }`. -/
def markOutbid (now : Nat) (b : Bid) : Bid :=
  { b with active := false, outbidAt := some now }

/-- The update `{ $set: { active: false, removedAt: now } }`. -/
def markRemoved (now : Nat) (b : Bid) : Bid :=
  { b with active := false, removedAt := some now }

/-- The update `{ $set: { currentHighBid, highestBidder, lastBidAt: now } }`. -/
def setHighBid (amount : Value) (name : String) (now : Nat) (a : Auction) : Auction :=
  { a with currentHighBid := amount, highestBidder := some name, lastBidAt := some now }

/-- The update `{ $set: { currentHighBid, highestBidder } }` of the removal. -/
def resetHighBid (amount : Value) (name : Option String) (a : Auction) : Auction :=
  { a with currentHighBid := amount, highestBidder := name }

/-- The answer of a bid handler: `{ success: false, message }`, the refusal
`Bid must be at least ${minimumBid} aC` with the value it prints, or one of the
two successes with the number it carries. -/
inductive Response where
  | failure (message : String)
  | tooLow (minimumBid : Value)
  | placed (newBalance : Number)
  | removed (refundedAmount : Number)
deriving DecidableEq, Repr

/-- The field `success` of the answer. -/
def Response.success : Response → Bool
  | .failure _ => false
  | .tooLow _ => false
  | .placed _ => true
  | .removed _ => true

/-- The body of `POST /api/bid`. -/
structure BidRequest where
  uid : String
  username : String
  auctionId : String
  bidAmount : Value
deriving DecidableEq, Repr

/-- The floor `(auction.currentHighBid || auction.reserveBid) + MIN_BID_INCREMENT`. -/
def minimumBid (auction : Auction) : Value :=
  (if auction.currentHighBid.truthy then auction.currentHighBid
   else .num auction.reserveBid).plusIncrement

/-- Lines 319-338: refund and deactivate the bidder's own active bid; the result
carries the term `existingBid ? existingBid.amount : 0` of the answer.  The
store refuses `$inc` by a string, and the handler then throws: `none`. -/
def refundExisting (now : Nat) (r : BidRequest) (s : Db) : Option (Db × Number) :=
  match s.bids.find? (ownBidQuery r.uid r.auctionId) with
  | some existingBid =>
    match existingBid.amount with
    | .num amount =>
      some ({ s with
              users := updateOne (userQuery r.uid) (incBalance amount) s.users,
              bids := updateOne (ownBidQuery r.uid r.auctionId) (markReplaced now) s.bids },
            amount)
    | .digits _ => none
  | none => some (s, Number.ofInt 0)

/-- The guard `auction.currentHighBid > 0 && auction.highestBidder &&
auction.highestBidder !== username`; it yields the name to look up. -/
def outbidName (auction : Auction) (username : String) : Option String :=
  match auction.highestBidder with
  | some h =>
    if (Value.num (Number.ofInt 0)).lt auction.currentHighBid = true ∧ h ≠ "" ∧ h ≠ username then
      some h
    else none
  | none => none

/-- Lines 340-359: refund and deactivate the bid of the previous highest
bidder; `none` when the store refuses the `$inc`. -/
def refundOutbid (now : Nat) (r : BidRequest) (auction : Auction) (s : Db) : Option Db :=
  match outbidName auction r.username with
  | some h =>
    match s.bids.find? (namedBidQuery r.auctionId h) with
    | some previousHighBid =>
      match previousHighBid.amount with
      | .num amount =>
        some { s with
               users := updateOne (userQuery previousHighBid.uid) (incBalance amount) s.users,
               bids := updateOne (namedBidQuery r.auctionId h) (markOutbid now) s.bids }
      | .digits _ => none
    | none => some s
  | none => some s

/-- The document `newBid` of lines 373-380. -/
def newBid (now : Nat) (r : BidRequest) : Bid :=
  { uid := r.uid, username := r.username, itemId := r.auctionId, amount := r.bidAmount,
    active := true, createdAt := now, replacedAt := none, outbidAt := none,
    removedAt := none }

/-- Lines 361-394: debit the bidder, insert the bid, update the auction. -/
def commitBid (now : Nat) (r : BidRequest) (s : Db) : Db :=
  { users := updateOne (userQuery r.uid) (debitBid r.bidAmount) s.users,
    bids := s.bids ++ [newBid now r],
    auctions := updateOne (auctionQuery r.auctionId)
                  (setHighBid r.bidAmount r.username now) s.auctions }

/-- The handler of `POST /api/bid`: the database after the request and the
answer.  When the store refuses an update the handler answers from its `catch`
branch, and the writes made before stay. -/
def placeBid (now : Nat) (s : Db) (r : BidRequest) : Db × Response :=
  if r.uid == "" || r.username == "" || r.auctionId == "" || !r.bidAmount.truthy then
    (s, .failure "All fields required")
  else
    match s.users.find? (userQuery r.uid) with
    | none => (s, .failure "User not found")
    | some user =>
      if (Value.num user.appraiCentsBalance).lt r.bidAmount then
        (s, .failure "Insufficient appraiCENTS balance")
      else
        match s.auctions.find? (activeAuctionQuery r.auctionId) with
        | none => (s, .failure "Auction not found or inactive")
        | some auction =>
          if r.bidAmount.lt (minimumBid auction) then (s, .tooLow (minimumBid auction))
          else
            match refundExisting now r s with
            | none => (s, .failure "Error placing bid")
            | some (s1, refund) =>
              match refundOutbid now r auction s1 with
              | none => (s1, .failure "Error placing bid")
              | some s2 =>
                (commitBid now r s2,
                 .placed ((user.appraiCentsBalance.sub r.bidAmount.toNumber).add refund))

/-- The remaining bids `find({ itemId, active: true }).sort({ amount: -1 })`. -/
def remainingBids (auctionId : String) (bids : List Bid) : List Bid :=
  (bids.filter (itemBidQuery auctionId)).insertionSort
    (fun a b => Value.storeLe b.amount a.amount = true)

/-- The handler of `POST /api/bid/remove`. -/
def removeBid (now : Nat) (s : Db) (r : RemoveRequest) : Db × Response :=
  if r.uid == "" || r.auctionId == "" then (s, .failure "UID and auction ID required")
  else
    match s.bids.find? (ownBidQuery r.uid r.auctionId) with
    | none => (s, .failure "No active bid found")
    | some bid =>
      match bid.amount with
      | .digits _ => (s, .failure "Error removing bid")
      | .num amount =>
        let users := updateOne (userQuery r.uid) (incBalance amount) s.users
        let bids := updateOne (ownBidQuery r.uid r.auctionId) (markRemoved now) s.bids
        let auctions :=
          match remainingBids r.auctionId bids with
          | top :: _ =>
            updateOne (auctionQuery r.auctionId)
              (resetHighBid top.amount (some top.username)) s.auctions
          | [] =>
            updateOne (auctionQuery r.auctionId)
              (resetHighBid (.num (Number.ofInt 0)) none) s.auctions
        ({ users := users, auctions := auctions, bids := bids }, .removed amount)

/-- A request to one of the two bid endpoints. -/
inductive Call where
  | bid (now : Nat) (r : BidRequest)
  | remove (now : Nat) (r : RemoveRequest)
deriving DecidableEq, Repr

/-- The database after one request. -/
def step (s : Db) : Call → Db
  | .bid now r => (placeBid now s r).1
  | .remove now r => (removeBid now s r).1

/-- The database after a sequence of requests, served one at a time. -/
def run (s : Db) (calls : List Call) : Db := calls.foldl step s

/-- The stored balance of the user `uid`, if there is one. -/
def balanceOf (s : Db) (uid : String) : Option Number :=
  (s.users.find? (userQuery uid)).map (fun u => u.appraiCentsBalance)

/-- A user document as `initializeUser` creates it, with a given balance. -/
def sampleUser (uid username : String) (balance : Number) : User :=
  { uid := uid, username := username, appraiCentsBalance := balance, totalBidsPlaced := 0,
    totalWins := 0, createdAt := 0, lastActivity := 0 }

/-- The seeded auction `auction1` of `addSampleAuctions`. -/
def auction1 : Auction :=
  { id := "auction1", artistName := "Digital Dreams Studio", artworkTitle := "Neon Cityscape",
    description := "A vibrant digital painting of a futuristic city at night",
    reserveBid := Number.ofInt 50, currentHighBid := .num (Number.ofInt 0), highestBidder := none,
    endDate := 604800, active := true, createdAt := 0, lastBidAt := none }

/-- The seeded auction `auction3` of `addSampleAuctions`. -/
def auction3 : Auction :=
  { id := "auction3", artistName := "Virtual Canvas Co.", artworkTitle := "Mountain Sunrise",
    description := "Serene digital landscape of mountains at sunrise",
    reserveBid := Number.ofInt 30, currentHighBid := .num (Number.ofInt 0), highestBidder := none,
    endDate := 604800, active := true, createdAt := 0, lastBidAt := none }

/-- Two users as `initializeUser` creates them, with `STARTING_APPRAICENTS`
each, and the seeded auctions; no bids. -/
def dbFresh : Db :=
  { users := [sampleUser "u1" "alice" (Number.ofInt CONFIG.STARTING_APPRAICENTS),
              sampleUser "u2" "bob" (Number.ofInt CONFIG.STARTING_APPRAICENTS)],
    auctions := [auction1, auction3], bids := [] }

/-- Alice bids 128.2 on `auction1` and 32.4 on `auction3`, and withdraws both
bids. -/
def callsFractions : List Call :=
  [.bid 1 ⟨"u1", "alice", "auction1", .num (Number.ofDecimal 1282 1)⟩,
   .bid 2 ⟨"u1", "alice", "auction3", .num (Number.ofDecimal 324 1)⟩,
   .remove 3 ⟨"u1", "auction1"⟩, .remove 4 ⟨"u1", "auction3"⟩]

/-- Alice bids 88.4 on `auction1`. -/
def callsRaise : List Call :=
  [.bid 1 ⟨"u1", "alice", "auction1", .num (Number.ofDecimal 884 1)⟩]

/-- Alice bids the string `"60"` on `auction1`. -/
def callsText : List Call := [.bid 1 ⟨"u1", "alice", "auction1", .digits [6, 0]⟩]

/-- Alice bids 51.1 on `auction3`. -/
def callsAside : List Call :=
  [.bid 1 ⟨"u1", "alice", "auction3", .num (Number.ofDecimal 511 1)⟩]

/-- Alice has a balance of `2^53` and the active bid of 1 on `auction1`. -/
def dbLarge : Db :=
  { users := [sampleUser "u1" "alice" (Number.ofInt (2 ^ 53))],
    auctions := [{ auction1 with currentHighBid := .num (Number.ofInt 1),
                                 highestBidder := some "alice", lastBidAt := some 1 }],
    bids := [{ uid := "u1", username := "alice", itemId := "auction1",
               amount := .num (Number.ofInt 1), active := true, createdAt := 1,
               replacedAt := none, outbidAt := none, removedAt := none }] }

/-- Alice holds the high bid of `2^53` on `auction1`; bob has a balance of
`2^53`. -/
def dbLargeBid : Db :=
  { users := [sampleUser "u1" "alice" (Number.ofInt 0),
              sampleUser "u2" "bob" (Number.ofInt (2 ^ 53))],
    auctions := [{ auction1 with currentHighBid := .num (Number.ofInt (2 ^ 53)),
                                 highestBidder := some "alice", lastBidAt := some 1 }],
    bids := [{ uid := "u1", username := "alice", itemId := "auction1",
               amount := .num (Number.ofInt (2 ^ 53)), active := true, createdAt := 1,
               replacedAt := none, outbidAt := none, removedAt := none }] }

/-- Alice has a balance of `2^53 + 34`; the seeded auctions, no bids. -/
def dbLargeBalance : Db :=
  { users := [sampleUser "u1" "alice" (Number.ofInt (2 ^ 53 + 34))],
    auctions := [auction1, auction3], bids := [] }

end Js

/-! ## Lemmas -/

/-- The shape of `updateOne`: nothing matches and the list is unchanged, or the
list splits at its first match, which alone is rewritten. -/
theorem updateOne_cases {α : Type} (q : α → Bool) (u : α → α) (l : List α) :
    (l.find? q = none ∧ updateOne q u l = l) ∨
    ∃ l1 x l2, l = l1 ++ x :: l2 ∧ (∀ y ∈ l1, q y = false) ∧ q x = true ∧
      l.find? q = some x ∧ updateOne q u l = l1 ++ u x :: l2 := by
  induction l with
  | nil => left; simp [updateOne]
  | cons a t ih =>
    by_cases ha : q a = true
    · right
      exact ⟨[], a, t, by simp, by simp, ha, by simp [List.find?, ha], by simp [updateOne, ha]⟩
    · have ha' : q a = false := by simpa using ha
      rcases ih with ⟨h1, h2⟩ | ⟨l1, x, l2, h1, h2, h3, h4, h5⟩
      · left
        exact ⟨by simp [List.find?, ha', h1], by simp [updateOne, ha', h2]⟩
      · right
        refine ⟨a :: l1, x, l2, by simp [h1], ?_, h3, by simp [List.find?, ha', h4],
          by simp [updateOne, ha', h5]⟩
        intro y hy
        rcases List.mem_cons.mp hy with rfl | hy
        · exact ha'
        · exact h2 y hy

theorem updateOne_of_find {α : Type} (q : α → Bool) (u : α → α) (l : List α) (x : α)
    (h : l.find? q = some x) :
    ∃ l1 l2, l = l1 ++ x :: l2 ∧ (∀ y ∈ l1, q y = false) ∧ q x = true ∧
      updateOne q u l = l1 ++ u x :: l2 := by
  rcases updateOne_cases q u l with ⟨h1, _⟩ | ⟨l1, y, l2, h1, h2, h3, h4, h5⟩
  · rw [h1] at h; cases h
  · rw [h4] at h; cases h
    exact ⟨l1, l2, h1, h2, h3, h5⟩

theorem updateOne_of_find_none {α : Type} (q : α → Bool) (u : α → α) (l : List α)
    (h : l.find? q = none) : updateOne q u l = l := by
  rcases updateOne_cases q u l with ⟨_, h2⟩ | ⟨l1, y, l2, _, _, _, h4, _⟩
  · exact h2
  · rw [h4] at h; cases h

theorem map_updateOne {α β : Type} (q : α → Bool) (u : α → α) (g : α → β)
    (hg : ∀ x, g (u x) = g x) (l : List α) : (updateOne q u l).map g = l.map g := by
  induction l with
  | nil => rfl
  | cons a t ih =>
    by_cases ha : q a = true
    · simp [updateOne, ha, hg]
    · simp [updateOne, ha, ih]

theorem find?_updateOne_same {α : Type} (q : α → Bool) (u : α → α)
    (hq : ∀ x, q x = true → q (u x) = true) (l : List α) :
    (updateOne q u l).find? q = (l.find? q).map u := by
  induction l with
  | nil => rfl
  | cons a t ih =>
    by_cases ha : q a = true
    · simp [updateOne, ha, List.find?, hq a ha]
    · have ha' : q a = false := by simpa using ha
      simp [updateOne, ha', List.find?, ih]

theorem find?_updateOne_other {α : Type} (q p : α → Bool) (u : α → α)
    (hp : ∀ x, q x = true → p x = false ∧ p (u x) = false) (l : List α) :
    (updateOne q u l).find? p = l.find? p := by
  induction l with
  | nil => rfl
  | cons a t ih =>
    by_cases ha : q a = true
    · simp [updateOne, ha, List.find?, (hp a ha).1, (hp a ha).2]
    · have ha' : q a = false := by simpa using ha
      by_cases hpa : p a = true
      · simp [updateOne, ha', List.find?, hpa]
      · have hpa' : p a = false := by simpa using hpa
        simp [updateOne, ha', List.find?, hpa', ih]

theorem mem_updateOne {α : Type} (q : α → Bool) (u : α → α) (l : List α) (y : α)
    (h : y ∈ updateOne q u l) : y ∈ l ∨ ∃ x ∈ l, q x = true ∧ y = u x := by
  rcases updateOne_cases q u l with ⟨_, h2⟩ | ⟨l1, x, l2, h1, _, h3, _, h5⟩
  · rw [h2] at h; exact Or.inl h
  · rw [h5] at h
    rcases List.mem_append.mp h with h | h
    · left; rw [h1]; exact List.mem_append_left _ h
    · rcases List.mem_cons.mp h with h | h
      · right; exact ⟨x, by rw [h1]; simp, h3, h⟩
      · left; rw [h1]; simp [h]

theorem placeBid_of_success (now : Nat) (s : Db) (r : BidRequest) (user : User)
    (auction : Auction) (hf : missingField r = false)
    (hu : s.users.find? (userQuery r.uid) = some user)
    (hb : r.bidAmount ≤ user.appraiCentsBalance)
    (ha : s.auctions.find? (activeAuctionQuery r.auctionId) = some auction)
    (hm : minimumBid auction ≤ r.bidAmount) :
    placeBid now s r =
      (commitBid now r (refundOutbid now r auction (refundExisting now r s)),
       { success := true, message := "Bid placed successfully",
         newBalance := some (user.appraiCentsBalance - r.bidAmount + existingAmount s r),
         refundedAmount := none }) := by
  unfold placeBid
  simp only [hf, hu, ha]
  rw [if_neg (by simp), if_neg (not_lt.mpr hb), if_neg (not_lt.mpr hm)]

/-- The two outcomes of `placeBid`: a refusal that changes nothing, or the five
checks passed. -/
theorem placeBid_cases (now : Nat) (s : Db) (r : BidRequest) :
    (placeBid now s r).1 = s ∧ (placeBid now s r).2.success = false ∨
    ∃ user auction, missingField r = false ∧
      s.users.find? (userQuery r.uid) = some user ∧
      r.bidAmount ≤ user.appraiCentsBalance ∧
      s.auctions.find? (activeAuctionQuery r.auctionId) = some auction ∧
      minimumBid auction ≤ r.bidAmount := by
  by_cases hf : missingField r = true
  · left; unfold placeBid; simp [hf, failure]
  · have hf' : missingField r = false := by simpa using hf
    cases hu : s.users.find? (userQuery r.uid) with
    | none => left; unfold placeBid; simp [hf', hu, failure]
    | some user =>
      by_cases hb : user.appraiCentsBalance < r.bidAmount
      · left; unfold placeBid; simp [hf', hu, hb, failure]
      · cases ha : s.auctions.find? (activeAuctionQuery r.auctionId) with
        | none => left; unfold placeBid; simp [hf', hu, hb, ha, failure]
        | some auction =>
          by_cases hm : r.bidAmount < minimumBid auction
          · left; unfold placeBid; simp [hf', hu, hb, ha, hm, failure]
          · right
            exact ⟨user, auction, hf', rfl, not_lt.mp hb, rfl, not_lt.mp hm⟩

theorem placeBid_success_inv (now : Nat) (s : Db) (r : BidRequest)
    (h : (placeBid now s r).2.success = true) :
    ∃ user auction, missingField r = false ∧
      s.users.find? (userQuery r.uid) = some user ∧
      r.bidAmount ≤ user.appraiCentsBalance ∧
      s.auctions.find? (activeAuctionQuery r.auctionId) = some auction ∧
      minimumBid auction ≤ r.bidAmount := by
  rcases placeBid_cases now s r with ⟨_, h2⟩ | h2
  · rw [h2] at h; cases h
  · exact h2

theorem updateOne_id {α : Type} (q : α → Bool) (u : α → α) (hu : ∀ x, u x = x)
    (l : List α) : updateOne q u l = l := by
  induction l with
  | nil => rfl
  | cons a t ih =>
    by_cases ha : q a = true
    · simp [updateOne, ha, hu]
    · simp [updateOne, ha, ih]

theorem length_updateOne {α : Type} (q : α → Bool) (u : α → α) (l : List α) :
    (updateOne q u l).length = l.length := by
  induction l with
  | nil => rfl
  | cons a t ih =>
    by_cases ha : q a = true
    · simp [updateOne, ha]
    · simp [updateOne, ha, ih]

theorem filter_updateOne_self {α : Type} (q : α → Bool) (u : α → α)
    (hq : ∀ x, q x = true → q (u x) = false) (l : List α) :
    (updateOne q u l).filter q = (l.filter q).tail := by
  induction l with
  | nil => rfl
  | cons a t ih =>
    by_cases ha : q a = true
    · simp [updateOne, ha, List.filter, hq a ha]
    · have ha' : q a = false := by simpa using ha
      simp [updateOne, ha', List.filter, ih]

theorem filter_updateOne_sublist {α : Type} (q p : α → Bool) (u : α → α)
    (hp : ∀ x, q x = true → p (u x) = false) (l : List α) :
    List.Sublist ((updateOne q u l).filter p) (l.filter p) := by
  induction l with
  | nil => simp [updateOne]
  | cons a t ih =>
    by_cases ha : q a = true
    · simp only [updateOne, ha, if_true]
      rw [List.filter_cons_of_neg (by simp [hp a ha])]
      by_cases hpa : p a = true
      · rw [List.filter_cons_of_pos hpa]; exact List.sublist_cons_self _ _
      · rw [List.filter_cons_of_neg hpa]
    · have ha' : q a = false := by simpa using ha
      simp only [updateOne, ha']
      by_cases hpa : p a = true
      · simp only [Bool.false_eq_true, if_false, List.filter_cons_of_pos hpa]
        exact List.Sublist.cons₂ _ ih
      · simp only [Bool.false_eq_true, if_false, List.filter_cons_of_neg hpa]
        exact ih

theorem getElem?_updateOne_of_find {α : Type} (q : α → Bool) (u : α → α) (l : List α)
    (x : α) (h : l.find? q = some x) :
    ∃ i : Nat, l[i]? = some x ∧ (updateOne q u l)[i]? = some (u x) := by
  obtain ⟨l1, l2, h1, _, _, h4⟩ := updateOne_of_find q u l x h
  refine ⟨l1.length, ?_, ?_⟩
  · rw [h1, List.getElem?_append_right (le_refl _)]; simp
  · rw [h4, List.getElem?_append_right (le_refl _)]; simp

theorem getElem?_updateOne_of_not {α : Type} (q : α → Bool) (u : α → α) (l : List α)
    (i : Nat) (x : α) (h : l[i]? = some x) (hx : q x = false) :
    (updateOne q u l)[i]? = some x := by
  induction l generalizing i with
  | nil => simp at h
  | cons a t ih =>
    cases i with
    | zero =>
      simp at h; subst h
      simp [updateOne, hx]
    | succ j =>
      simp at h
      by_cases ha : q a = true
      · simp [updateOne, ha, h]
      · simp [updateOne, ha, ih j h]

theorem find?_eq_head?_filter {α : Type} (q : α → Bool) (l : List α) :
    l.find? q = (l.filter q).head? := by
  induction l with
  | nil => rfl
  | cons a t ih =>
    by_cases ha : q a = true
    · rw [List.find?_cons_of_pos _ ha, List.filter_cons_of_pos ha]; rfl
    · rw [List.find?_cons_of_neg _ ha, List.filter_cons_of_neg ha]; exact ih

theorem refundExisting_eq (now : Nat) (r : BidRequest) (s : Db) :
    refundExisting now r s =
      { users := updateOne (userQuery r.uid) (incBalance (existingAmount s r)) s.users,
        auctions := s.auctions,
        bids := updateOne (ownBidQuery r.uid r.auctionId) (markReplaced now) s.bids } := by
  unfold refundExisting existingAmount
  cases h : s.bids.find? (ownBidQuery r.uid r.auctionId) with
  | none =>
    simp only
    rw [updateOne_of_find_none _ _ _ h, updateOne_id _ _ (by intro x; simp [incBalance])]
  | some e => rfl

theorem refundOutbid_cases (now : Nat) (r : BidRequest) (auction : Auction) (s : Db) :
    refundOutbid now r auction s = s ∨
    ∃ h p, outbidName auction r.username = some h ∧
      s.bids.find? (namedBidQuery r.auctionId h) = some p ∧
      refundOutbid now r auction s =
        { users := updateOne (userQuery p.uid) (incBalance p.amount) s.users,
          auctions := s.auctions,
          bids := updateOne (namedBidQuery r.auctionId h) (markOutbid now) s.bids } := by
  cases h1 : outbidName auction r.username with
  | none => left; simp only [refundOutbid, h1]
  | some h =>
    cases h2 : s.bids.find? (namedBidQuery r.auctionId h) with
    | none => left; simp only [refundOutbid, h1, h2]
    | some p => right; exact ⟨h, p, rfl, h2, by simp only [refundOutbid, h1, h2]⟩

theorem refundOutbid_auctions (now : Nat) (r : BidRequest) (auction : Auction) (s : Db) :
    (refundOutbid now r auction s).auctions = s.auctions := by
  rcases refundOutbid_cases now r auction s with h | ⟨_, _, _, _, h⟩ <;> rw [h]

theorem refundOutbid_bids_sublist (now : Nat) (r : BidRequest) (auction : Auction) (s : Db)
    (p : Bid → Bool) (hp : ∀ b, b.active = false → p b = false) :
    List.Sublist ((refundOutbid now r auction s).bids.filter p) (s.bids.filter p) := by
  rcases refundOutbid_cases now r auction s with h | ⟨_, _, _, _, h⟩
  · rw [h]
  · rw [h]
    exact filter_updateOne_sublist _ _ _ (fun x _ => hp _ rfl) _

theorem ownBidQuery_inactive (uid auctionId : String) (b : Bid) (h : b.active = false) :
    ownBidQuery uid auctionId b = false := by
  simp [ownBidQuery, h]

theorem ownBidQuery_newBid (now : Nat) (r : BidRequest) :
    ownBidQuery r.uid r.auctionId (newBid now r) = true := by
  simp [ownBidQuery, newBid]

theorem refundExisting_own_nil (now : Nat) (r : BidRequest) (s : Db)
    (h : (ownActiveBids s r.uid r.auctionId).length ≤ 1) :
    (refundExisting now r s).bids.filter (ownBidQuery r.uid r.auctionId) = [] := by
  rw [refundExisting_eq]
  simp only
  rw [filter_updateOne_self _ _ (fun x _ => ownBidQuery_inactive _ _ _ rfl)]
  apply List.length_eq_zero.mp
  rw [List.length_tail]
  unfold ownActiveBids at h
  omega

theorem refunded_own_nil (now : Nat) (r : BidRequest) (auction : Auction) (s : Db)
    (h : (ownActiveBids s r.uid r.auctionId).length ≤ 1) :
    (refundOutbid now r auction (refundExisting now r s)).bids.filter
      (ownBidQuery r.uid r.auctionId) = [] := by
  have h1 := refundOutbid_bids_sublist now r auction (refundExisting now r s)
    (ownBidQuery r.uid r.auctionId) (fun b hb => ownBidQuery_inactive _ _ b hb)
  rw [refundExisting_own_nil now r s h] at h1
  exact List.sublist_nil.mp h1

theorem ownActiveBids_commit (now : Nat) (r : BidRequest) (auction : Auction) (s : Db)
    (h : (ownActiveBids s r.uid r.auctionId).length ≤ 1) :
    ownActiveBids (commitBid now r (refundOutbid now r auction (refundExisting now r s)))
      r.uid r.auctionId = [newBid now r] := by
  unfold ownActiveBids commitBid
  simp only [List.filter_append]
  rw [refunded_own_nil now r auction s h]
  simp [List.filter, ownBidQuery_newBid]

theorem refunded_sublist (now : Nat) (r : BidRequest) (auction : Auction) (s : Db)
    (p : Bid → Bool) (hp : ∀ b, b.active = false → p b = false) :
    List.Sublist ((refundOutbid now r auction (refundExisting now r s)).bids.filter p)
      (s.bids.filter p) := by
  refine (refundOutbid_bids_sublist now r auction _ p hp).trans ?_
  rw [refundExisting_eq]
  exact filter_updateOne_sublist _ _ _ (fun x _ => hp _ rfl) _

theorem find_user_refundExisting (now : Nat) (r : BidRequest) (s : Db) :
    (refundExisting now r s).users.find? (userQuery r.uid) =
      (s.users.find? (userQuery r.uid)).map (incBalance (existingAmount s r)) := by
  rw [refundExisting_eq]
  exact find?_updateOne_same _ _ (fun x hx => by simpa [userQuery, incBalance] using hx) _

theorem find_user_refundOutbid (now : Nat) (r : BidRequest) (auction : Auction) (s : Db)
    (h : s.bids.filter (ownBidQuery r.uid r.auctionId) = []) :
    (refundOutbid now r auction s).users.find? (userQuery r.uid) =
      s.users.find? (userQuery r.uid) := by
  rcases refundOutbid_cases now r auction s with h1 | ⟨n, p, _, hp, h1⟩
  · rw [h1]
  · rw [h1]
    simp only
    have hq := List.find?_some hp
    have hmem := List.mem_of_find?_eq_some hp
    have hne : ownBidQuery r.uid r.auctionId p = false := by
      by_contra hc
      have : p ∈ s.bids.filter (ownBidQuery r.uid r.auctionId) :=
        List.mem_filter.mpr ⟨hmem, by simpa using hc⟩
      rw [h] at this
      cases this
    have huid : p.uid ≠ r.uid := by
      intro he
      simp only [namedBidQuery, Bool.and_eq_true, beq_iff_eq] at hq
      simp [ownBidQuery, he, hq.1.1, hq.2] at hne
    apply find?_updateOne_other
    intro x hx
    simp only [userQuery, beq_iff_eq] at hx
    simp only [userQuery, incBalance, beq_eq_false_iff_ne, ne_eq]
    exact ⟨fun h' => huid (hx ▸ h'), fun h' => huid (hx ▸ h')⟩

theorem find_user_commitBid (now : Nat) (r : BidRequest) (s : Db) :
    (commitBid now r s).users.find? (userQuery r.uid) =
      (s.users.find? (userQuery r.uid)).map (debitBid r.bidAmount) := by
  unfold commitBid
  exact find?_updateOne_same _ _ (fun x hx => by simpa [userQuery, debitBid] using hx) _

theorem balanceOf_commit (now : Nat) (r : BidRequest) (auction : Auction) (s : Db)
    (user : User) (hu : s.users.find? (userQuery r.uid) = some user)
    (h : (ownActiveBids s r.uid r.auctionId).length ≤ 1) :
    balanceOf (commitBid now r (refundOutbid now r auction (refundExisting now r s))) r.uid =
      some (user.appraiCentsBalance - r.bidAmount + existingAmount s r) := by
  unfold balanceOf
  rw [find_user_commitBid, find_user_refundOutbid _ _ _ _ (refundExisting_own_nil now r s h),
    find_user_refundExisting, hu]
  simp only [Option.map_some', debitBid, incBalance, Option.some.injEq]
  omega

/-- The two outcomes of `removeBid`: a refusal that changes nothing, or the
three rewritten collections and the refunded amount. -/
theorem removeBid_cases (now : Nat) (s : Db) (r : RemoveRequest) :
    (removeBid now s r).1 = s ∧ (removeBid now s r).2.success = false ∧
        ((r.uid == "" || r.auctionId == "") = true ∨
          s.bids.find? (ownBidQuery r.uid r.auctionId) = none) ∨
    ∃ bid, (r.uid == "" || r.auctionId == "") = false ∧
      s.bids.find? (ownBidQuery r.uid r.auctionId) = some bid ∧
      (removeBid now s r).1.users =
        updateOne (userQuery r.uid) (incBalance bid.amount) s.users ∧
      (removeBid now s r).1.bids =
        updateOne (ownBidQuery r.uid r.auctionId) (markRemoved now) s.bids ∧
      (removeBid now s r).1.auctions =
        (match remainingBids r.auctionId
            (updateOne (ownBidQuery r.uid r.auctionId) (markRemoved now) s.bids) with
        | top :: _ =>
          updateOne (auctionQuery r.auctionId)
            (resetHighBid top.amount (some top.username)) s.auctions
        | [] => updateOne (auctionQuery r.auctionId) (resetHighBid 0 none) s.auctions) ∧
      (removeBid now s r).2 =
        { success := true, message := "Bid removed and appraiCENTS refunded",
          newBalance := none, refundedAmount := some bid.amount } := by
  by_cases hf : (r.uid == "" || r.auctionId == "") = true
  · left; unfold removeBid; rw [if_pos hf]; exact ⟨rfl, rfl, Or.inl hf⟩
  · have hf' : (r.uid == "" || r.auctionId == "") = false := by simpa using hf
    cases hb : s.bids.find? (ownBidQuery r.uid r.auctionId) with
    | none =>
      left
      have e : removeBid now s r = (s, failure "No active bid found") := by
        unfold removeBid; rw [if_neg hf]; simp only [hb]
      rw [e]
      exact ⟨rfl, rfl, Or.inr rfl⟩
    | some bid =>
      right
      refine ⟨bid, hf', rfl, ?_, ?_, ?_, ?_⟩ <;>
        · unfold removeBid; rw [if_neg hf]; simp only [hb]

theorem newBalance_of_single (now : Nat) (s : Db) (r : BidRequest)
    (h1 : (ownActiveBids s r.uid r.auctionId).length ≤ 1)
    (hs : (placeBid now s r).2.success = true) :
    ∃ user, s.users.find? (userQuery r.uid) = some user ∧
      (placeBid now s r).2.newBalance =
        some (user.appraiCentsBalance - r.bidAmount +
          (match s.bids.find? (ownBidQuery r.uid r.auctionId) with
           | some existingBid => existingBid.amount
           | none => 0)) ∧
      balanceOf (placeBid now s r).1 r.uid = (placeBid now s r).2.newBalance := by
  obtain ⟨user, auction, hf, hu, hb, ha, hm⟩ := placeBid_success_inv now s r hs
  refine ⟨user, hu, ?_, ?_⟩
  · rw [placeBid_of_success now s r user auction hf hu hb ha hm]; rfl
  · rw [placeBid_of_success now s r user auction hf hu hb ha hm]
    exact balanceOf_commit now r auction s user hu h1

theorem getElem?_append_some {α : Type} (l l2 : List α) (i : Nat) (x : α)
    (h : l[i]? = some x) : (l ++ l2)[i]? = some x := by
  obtain ⟨hi, _⟩ := List.getElem?_eq_some.mp h
  rw [List.getElem?_append_left hi, h]

theorem getElem?_refundOutbid (now : Nat) (r : BidRequest) (auction : Auction) (s : Db)
    (i : Nat) (x : Bid) (h : s.bids[i]? = some x) (hx : x.active = false) :
    (refundOutbid now r auction s).bids[i]? = some x := by
  rcases refundOutbid_cases now r auction s with h1 | ⟨n, p, _, _, h1⟩
  · rw [h1]; exact h
  · rw [h1]
    exact getElem?_updateOne_of_not _ _ _ i x h (by simp [namedBidQuery, hx])

theorem replacement_of_single (now : Nat) (s : Db) (r : BidRequest) (e : Bid) (b : Int)
    (he : ownActiveBids s r.uid r.auctionId = [e])
    (hbal : balanceOf s r.uid = some b)
    (hs : (placeBid now s r).2.success = true) :
    (∃ i : Nat, s.bids[i]? = some e ∧
      (placeBid now s r).1.bids[i]? = some (markReplaced now e)) ∧
    balanceOf (placeBid now s r).1 r.uid = some (b + (e.amount - r.bidAmount)) ∧
    ownActiveBids (placeBid now s r).1 r.uid r.auctionId = [newBid now r] ∧
    (newBid now r).amount = r.bidAmount := by
  obtain ⟨user, auction, hf, hu, hb, ha, hm⟩ := placeBid_success_inv now s r hs
  have hlen : (ownActiveBids s r.uid r.auctionId).length ≤ 1 := by rw [he]; simp
  have hfind : s.bids.find? (ownBidQuery r.uid r.auctionId) = some e := by
    rw [find?_eq_head?_filter]
    unfold ownActiveBids at he
    rw [he]; rfl
  have hex : existingAmount s r = e.amount := by
    unfold existingAmount; rw [hfind]
  have hb' : user.appraiCentsBalance = b := by
    unfold balanceOf at hbal
    rw [hu] at hbal
    simpa using hbal
  rw [placeBid_of_success now s r user auction hf hu hb ha hm]
  refine ⟨?_, ?_, ownActiveBids_commit now r auction s hlen, rfl⟩
  · obtain ⟨i, hi1, hi2⟩ := getElem?_updateOne_of_find _ (markReplaced now) _ _ hfind
    refine ⟨i, hi1, ?_⟩
    unfold commitBid
    simp only
    apply getElem?_append_some
    apply getElem?_refundOutbid _ _ _ _ _ _ _ rfl
    rw [refundExisting_eq]
    exact hi2
  · simp only
    rw [balanceOf_commit now r auction s user hu hlen, hex, hb']
    congr 1; omega

theorem mem_updateOne_of_not {α : Type} (q : α → Bool) (u : α → α) (l : List α) (y : α)
    (h : y ∈ l) (hy : q y = false) : y ∈ updateOne q u l := by
  rcases updateOne_cases q u l with ⟨_, h2⟩ | ⟨l1, x, l2, h1, _, h3, _, h5⟩
  · rw [h2]; exact h
  · rw [h5]
    rw [h1] at h
    rcases List.mem_append.mp h with h | h
    · exact List.mem_append_left _ h
    · rcases List.mem_cons.mp h with h | h
      · subst h; rw [hy] at h3; cases h3
      · exact List.mem_append_right _ (List.mem_cons_of_mem _ h)

theorem mem_updateOne_iff_of_other {α : Type} (q p : α → Bool) (u : α → α) (l : List α)
    (hq : ∀ x, q x = true → p x = false ∧ p (u x) = false) (b : α) :
    (b ∈ updateOne q u l ∧ p b = true) ↔ (b ∈ l ∧ p b = true) := by
  constructor
  · rintro ⟨hb, hp⟩
    rcases mem_updateOne q u l b hb with h | ⟨x, _, hx, rfl⟩
    · exact ⟨h, hp⟩
    · rw [(hq x hx).2] at hp; cases hp
  · rintro ⟨hb, hp⟩
    refine ⟨mem_updateOne_of_not q u l b hb ?_, hp⟩
    by_contra hc
    have := (hq b (by simpa using hc)).1
    rw [this] at hp; cases hp

theorem mem_active_updateOne {q : Bid → Bool} {u : Bid → Bid} {l : List Bid} {b : Bid}
    (hu : ∀ x, (u x).active = false) (hb : b ∈ updateOne q u l) (ha : b.active = true) :
    b ∈ l := by
  rcases mem_updateOne q u l b hb with h | ⟨x, _, _, rfl⟩
  · exact h
  · rw [hu x] at ha; cases ha

theorem mem_active_refunded (now : Nat) (r : BidRequest) (auction : Auction) (s : Db)
    (b : Bid) (hb : b ∈ (refundOutbid now r auction (refundExisting now r s)).bids)
    (ha : b.active = true) : b ∈ s.bids := by
  have h1 : b ∈ (refundExisting now r s).bids := by
    rcases refundOutbid_cases now r auction (refundExisting now r s) with h | ⟨_, _, _, _, h⟩
    · rw [h] at hb; exact hb
    · rw [h] at hb
      exact mem_active_updateOne (fun _ => rfl) hb ha
  rw [refundExisting_eq] at h1
  exact mem_active_updateOne (fun _ => rfl) h1 ha

theorem mem_refunded_iff_other (now : Nat) (r : BidRequest) (auction : Auction) (s : Db)
    (aid : String) (hne : aid ≠ r.auctionId) (b : Bid) :
    (b ∈ (refundOutbid now r auction (refundExisting now r s)).bids ∧
        itemBidQuery aid b = true) ↔
      (b ∈ s.bids ∧ itemBidQuery aid b = true) := by
  have step1 : (b ∈ (refundExisting now r s).bids ∧ itemBidQuery aid b = true) ↔
      (b ∈ s.bids ∧ itemBidQuery aid b = true) := by
    rw [refundExisting_eq]
    apply mem_updateOne_iff_of_other
    intro x hx
    simp only [ownBidQuery, Bool.and_eq_true, beq_iff_eq] at hx
    simp [itemBidQuery, markReplaced, hx.1.2, Ne.symm hne]
  refine Iff.trans ?_ step1
  rcases refundOutbid_cases now r auction (refundExisting now r s) with h | ⟨_, _, _, _, h⟩
  · rw [h]
  · rw [h]
    apply mem_updateOne_iff_of_other
    intro x hx
    simp only [namedBidQuery, Bool.and_eq_true, beq_iff_eq] at hx
    simp [itemBidQuery, markOutbid, hx.1.1, Ne.symm hne]

theorem HighBidConsistent_congr (B B' : List Bid) (a : Auction)
    (h : ∀ b, (b ∈ B' ∧ itemBidQuery a.id b = true) ↔ (b ∈ B ∧ itemBidQuery a.id b = true))
    (hc : HighBidConsistent B a) : HighBidConsistent B' a := by
  obtain ⟨h1, h2⟩ := hc
  refine ⟨fun b hb hq => h1 b ((h b).mp ⟨hb, hq⟩).1 hq, ?_⟩
  rcases h2 with ⟨b, hb, hq, h3⟩ | ⟨h3, h4⟩
  · exact Or.inl ⟨b, ((h b).mpr ⟨hb, hq⟩).1, hq, h3⟩
  · right
    refine ⟨fun b hb => ?_, h4⟩
    by_contra hc
    have hq : itemBidQuery a.id b = true := by simpa using hc
    have := h3 b ((h b).mp ⟨hb, hq⟩).1
    rw [this] at hq; cases hq

theorem mem_auctions_updateOne (aid : String) (u : Auction → Auction) (l : List Auction)
    (hnd : (l.map (fun a => a.id)).Nodup) (y : Auction)
    (hy : y ∈ updateOne (auctionQuery aid) u l) :
    (y ∈ l ∧ y.id ≠ aid) ∨ ∃ x ∈ l, x.id = aid ∧ y = u x := by
  induction l with
  | nil => simp [updateOne] at hy
  | cons a t ih =>
    rw [List.map_cons, List.nodup_cons] at hnd
    by_cases ha : auctionQuery aid a = true
    · have ha' : a.id = aid := by simpa [auctionQuery] using ha
      simp only [updateOne, ha, if_true] at hy
      rcases List.mem_cons.mp hy with rfl | hy
      · exact Or.inr ⟨a, List.mem_cons_self _ _, ha', rfl⟩
      · left
        refine ⟨List.mem_cons_of_mem _ hy, fun hid => hnd.1 ?_⟩
        rw [ha', ← hid]
        exact List.mem_map_of_mem (fun a => a.id) hy
    · have ha' : a.id ≠ aid := by simpa [auctionQuery] using ha
      simp only [updateOne, ha] at hy
      rcases List.mem_cons.mp hy with rfl | hy
      · exact Or.inl ⟨List.mem_cons_self _ _, ha'⟩
      · rcases ih hnd.2 hy with ⟨h1, h2⟩ | ⟨x, h1, h2, h3⟩
        · exact Or.inl ⟨List.mem_cons_of_mem _ h1, h2⟩
        · exact Or.inr ⟨x, List.mem_cons_of_mem _ h1, h2, h3⟩

theorem consistent_after_commit (now : Nat) (s : Db) (r : BidRequest) (auction : Auction)
    (hids : UniqueAuctionIds s) (hres : PositiveReserves s) (h : AllConsistent s)
    (ha : s.auctions.find? (activeAuctionQuery r.auctionId) = some auction)
    (hm : minimumBid auction ≤ r.bidAmount) :
    AllConsistent (commitBid now r (refundOutbid now r auction (refundExisting now r s))) := by
  intro a' ha'
  have hamem : auction ∈ s.auctions := List.mem_of_find?_eq_some ha
  have haid : auction.id = r.auctionId := by
    have := List.find?_some ha
    simp only [activeAuctionQuery, Bool.and_eq_true, beq_iff_eq] at this
    exact this.1
  simp only [commitBid, refundOutbid_auctions] at ha' ⊢
  rw [refundExisting_eq] at ha'
  simp only at ha'
  rcases mem_auctions_updateOne _ _ _ hids a' ha' with ⟨hmem, hne⟩ | ⟨x, _, hx, rfl⟩
  · apply HighBidConsistent_congr s.bids _ a' _ (h a' hmem)
    intro b
    rw [← mem_refunded_iff_other now r auction s a'.id hne b]
    constructor
    · rintro ⟨hb, hq⟩
      rcases List.mem_append.mp hb with hb | hb
      · exact ⟨hb, hq⟩
      · rw [List.mem_singleton] at hb
        subst hb
        simp [itemBidQuery, newBid, Ne.symm hne] at hq
    · rintro ⟨hb, hq⟩
      exact ⟨List.mem_append_left _ hb, hq⟩
  · have hgt : ∀ b ∈ s.bids, itemBidQuery r.auctionId b = true → b.amount < r.bidAmount := by
      intro b hb hq
      have h1 := (h auction hamem).1 b hb (by rw [haid]; exact hq)
      have h2 := hres auction hamem
      unfold minimumBid CONFIG.MIN_BID_INCREMENT at hm
      by_cases h0 : auction.currentHighBid = 0
      · rw [if_neg (by simpa using h0)] at hm; omega
      · rw [if_pos h0] at hm; omega
    refine ⟨?_, Or.inl ⟨newBid now r, by simp, ?_, rfl, rfl⟩⟩
    · intro b hb hq
      have hq' : itemBidQuery r.auctionId b = true := by
        simpa [setHighBid, hx] using hq
      rcases List.mem_append.mp hb with hb | hb
      · have hact : b.active = true := by
          simp only [itemBidQuery, Bool.and_eq_true] at hq'
          exact hq'.2
        have := hgt b (mem_active_refunded now r auction s b hb hact) hq'
        simp only [setHighBid]
        omega
      · rw [List.mem_singleton] at hb
        subst hb
        simp [setHighBid, newBid]
    · simp [itemBidQuery, setHighBid, newBid, hx]

theorem remaining_top (aid : String) (bids : List Bid) (top : Bid) (rest : List Bid)
    (h : remainingBids aid bids = top :: rest) :
    (top ∈ bids ∧ itemBidQuery aid top = true) ∧
      ∀ b ∈ bids, itemBidQuery aid b = true → b.amount ≤ top.amount := by
  unfold remainingBids at h
  have hperm := List.perm_insertionSort (fun a b : Bid => b.amount ≤ a.amount)
    (bids.filter (itemBidQuery aid))
  haveI : IsTotal Bid (fun a b : Bid => b.amount ≤ a.amount) :=
    ⟨fun a b => le_total b.amount a.amount⟩
  haveI : IsTrans Bid (fun a b : Bid => b.amount ≤ a.amount) :=
    ⟨fun a b c hab hbc => le_trans hbc hab⟩
  have hsorted := List.sorted_insertionSort (fun a b : Bid => b.amount ≤ a.amount)
    (bids.filter (itemBidQuery aid))
  rw [h] at hperm hsorted
  constructor
  · have : top ∈ bids.filter (itemBidQuery aid) := hperm.subset (List.mem_cons_self _ _)
    exact List.mem_filter.mp this
  · intro b hb hq
    have hmem : b ∈ top :: rest := hperm.symm.subset (List.mem_filter.mpr ⟨hb, hq⟩)
    rcases List.mem_cons.mp hmem with rfl | hmem
    · exact le_refl _
    · exact List.rel_of_sorted_cons hsorted b hmem

theorem remaining_nil (aid : String) (bids : List Bid) (h : remainingBids aid bids = []) :
    ∀ b ∈ bids, itemBidQuery aid b = false := by
  unfold remainingBids at h
  have hperm := List.perm_insertionSort (fun a b : Bid => b.amount ≤ a.amount)
    (bids.filter (itemBidQuery aid))
  rw [h] at hperm
  have hnil : bids.filter (itemBidQuery aid) = [] := List.Perm.nil_eq hperm |>.symm
  intro b hb
  by_contra hc
  have : b ∈ bids.filter (itemBidQuery aid) := List.mem_filter.mpr ⟨hb, by simpa using hc⟩
  rw [hnil] at this
  cases this

theorem consistent_after_remove (now : Nat) (s : Db) (r : RemoveRequest)
    (hids : UniqueAuctionIds s) (h : AllConsistent s) :
    AllConsistent (removeBid now s r).1 := by
  rcases removeBid_cases now s r with ⟨h1, _⟩ | ⟨bid, _, _, _, hbids, hauc, _⟩
  · rw [h1]; exact h
  · intro a' ha'
    rw [hbids]
    rw [hauc] at ha'
    have hother : ∀ a : Auction, a.id ≠ r.auctionId → ∀ b,
        (b ∈ updateOne (ownBidQuery r.uid r.auctionId) (markRemoved now) s.bids ∧
          itemBidQuery a.id b = true) ↔ (b ∈ s.bids ∧ itemBidQuery a.id b = true) := by
      intro a hne b
      apply mem_updateOne_iff_of_other
      intro x hx
      simp only [ownBidQuery, Bool.and_eq_true, beq_iff_eq] at hx
      simp [itemBidQuery, markRemoved, hx.1.2, Ne.symm hne]
    cases hrem : remainingBids r.auctionId
        (updateOne (ownBidQuery r.uid r.auctionId) (markRemoved now) s.bids) with
    | nil =>
      rw [hrem] at ha'
      simp only at ha'
      rcases mem_auctions_updateOne _ _ _ hids a' ha' with ⟨hmem, hne⟩ | ⟨x, _, hx, rfl⟩
      · exact HighBidConsistent_congr s.bids _ a' (hother a' hne) (h a' hmem)
      · have hnone := remaining_nil _ _ hrem
        refine ⟨?_, Or.inr ⟨?_, rfl, rfl⟩⟩
        · intro b hb hq
          have := hnone b hb
          simp only [resetHighBid, hx] at hq
          rw [this] at hq; cases hq
        · intro b hb
          simpa [resetHighBid, hx] using hnone b hb
    | cons top rest =>
      rw [hrem] at ha'
      simp only at ha'
      rcases mem_auctions_updateOne _ _ _ hids a' ha' with ⟨hmem, hne⟩ | ⟨x, _, hx, rfl⟩
      · exact HighBidConsistent_congr s.bids _ a' (hother a' hne) (h a' hmem)
      · obtain ⟨⟨htop, hq⟩, hmax⟩ := remaining_top _ _ top rest hrem
        refine ⟨?_, Or.inl ⟨top, htop, ?_, rfl, rfl⟩⟩
        · intro b hb hqb
          simp only [resetHighBid, hx] at hqb ⊢
          exact hmax b hb hqb
        · simpa [resetHighBid, hx] using hq

theorem escrow_append (l1 l2 : List Bid) (w : String) :
    escrow (l1 ++ l2) w = escrow l1 w + escrow l2 w := by
  simp [escrow, List.filter_append, List.map_append, List.sum_append]

theorem escrow_cons (x : Bid) (l : List Bid) (w : String) :
    escrow (x :: l) w = (if x.uid = w ∧ x.active = true then x.amount else 0) + escrow l w := by
  simp only [escrow, List.filter_cons]
  by_cases h1 : x.uid = w <;> by_cases h2 : x.active = true <;> simp [h1, h2]

theorem escrow_deactivate (q : Bid → Bool) (u : Bid → Bid) (bids : List Bid) (x : Bid)
    (w : String) (hfind : bids.find? q = some x) (hx : x.active = true)
    (hu : (u x).active = false) :
    escrow (updateOne q u bids) w = escrow bids w - (if x.uid = w then x.amount else 0) := by
  obtain ⟨l1, l2, h1, _, _, h4⟩ := updateOne_of_find q u bids x hfind
  rw [h4, h1, escrow_append, escrow_append, escrow_cons, escrow_cons]
  simp only [hx, hu, and_true, and_false, if_false, Bool.false_eq_true]
  omega

theorem map_updateOne_user {β : Type} (w : String) (f : User → User) (g g' : User → β)
    (users : List User) (hnd : (users.map (fun u => u.uid)).Nodup)
    (h1 : ∀ u, u.uid = w → g' (f u) = g u) (h2 : ∀ u, u.uid ≠ w → g' u = g u) :
    (updateOne (userQuery w) f users).map g' = users.map g := by
  induction users with
  | nil => rfl
  | cons a t ih =>
    rw [List.map_cons, List.nodup_cons] at hnd
    by_cases ha : userQuery w a = true
    · have ha' : a.uid = w := by simpa [userQuery] using ha
      have e : updateOne (userQuery w) f (a :: t) = f a :: t := by simp [updateOne, ha]
      rw [e, List.map_cons, List.map_cons, h1 a ha']
      congr 1
      apply List.map_congr_left
      intro u hu
      apply h2
      intro hw
      apply hnd.1
      rw [ha', ← hw]
      exact List.mem_map_of_mem (fun u => u.uid) hu
    · have ha' : a.uid ≠ w := by simpa [userQuery] using ha
      have e : updateOne (userQuery w) f (a :: t) = a :: updateOne (userQuery w) f t := by
        simp [updateOne, ha]
      rw [e, List.map_cons, List.map_cons, h2 a ha', ih hnd.2]

theorem conserved_refund (q : Bid → Bool) (u : Bid → Bid) (s : Db) (x : Bid)
    (auctions : List Auction) (hnd : UniqueUids s)
    (hfind : s.bids.find? q = some x) (hx : x.active = true) (hu : (u x).active = false) :
    conserved { users := updateOne (userQuery x.uid) (incBalance x.amount) s.users,
                auctions := auctions, bids := updateOne q u s.bids } = conserved s := by
  unfold conserved
  simp only
  apply map_updateOne_user _ _ _ _ _ hnd
  · intro v hv
    rw [escrow_deactivate q u s.bids x _ hfind hx hu]
    simp only [incBalance, hv, if_true, Prod.mk.injEq, true_and]
    omega
  · intro v hv
    rw [escrow_deactivate q u s.bids x _ hfind hx hu]
    rw [if_neg (fun h => hv h.symm)]
    simp only [Prod.mk.injEq, true_and]
    omega

theorem conserved_refundExisting (now : Nat) (r : BidRequest) (s : Db) (hnd : UniqueUids s) :
    conserved (refundExisting now r s) = conserved s := by
  unfold refundExisting
  cases h : s.bids.find? (ownBidQuery r.uid r.auctionId) with
  | none => rfl
  | some e =>
    have hq := List.find?_some h
    simp only [ownBidQuery, Bool.and_eq_true, beq_iff_eq] at hq
    simp only
    rw [← hq.1.1]
    exact conserved_refund _ _ s e _ hnd (by rw [hq.1.1]; exact h) hq.2 rfl

theorem conserved_refundOutbid (now : Nat) (r : BidRequest) (auction : Auction) (s : Db)
    (hnd : UniqueUids s) : conserved (refundOutbid now r auction s) = conserved s := by
  rcases refundOutbid_cases now r auction s with h | ⟨n, p, _, hp, h⟩
  · rw [h]
  · rw [h]
    have hq := List.find?_some hp
    simp only [namedBidQuery, Bool.and_eq_true, beq_iff_eq] at hq
    exact conserved_refund _ _ s p _ hnd hp hq.2 rfl

theorem conserved_commitBid (now : Nat) (r : BidRequest) (s : Db) (hnd : UniqueUids s) :
    conserved (commitBid now r s) = conserved s := by
  unfold conserved commitBid
  simp only
  apply map_updateOne_user _ _ _ _ _ hnd
  · intro v hv
    rw [escrow_append, escrow_cons]
    have e0 : escrow [] (debitBid r.bidAmount v).uid = 0 := rfl
    have e1 : (debitBid r.bidAmount v).uid = r.uid := hv
    rw [e0, e1, if_pos ⟨rfl, rfl⟩, hv]
    simp only [newBid, debitBid, Prod.mk.injEq, true_and]
    omega
  · intro v hv
    rw [escrow_append, escrow_cons]
    have e0 : escrow [] v.uid = 0 := rfl
    rw [e0, if_neg (fun h => hv h.1.symm)]
    simp only [Prod.mk.injEq, true_and]
    omega

theorem uids_refundExisting (now : Nat) (r : BidRequest) (s : Db) :
    (refundExisting now r s).users.map (fun u => u.uid) = s.users.map (fun u => u.uid) := by
  rw [refundExisting_eq]
  apply map_updateOne
  intro x; rfl

theorem uids_refundOutbid (now : Nat) (r : BidRequest) (auction : Auction) (s : Db) :
    (refundOutbid now r auction s).users.map (fun u => u.uid) =
      s.users.map (fun u => u.uid) := by
  rcases refundOutbid_cases now r auction s with h | ⟨_, _, _, _, h⟩
  · rw [h]
  · rw [h]
    apply map_updateOne
    intro x; rfl

theorem uids_commitBid (now : Nat) (r : BidRequest) (s : Db) :
    (commitBid now r s).users.map (fun u => u.uid) = s.users.map (fun u => u.uid) := by
  unfold commitBid
  apply map_updateOne
  intro x; rfl

theorem conserved_placeBid (now : Nat) (s : Db) (r : BidRequest) (hnd : UniqueUids s) :
    conserved (placeBid now s r).1 = conserved s := by
  rcases placeBid_cases now s r with ⟨h1, _⟩ | ⟨user, auction, hf, hu, hb, ha, hm⟩
  · rw [h1]
  · rw [placeBid_of_success now s r user auction hf hu hb ha hm]
    have h1 : UniqueUids (refundExisting now r s) := by
      unfold UniqueUids; rw [uids_refundExisting]; exact hnd
    have h2 : UniqueUids (refundOutbid now r auction (refundExisting now r s)) := by
      unfold UniqueUids; rw [uids_refundOutbid]; exact h1
    simp only
    rw [conserved_commitBid now r _ h2, conserved_refundOutbid now r auction _ h1,
      conserved_refundExisting now r s hnd]

theorem conserved_removeBid (now : Nat) (s : Db) (r : RemoveRequest) (hnd : UniqueUids s) :
    conserved (removeBid now s r).1 = conserved s := by
  rcases removeBid_cases now s r with ⟨h1, _⟩ | ⟨bid, _, hfind, husers, hbids, _, _⟩
  · rw [h1]
  · have hq := List.find?_some hfind
    simp only [ownBidQuery, Bool.and_eq_true, beq_iff_eq] at hq
    have := conserved_refund (ownBidQuery r.uid r.auctionId) (markRemoved now) s bid
      (removeBid now s r).1.auctions hnd hfind hq.2 rfl
    rw [hq.1.1] at this
    rw [← this]
    unfold conserved
    rw [husers, hbids]

theorem escrow_eq_zero (bids : List Bid) (w : String)
    (h : w ∉ bids.map (fun b => b.uid)) : escrow bids w = 0 := by
  unfold escrow
  have : bids.filter (fun b => b.uid == w && b.active) = [] := by
    apply List.filter_eq_nil_iff.mpr
    intro b hb hq
    apply h
    simp only [Bool.and_eq_true, beq_iff_eq] at hq
    rw [← hq.1]
    exact List.mem_map_of_mem (fun b => b.uid) hb
  rw [this]; rfl

theorem bid_uids_refunded (now : Nat) (r : BidRequest) (auction : Auction) (s : Db) :
    (refundOutbid now r auction (refundExisting now r s)).bids.map (fun b => b.uid) =
      s.bids.map (fun b => b.uid) := by
  have h1 : (refundExisting now r s).bids.map (fun b => b.uid) = s.bids.map (fun b => b.uid) := by
    rw [refundExisting_eq]
    apply map_updateOne
    intro x; rfl
  rw [← h1]
  rcases refundOutbid_cases now r auction (refundExisting now r s) with h | ⟨_, _, _, _, h⟩
  · rw [h]
  · rw [h]
    apply map_updateOne
    intro x; rfl

theorem uids_updateOne (q : User → Bool) (u : User → User) (hu : ∀ x, (u x).uid = x.uid)
    (l : List User) :
    (updateOne q u l).map (fun u => u.uid) = l.map (fun u => u.uid) :=
  map_updateOne q u (fun u => u.uid) hu l

theorem bid_uids_updateOne (q : Bid → Bool) (u : Bid → Bid) (hu : ∀ x, (u x).uid = x.uid)
    (l : List Bid) :
    (updateOne q u l).map (fun b => b.uid) = l.map (fun b => b.uid) :=
  map_updateOne q u (fun b => b.uid) hu l

theorem getBalance_cases (now : Nat) (s : Db) (r : BalanceRequest) :
    getBalance now s r = s ∨
    (s.users.find? (userQuery r.uid) = none ∧
      getBalance now s r =
        { users := s.users ++ [newUser now r.uid r.username], auctions := s.auctions,
          bids := s.bids }) ∨
    (∃ user, s.users.find? (userQuery r.uid) = some user ∧
      getBalance now s r =
        { users := updateOne (userQuery r.uid) (touchActivity now) s.users,
          auctions := s.auctions, bids := s.bids }) := by
  by_cases hf : (r.uid == "" || r.username == "") = true
  · left; unfold getBalance; rw [if_pos hf]
  · right
    cases hu : s.users.find? (userQuery r.uid) with
    | none =>
      left
      refine ⟨rfl, ?_⟩
      unfold getBalance initializeUser; rw [if_neg hf]; simp only [hu]
    | some user =>
      right
      refine ⟨user, rfl, ?_⟩
      unfold getBalance initializeUser; rw [if_neg hf]; simp only [hu]

/-- The invariant of the reachable databases. -/
theorem step_invariant (s : Db) (c : Call)
    (h : UniqueUids s ∧ (∀ w ∈ s.bids.map (fun b => b.uid), w ∈ s.users.map (fun u => u.uid)) ∧
      ∀ t ∈ conserved s, t.2 = CONFIG.STARTING_APPRAICENTS) :
    UniqueUids (step s c) ∧
      (∀ w ∈ (step s c).bids.map (fun b => b.uid), w ∈ (step s c).users.map (fun u => u.uid)) ∧
      ∀ t ∈ conserved (step s c), t.2 = CONFIG.STARTING_APPRAICENTS := by
  obtain ⟨hnd, hown, hcons⟩ := h
  cases c with
  | balance now r =>
    simp only [step]
    rcases getBalance_cases now s r with h | ⟨hu, h⟩ | ⟨user, hu, h⟩
    · rw [h]; exact ⟨hnd, hown, hcons⟩
    · rw [h]
      have hnot : r.uid ∉ s.users.map (fun u => u.uid) := by
        intro hmem
        obtain ⟨u, hu1, hu2⟩ := List.mem_map.mp hmem
        have := List.find?_eq_none.mp hu u hu1
        simp [userQuery, hu2] at this
      refine ⟨?_, ?_, ?_⟩
      · unfold UniqueUids
        simp only [List.map_append, List.map_cons, List.map_nil]
        exact List.Nodup.append hnd (List.nodup_singleton _)
          (by simpa [List.Disjoint, newUser] using hnot)
      · intro w hw
        simp only [List.map_append]
        exact List.mem_append_left _ (hown w hw)
      · intro t ht
        simp only [conserved, List.map_append, List.map_cons, List.map_nil] at ht
        rcases List.mem_append.mp ht with ht | ht
        · exact hcons t ht
        · rw [List.mem_singleton] at ht
          rw [ht]
          simp only [newUser]
          rw [escrow_eq_zero _ _ (fun hm => hnot (hown _ hm))]
          simp
    · rw [h]
      refine ⟨?_, ?_, ?_⟩
      · unfold UniqueUids
        simp only
        rw [uids_updateOne (userQuery r.uid) (touchActivity now) (fun _ => rfl)]
        exact hnd
      · intro w hw
        simp only
        rw [uids_updateOne (userQuery r.uid) (touchActivity now) (fun _ => rfl)]
        exact hown w hw
      · intro t ht
        apply hcons t
        simp only [conserved] at ht ⊢
        rw [map_updateOne (userQuery r.uid) (touchActivity now)
          (fun u => (u.uid, u.appraiCentsBalance + escrow s.bids u.uid)) (fun _ => rfl)] at ht
        exact ht
  | bid now r =>
    simp only [step]
    refine ⟨?_, ?_, ?_⟩
    · rcases placeBid_cases now s r with ⟨h1, _⟩ | ⟨user, auction, hf, hu, hb, ha, hm⟩
      · rw [h1]; exact hnd
      · rw [placeBid_of_success now s r user auction hf hu hb ha hm]
        unfold UniqueUids
        rw [uids_commitBid, uids_refundOutbid, uids_refundExisting]
        exact hnd
    · rcases placeBid_cases now s r with ⟨h1, _⟩ | ⟨user, auction, hf, hu, hb, ha, hm⟩
      · rw [h1]; exact hown
      · rw [placeBid_of_success now s r user auction hf hu hb ha hm]
        simp only
        rw [uids_commitBid, uids_refundOutbid, uids_refundExisting]
        intro w hw
        simp only [commitBid, List.map_append, List.map_cons, List.map_nil] at hw
        rw [bid_uids_refunded] at hw
        rcases List.mem_append.mp hw with hw | hw
        · exact hown w hw
        · rw [List.mem_singleton] at hw
          rw [hw]
          have h1 := List.mem_of_find?_eq_some hu
          have h2 := List.find?_some hu
          simp only [userQuery, beq_iff_eq] at h2
          simp only [newBid]
          rw [← h2]
          exact List.mem_map_of_mem (fun u => u.uid) h1
    · rw [conserved_placeBid now s r hnd]; exact hcons
  | remove now r =>
    simp only [step]
    refine ⟨?_, ?_, ?_⟩
    · rcases removeBid_cases now s r with ⟨h1, _⟩ | ⟨bid, _, _, husers, _, _, _⟩
      · rw [h1]; exact hnd
      · unfold UniqueUids
        rw [husers, uids_updateOne (userQuery r.uid) (incBalance bid.amount) (fun _ => rfl)]
        exact hnd
    · rcases removeBid_cases now s r with ⟨h1, _⟩ | ⟨bid, _, _, husers, hbids, _, _⟩
      · rw [h1]; exact hown
      · rw [husers, hbids,
          uids_updateOne (userQuery r.uid) (incBalance bid.amount) (fun _ => rfl),
          bid_uids_updateOne (ownBidQuery r.uid r.auctionId) (markRemoved now) (fun _ => rfl)]
        exact hown
    · rw [conserved_removeBid now s r hnd]; exact hcons

theorem run_invariant (calls : List Call) (s : Db)
    (h : UniqueUids s ∧ (∀ w ∈ s.bids.map (fun b => b.uid), w ∈ s.users.map (fun u => u.uid)) ∧
      ∀ t ∈ conserved s, t.2 = CONFIG.STARTING_APPRAICENTS) :
    UniqueUids (run s calls) ∧
      (∀ w ∈ (run s calls).bids.map (fun b => b.uid),
        w ∈ (run s calls).users.map (fun u => u.uid)) ∧
      ∀ t ∈ conserved (run s calls), t.2 = CONFIG.STARTING_APPRAICENTS := by
  induction calls generalizing s with
  | nil => exact h
  | cons c cs ih => exact ih (step s c) (step_invariant s c h)

theorem filter_updateOne_of_other {α : Type} (q p : α → Bool) (u : α → α) (l : List α)
    (h : ∀ x ∈ l, q x = true → p x = false ∧ p (u x) = false) :
    (updateOne q u l).filter p = l.filter p := by
  induction l with
  | nil => rfl
  | cons a t ih =>
    by_cases ha : q a = true
    · have h1 := h a (List.mem_cons_self _ _) ha
      have e : updateOne q u (a :: t) = u a :: t := by simp [updateOne, ha]
      rw [e, List.filter_cons_of_neg (by simp [h1.2]), List.filter_cons_of_neg (by simp [h1.1])]
    · have e : updateOne q u (a :: t) = a :: updateOne q u t := by simp [updateOne, ha]
      rw [e, List.filter_cons, List.filter_cons,
        ih (fun x hx => h x (List.mem_cons_of_mem _ hx))]

theorem getElem?_updateOne_unique {α : Type} (q : α → Bool) (u : α → α) (l : List α)
    (x : α) (i : Nat) (hf : l.filter q = [x]) (hi : l[i]? = some x) :
    (updateOne q u l)[i]? = some (u x) := by
  induction l generalizing i with
  | nil => simp at hi
  | cons a t ih =>
    by_cases ha : q a = true
    · rw [List.filter_cons_of_pos ha] at hf
      have hax : a = x := (List.cons.inj hf).1
      have ht : t.filter q = [] := (List.cons.inj hf).2
      have e : updateOne q u (a :: t) = u a :: t := by simp [updateOne, ha]
      rw [e]
      cases i with
      | zero => simp [hax]
      | succ j =>
        exfalso
        have hj : t[j]? = some x := by simpa using hi
        have hmem : x ∈ t := List.getElem?_mem hj
        have : x ∈ t.filter q := List.mem_filter.mpr ⟨hmem, hax ▸ ha⟩
        rw [ht] at this
        cases this
    · rw [List.filter_cons_of_neg ha] at hf
      have e : updateOne q u (a :: t) = a :: updateOne q u t := by simp [updateOne, ha]
      rw [e]
      cases i with
      | zero =>
        exfalso
        have hax : a = x := by simpa using hi
        have hx : x ∈ t.filter q := by rw [hf]; simp
        exact ha (hax ▸ (List.mem_filter.mp hx).2)
      | succ j =>
        have hj : t[j]? = some x := by simpa using hi
        simpa using ih j hf hj

theorem find_active_updateOne (aid : String) (u : Auction → Auction) (l : List Auction)
    (auction : Auction) (hu : ∀ x, (u x).id = x.id ∧ (u x).active = x.active)
    (hnd : (l.map (fun a => a.id)).Nodup)
    (ha : l.find? (activeAuctionQuery aid) = some auction) :
    (updateOne (auctionQuery aid) u l).find? (activeAuctionQuery aid) = some (u auction) := by
  induction l with
  | nil => simp at ha
  | cons x t ih =>
    rw [List.map_cons, List.nodup_cons] at hnd
    by_cases hx : auctionQuery aid x = true
    · have hx' : x.id = aid := by simpa [auctionQuery] using hx
      have e : updateOne (auctionQuery aid) u (x :: t) = u x :: t := by simp [updateOne, hx]
      rw [e]
      by_cases hact : x.active = true
      · have h1 : activeAuctionQuery aid x = true := by simp [activeAuctionQuery, hx', hact]
        rw [List.find?_cons_of_pos _ h1] at ha
        have h2 : activeAuctionQuery aid (u x) = true := by
          simp [activeAuctionQuery, (hu x).1, (hu x).2, hx', hact]
        rw [List.find?_cons_of_pos _ h2]
        cases ha; rfl
      · exfalso
        have h1 : ¬ activeAuctionQuery aid x = true := by simp [activeAuctionQuery, hact]
        rw [List.find?_cons_of_neg _ h1] at ha
        have hmem := List.mem_of_find?_eq_some ha
        have hq := List.find?_some ha
        simp only [activeAuctionQuery, Bool.and_eq_true, beq_iff_eq] at hq
        apply hnd.1
        rw [hx', ← hq.1]
        exact List.mem_map_of_mem (fun a => a.id) hmem
    · have hx' : x.id ≠ aid := by simpa [auctionQuery] using hx
      have e : updateOne (auctionQuery aid) u (x :: t) = x :: updateOne (auctionQuery aid) u t := by
        simp [updateOne, hx]
      have h1 : ¬ activeAuctionQuery aid x = true := by simp [activeAuctionQuery, hx']
      rw [List.find?_cons_of_neg _ h1] at ha
      rw [e, List.find?_cons_of_neg _ h1]
      exact ih hnd.2 ha

theorem find_user_of_ne (w uid : String) (f : User → User) (hf : ∀ x, (f x).uid = x.uid)
    (hne : w ≠ uid) (l : List User) :
    (updateOne (userQuery w) f l).find? (userQuery uid) = l.find? (userQuery uid) := by
  apply find?_updateOne_other
  intro x hx
  simp only [userQuery, beq_iff_eq] at hx
  simp only [userQuery, hf, beq_eq_false_iff_ne, ne_eq, and_self]
  rw [hx]; exact hne

theorem singleActive_placeBid (now : Nat) (s : Db) (r : BidRequest) (h : SingleActive s) :
    SingleActive (placeBid now s r).1 := by
  rcases placeBid_cases now s r with ⟨h1, _⟩ | ⟨user, auction, hf, hu, hb, ha, hm⟩
  · rw [h1]; exact h
  · rw [placeBid_of_success now s r user auction hf hu hb ha hm]
    intro uid auctionId
    by_cases hq : ownBidQuery uid auctionId (newBid now r) = true
    · have h1 : uid = r.uid ∧ auctionId = r.auctionId := by
        simp only [ownBidQuery, newBid, Bool.and_eq_true, beq_iff_eq, and_true] at hq
        exact ⟨hq.1.symm, hq.2.symm⟩
      rw [h1.1, h1.2, ownActiveBids_commit now r auction s (h _ _)]
      simp
    · unfold ownActiveBids commitBid
      simp only [List.filter_append]
      rw [List.filter_cons_of_neg hq]
      simp only [List.filter_nil, List.append_nil]
      exact le_trans (refunded_sublist now r auction s _
        (fun b hb => ownBidQuery_inactive _ _ b hb)).length_le (h uid auctionId)

theorem singleActive_removeBid (now : Nat) (s : Db) (r : RemoveRequest) (h : SingleActive s) :
    SingleActive (removeBid now s r).1 := by
  rcases removeBid_cases now s r with ⟨h1, _⟩ | ⟨bid, _, _, _, hbids, _, _⟩
  · rw [h1]; exact h
  · intro uid auctionId
    unfold ownActiveBids
    rw [hbids]
    exact le_trans (filter_updateOne_sublist _ _ _
      (fun x _ => ownBidQuery_inactive _ _ _ rfl) _).length_le (h uid auctionId)

theorem singleActive_step (s : Db) (c : Call) (h : SingleActive s) :
    SingleActive (step s c) := by
  cases c with
  | balance now r =>
    have hb : (getBalance now s r).bids = s.bids := by
      rcases getBalance_cases now s r with e | ⟨_, e⟩ | ⟨_, _, e⟩ <;> rw [e]
    intro uid auctionId
    simp only [step, ownActiveBids]
    rw [hb]
    exact h uid auctionId
  | bid now r => exact singleActive_placeBid now s r h
  | remove now r => exact singleActive_removeBid now s r h

theorem singleActive_run (calls : List Call) (s : Db) (h : SingleActive s) :
    SingleActive (run s calls) := by
  induction calls generalizing s with
  | nil => exact h
  | cons c cs ih => exact ih (step s c) (singleActive_step s c h)

theorem singleActive_reachable (auctions : List Auction) (calls : List Call) :
    SingleActive (run (freshDb auctions) calls) :=
  singleActive_run calls (freshDb auctions) (fun _ _ => by simp [ownActiveBids, freshDb])

theorem eq_singleton_of_mem {α : Type} (l : List α) (x : α) (h : l.length ≤ 1)
    (hx : x ∈ l) : l = [x] := by
  match l, h, hx with
  | [y], _, hx => rw [List.mem_singleton.mp hx]
  | _ :: _ :: _, h, _ => simp at h

theorem updateOne_append_last {α : Type} (q : α → Bool) (u : α → α) (l : List α) (x : α)
    (hl : ∀ y ∈ l, q y = false) (hx : q x = true) :
    updateOne q u (l ++ [x]) = l ++ [u x] := by
  induction l with
  | nil => simp [updateOne, hx]
  | cons a t ih =>
    have ha : q a = false := hl a (List.mem_cons_self _ _)
    have e : updateOne q u (a :: (t ++ [x])) = a :: updateOne q u (t ++ [x]) := by
      simp [updateOne, ha]
    rw [List.cons_append, e, ih (fun y hy => hl y (List.mem_cons_of_mem _ hy))]
    rfl

theorem find?_append_last {α : Type} (q : α → Bool) (l : List α) (x : α)
    (hl : ∀ y ∈ l, q y = false) (hx : q x = true) : (l ++ [x]).find? q = some x := by
  rw [List.find?_append, List.find?_eq_none.mpr (fun y hy => by simp [hl y hy])]
  simp [hx]

theorem itemBidQuery_of_own (uid aid : String) (b : Bid) (h : ownBidQuery uid aid b = true) :
    itemBidQuery aid b = true := by
  simp only [ownBidQuery, Bool.and_eq_true, beq_iff_eq] at h
  simp [itemBidQuery, h.1.2, h.2]

theorem itemBidQuery_of_named (aid name : String) (b : Bid)
    (h : namedBidQuery aid name b = true) : itemBidQuery aid b = true := by
  simp only [namedBidQuery, Bool.and_eq_true, beq_iff_eq] at h
  simp [itemBidQuery, h.1.1, h.2]

theorem refunded_eq_of_no_active (now : Nat) (r : BidRequest) (auction : Auction) (s : Db)
    (hnone : ∀ b ∈ s.bids, itemBidQuery r.auctionId b = false) :
    refundOutbid now r auction (refundExisting now r s) = s := by
  have h1 : refundExisting now r s = s := by
    have : s.bids.find? (ownBidQuery r.uid r.auctionId) = none := by
      apply List.find?_eq_none.mpr
      intro x hx hq
      have := itemBidQuery_of_own _ _ x hq
      rw [hnone x hx] at this; cases this
    simp only [refundExisting, this]
  rw [h1]
  rcases refundOutbid_cases now r auction s with h | ⟨n, p, _, hp, _⟩
  · exact h
  · exfalso
    have := itemBidQuery_of_named _ _ p (List.find?_some hp)
    rw [hnone p (List.mem_of_find?_eq_some hp)] at this; cases this

theorem find_auction_of_active (aid : String) (l : List Auction) (auction : Auction)
    (h : l.find? (activeAuctionQuery aid) = some auction) :
    ∃ x, l.find? (auctionQuery aid) = some x := by
  cases hx : l.find? (auctionQuery aid) with
  | some x => exact ⟨x, rfl⟩
  | none =>
    exfalso
    have h1 := List.find?_eq_none.mp hx auction (List.mem_of_find?_eq_some h)
    have h2 := List.find?_some h
    simp only [activeAuctionQuery, Bool.and_eq_true, beq_iff_eq] at h2
    simp [auctionQuery, h2.1] at h1

theorem ids_updateOne (q : Auction → Bool) (u : Auction → Auction)
    (hu : ∀ x, (u x).id = x.id) (l : List Auction) :
    (updateOne q u l).map (fun a => a.id) = l.map (fun a => a.id) :=
  map_updateOne q u (fun a => a.id) hu l

theorem find_auction_updateOne (aid : String) (u : Auction → Auction)
    (hu : ∀ x, (u x).id = x.id) (l : List Auction) :
    (updateOne (auctionQuery aid) u l).find? (auctionQuery aid) =
      (l.find? (auctionQuery aid)).map u :=
  find?_updateOne_same _ _ (fun x hx => by simpa [auctionQuery, hu x] using hx) l

theorem getElem?_updateOne_frame {α : Type} (q : α → Bool) (u : α → α) (l : List α)
    (x : α) (h : l.find? q = some x) :
    ∃ i : Nat, l[i]? = some x ∧ (updateOne q u l)[i]? = some (u x) ∧
      ∀ j : Nat, j ≠ i → (updateOne q u l)[j]? = l[j]? := by
  obtain ⟨l1, l2, h1, _, _, h4⟩ := updateOne_of_find q u l x h
  refine ⟨l1.length, ?_, ?_, ?_⟩
  · rw [h1, List.getElem?_append_right (le_refl _)]; simp
  · rw [h4, List.getElem?_append_right (le_refl _)]; simp
  · intro j hj
    rw [h4, h1]
    by_cases hlt : j < l1.length
    · rw [List.getElem?_append_left hlt, List.getElem?_append_left hlt]
    · have hge : l1.length ≤ j := not_lt.mp hlt
      rw [List.getElem?_append_right hge, List.getElem?_append_right hge]
      obtain ⟨k, hk⟩ : ∃ k, j - l1.length = k + 1 := ⟨j - l1.length - 1, by omega⟩
      rw [hk]; rfl

theorem removeBid_of_none (now : Nat) (s : Db) (r : RemoveRequest)
    (h1 : r.uid ≠ "") (h2 : r.auctionId ≠ "")
    (h : s.bids.find? (ownBidQuery r.uid r.auctionId) = none) :
    removeBid now s r = (s, failure "No active bid found") := by
  unfold removeBid
  rw [if_neg (by simp [h1, h2])]
  simp only [h]

theorem removeBid_fields (now : Nat) (s : Db) (r : RemoveRequest)
    (hs : (removeBid now s r).2.success = true) : r.uid ≠ "" ∧ r.auctionId ≠ "" := by
  rcases removeBid_cases now s r with ⟨_, h, _⟩ | ⟨_, hf, _⟩
  · rw [h] at hs; cases hs
  · simpa using hf

theorem tooLow_message_ne (m : Int) (t : String) (ht : t.data.head? ≠ some 'B') :
    "Bid must be at least " ++ toString m ++ " aC" ≠ t := by
  intro h
  apply ht
  rw [← h]
  simp [String.data_append]

theorem failure_inj (a b : String) (h : failure a = failure b) : a = b := by
  simpa [failure] using h

/-- The four refusals that follow the field check, and success. -/
theorem placeBid_outcomes (now : Nat) (s : Db) (r : BidRequest) (hf : missingField r = false) :
    placeBid now s r = (s, failure "User not found") ∨
    (∃ user, s.users.find? (userQuery r.uid) = some user ∧
      user.appraiCentsBalance < r.bidAmount ∧
      placeBid now s r = (s, failure "Insufficient appraiCENTS balance")) ∨
    (∃ user, s.users.find? (userQuery r.uid) = some user ∧
      r.bidAmount ≤ user.appraiCentsBalance ∧
      placeBid now s r = (s, failure "Auction not found or inactive")) ∨
    (∃ user auction, s.users.find? (userQuery r.uid) = some user ∧
      r.bidAmount ≤ user.appraiCentsBalance ∧
      s.auctions.find? (activeAuctionQuery r.auctionId) = some auction ∧
      r.bidAmount < minimumBid auction ∧
      placeBid now s r =
        (s, failure ("Bid must be at least " ++ toString (minimumBid auction) ++ " aC"))) ∨
    (∃ user auction, s.users.find? (userQuery r.uid) = some user ∧
      r.bidAmount ≤ user.appraiCentsBalance ∧
      s.auctions.find? (activeAuctionQuery r.auctionId) = some auction ∧
      minimumBid auction ≤ r.bidAmount ∧ (placeBid now s r).2.success = true) := by
  cases hu : s.users.find? (userQuery r.uid) with
  | none => left; unfold placeBid; simp [hf, hu]
  | some user =>
    right
    by_cases hb : user.appraiCentsBalance < r.bidAmount
    · left
      refine ⟨user, rfl, hb, ?_⟩
      unfold placeBid; simp [hf, hu, hb]
    · right
      cases ha : s.auctions.find? (activeAuctionQuery r.auctionId) with
      | none =>
        left
        refine ⟨user, rfl, not_lt.mp hb, ?_⟩
        unfold placeBid; simp [hf, hu, hb, ha]
      | some auction =>
        right
        by_cases hm : r.bidAmount < minimumBid auction
        · left
          refine ⟨user, auction, rfl, not_lt.mp hb, rfl, hm, ?_⟩
          unfold placeBid; simp [hf, hu, hb, ha, hm]
        · right
          refine ⟨user, auction, rfl, not_lt.mp hb, rfl, not_lt.mp hm, ?_⟩
          rw [placeBid_of_success now s r user auction hf hu (not_lt.mp hb) ha (not_lt.mp hm)]

theorem minimumBid_pos (s : Db) (auction : Auction) (hmem : auction ∈ s.auctions)
    (hres : PositiveReserves s) (hhigh : NonnegativeHighBids s) : 1 ≤ minimumBid auction := by
  have h1 := hres auction hmem
  have h2 := hhigh auction hmem
  unfold minimumBid CONFIG.MIN_BID_INCREMENT
  by_cases h0 : auction.currentHighBid = 0
  · rw [if_neg (by simpa using h0)]; omega
  · rw [if_pos h0]; omega

theorem forall_updateOne {α : Type} (P : α → Prop) (q : α → Bool) (u : α → α) (l : List α)
    (hl : ∀ x ∈ l, P x) (hu : ∀ x, l.find? q = some x → P (u x)) :
    ∀ y ∈ updateOne q u l, P y := by
  intro y hy
  rcases updateOne_cases q u l with ⟨_, h2⟩ | ⟨l1, x, l2, h1, _, _, h4, h5⟩
  · rw [h2] at hy; exact hl y hy
  · rw [h5] at hy
    rcases List.mem_append.mp hy with hy | hy
    · exact hl y (by rw [h1]; exact List.mem_append_left _ hy)
    · rcases List.mem_cons.mp hy with hy | hy
      · rw [hy]; exact hu x h4
      · exact hl y (by rw [h1]; exact List.mem_append_right _ (List.mem_cons_of_mem _ hy))

theorem nonneg_incBalance (w : String) (n : Int) (hn : 0 ≤ n) (l : List User)
    (hl : ∀ u ∈ l, 0 ≤ u.appraiCentsBalance) :
    ∀ u ∈ updateOne (userQuery w) (incBalance n) l, 0 ≤ u.appraiCentsBalance := by
  refine forall_updateOne (fun u : User => 0 ≤ u.appraiCentsBalance) (userQuery w)
    (incBalance n) l hl ?_
  intro x hx
  have := hl x (List.mem_of_find?_eq_some hx)
  simp only [incBalance]
  omega

theorem find_user_incBalance_ge (w uid : String) (n : Int) (hn : 0 ≤ n) (l : List User)
    (y : User) (hy : (updateOne (userQuery w) (incBalance n) l).find? (userQuery uid) = some y) :
    ∃ x, l.find? (userQuery uid) = some x ∧ x.appraiCentsBalance ≤ y.appraiCentsBalance := by
  by_cases hw : w = uid
  · subst hw
    rw [find?_updateOne_same _ _ (fun x hx => by simpa [userQuery, incBalance] using hx)] at hy
    cases hx : l.find? (userQuery w) with
    | none => rw [hx] at hy; cases hy
    | some x =>
      rw [hx] at hy
      simp only [Option.map_some', Option.some.injEq] at hy
      refine ⟨x, rfl, ?_⟩
      rw [← hy]
      simp only [incBalance]
      omega
  · rw [find_user_of_ne w uid (incBalance n) (fun _ => rfl) hw] at hy
    exact ⟨y, hy, le_refl _⟩

theorem existingAmount_nonneg (s : Db) (r : BidRequest) (hb : NonnegativeBids s) :
    0 ≤ existingAmount s r := by
  unfold existingAmount
  cases h : s.bids.find? (ownBidQuery r.uid r.auctionId) with
  | none => exact le_refl _
  | some e => exact hb e (List.mem_of_find?_eq_some h)

theorem nonneg_after_placeBid (now : Nat) (s : Db) (r : BidRequest)
    (hb : NonnegativeBids s) (h : NonnegativeBalances s) :
    NonnegativeBalances (placeBid now s r).1 := by
  rcases placeBid_cases now s r with ⟨h1, _⟩ | ⟨user, auction, hf, hu, hbal, ha, hm⟩
  · rw [h1]; exact h
  · rw [placeBid_of_success now s r user auction hf hu hbal ha hm]
    have he := existingAmount_nonneg s r hb
    have h1 : ∀ u ∈ (refundExisting now r s).users, 0 ≤ u.appraiCentsBalance := by
      rw [refundExisting_eq]
      exact nonneg_incBalance _ _ he _ h
    have hf1 : ∀ y, (refundExisting now r s).users.find? (userQuery r.uid) = some y →
        user.appraiCentsBalance ≤ y.appraiCentsBalance := by
      intro y hy
      rw [refundExisting_eq] at hy
      obtain ⟨x, hx, hle⟩ := find_user_incBalance_ge _ _ _ he _ y hy
      rw [hu] at hx; cases hx
      exact hle
    have h2 : (∀ u ∈ (refundOutbid now r auction (refundExisting now r s)).users,
          0 ≤ u.appraiCentsBalance) ∧
        ∀ y, (refundOutbid now r auction (refundExisting now r s)).users.find?
            (userQuery r.uid) = some y → user.appraiCentsBalance ≤ y.appraiCentsBalance := by
      rcases refundOutbid_cases now r auction (refundExisting now r s) with e | ⟨n, p, _, hp, e⟩
      · rw [e]; exact ⟨h1, hf1⟩
      · rw [e]
        have hpact : p.active = true := by
          have := List.find?_some hp
          simp only [namedBidQuery, Bool.and_eq_true] at this
          exact this.2
        have hpmem : p ∈ s.bids := by
          have := List.mem_of_find?_eq_some hp
          rw [refundExisting_eq] at this
          exact mem_active_updateOne (fun _ => rfl) this hpact
        have hpn : 0 ≤ p.amount := hb p hpmem
        refine ⟨nonneg_incBalance _ _ hpn _ h1, ?_⟩
        intro y hy
        obtain ⟨x, hx, hle⟩ := find_user_incBalance_ge _ _ _ hpn _ y hy
        exact le_trans (hf1 x hx) hle
    intro u hu'
    simp only [commitBid] at hu'
    revert u
    refine forall_updateOne (fun u : User => 0 ≤ u.appraiCentsBalance) (userQuery r.uid)
      (debitBid r.bidAmount) _ h2.1 ?_
    intro x hx
    have := h2.2 x hx
    simp only [debitBid]
    omega

theorem nonneg_after_removeBid (now : Nat) (s : Db) (r : RemoveRequest)
    (hb : NonnegativeBids s) (h : NonnegativeBalances s) :
    NonnegativeBalances (removeBid now s r).1 := by
  rcases removeBid_cases now s r with ⟨h1, _⟩ | ⟨bid, _, hfb, husers, _, _, _⟩
  · rw [h1]; exact h
  · unfold NonnegativeBalances
    rw [husers]
    exact nonneg_incBalance _ _ (hb bid (List.mem_of_find?_eq_some hfb)) _ h

theorem userBalance_state (now : Nat) (s : Db) (r : BalanceRequest) :
    (userBalance now s r).1 = getBalance now s r := by
  unfold userBalance getBalance
  by_cases hf : (r.uid == "" || r.username == "") = true
  · rw [if_pos hf, if_pos hf]
  · rw [if_neg hf, if_neg hf]

theorem userBalance_new (now : Nat) (s : Db) (r : BalanceRequest)
    (h1 : r.uid ≠ "") (h2 : r.username ≠ "")
    (hu : s.users.find? (userQuery r.uid) = none) :
    userBalance now s r =
      ({ users := s.users ++ [newUser now r.uid r.username], auctions := s.auctions,
         bids := s.bids },
       .ok CONFIG.STARTING_APPRAICENTS r.username 0 0) := by
  unfold userBalance initializeUser
  rw [if_neg (by simp [h1, h2])]
  simp only [hu, newUser]

theorem userBalance_known (now : Nat) (s : Db) (r : BalanceRequest) (user : User)
    (h1 : r.uid ≠ "") (h2 : r.username ≠ "")
    (hu : s.users.find? (userQuery r.uid) = some user) :
    userBalance now s r =
      ({ users := updateOne (userQuery r.uid) (touchActivity now) s.users,
         auctions := s.auctions, bids := s.bids },
       .ok user.appraiCentsBalance user.username user.totalBidsPlaced user.totalWins) := by
  unfold userBalance initializeUser
  rw [if_neg (by simp [h1, h2])]
  simp only [hu]

theorem filter_updateOne_only {α : Type} (p q : α → Bool) (u : α → α) (l : List α) (x : α)
    (hf : l.filter p = [x]) (hq : l.find? q = some x) (hu : p (u x) = false) :
    (updateOne q u l).filter p = [] := by
  obtain ⟨l1, l2, h1, _, _, h4⟩ := updateOne_of_find q u l x hq
  have hpx : p x = true := by
    have : x ∈ l.filter p := by rw [hf]; simp
    exact (List.mem_filter.mp this).2
  rw [h1, List.filter_append, List.filter_cons_of_pos hpx] at hf
  have hlen := congrArg List.length hf
  simp only [List.length_append, List.length_cons, List.length_nil] at hlen
  have e1 : l1.filter p = [] := List.length_eq_zero.mp (by omega)
  have e2 : l2.filter p = [] := List.length_eq_zero.mp (by omega)
  rw [h4, List.filter_append, List.filter_cons_of_neg (by simp [hu]), e1, e2]
  rfl

theorem find?_of_filter_singleton {α : Type} (p q : α → Bool) (l : List α) (x : α)
    (hf : l.filter p = [x]) (hqp : ∀ y, q y = true → p y = true) (hx : q x = true) :
    l.find? q = some x := by
  have hxmem : x ∈ l := by
    have : x ∈ l.filter p := by rw [hf]; simp
    exact (List.mem_filter.mp this).1
  cases h : l.find? q with
  | none =>
    have := List.find?_eq_none.mp h x hxmem
    exact absurd hx this
  | some y =>
    have hy : y ∈ l.filter p :=
      List.mem_filter.mpr ⟨List.mem_of_find?_eq_some h, hqp y (List.find?_some h)⟩
    rw [hf, List.mem_singleton] at hy
    rw [hy]

theorem find?_none_of_filter_singleton {α : Type} (p q : α → Bool) (l : List α) (x : α)
    (hf : l.filter p = [x]) (hqp : ∀ y, q y = true → p y = true) (hx : q x = false) :
    l.find? q = none := by
  apply List.find?_eq_none.mpr
  intro y hy hq
  have hy' : y ∈ l.filter p := List.mem_filter.mpr ⟨hy, hqp y hq⟩
  rw [hf, List.mem_singleton] at hy'
  rw [hy', hx] at hq
  cases hq

theorem list_nil_or_singleton {α : Type} (l : List α) (h : l.length ≤ 1) :
    l = [] ∨ ∃ x, l = [x] := by
  match l, h with
  | [], _ => exact Or.inl rfl
  | [x], _ => exact Or.inr ⟨x, rfl⟩
  | _ :: _ :: _, h => simp at h

/-- After the two refunds of a bid that passed the checks, no active bid is left
on the auction. -/
theorem refunded_item_nil (pairs : List (String × String)) (now : Nat) (s : Db)
    (r : BidRequest) (auction : Auction)
    (hinv : OneBidInv pairs s)
    (hdisc : ∀ p ∈ pairs, ∀ q ∈ pairs, (p.1 = q.1 ↔ p.2 = q.2))
    (hr : (r.uid, r.username) ∈ pairs)
    (ha : s.auctions.find? (activeAuctionQuery r.auctionId) = some auction) :
    (refundOutbid now r auction (refundExisting now r s)).bids.filter
      (itemBidQuery r.auctionId) = [] := by
  obtain ⟨_, _, hcons, hone, hbids⟩ := hinv
  have hamem : auction ∈ s.auctions := List.mem_of_find?_eq_some ha
  have haid : auction.id = r.auctionId := by
    have := List.find?_some ha
    simp only [activeAuctionQuery, Bool.and_eq_true, beq_iff_eq] at this
    exact this.1
  rcases list_nil_or_singleton _ (hone r.auctionId) with hnil | ⟨b0, hb0⟩
  · rw [refunded_eq_of_no_active now r auction s
      (fun b hb => by
        by_contra hc
        have : b ∈ s.bids.filter (itemBidQuery r.auctionId) :=
          List.mem_filter.mpr ⟨hb, by simpa using hc⟩
        rw [hnil] at this; cases this)]
    exact hnil
  · have hb0f : b0 ∈ s.bids.filter (itemBidQuery r.auctionId) := by rw [hb0]; simp
    have hb0mem : b0 ∈ s.bids := (List.mem_filter.mp hb0f).1
    have hb0q : itemBidQuery r.auctionId b0 = true := (List.mem_filter.mp hb0f).2
    have hb0act : b0.active = true := by
      simp only [itemBidQuery, Bool.and_eq_true] at hb0q; exact hb0q.2
    have hb0item : b0.itemId = r.auctionId := by
      simp only [itemBidQuery, Bool.and_eq_true, beq_iff_eq] at hb0q; exact hb0q.1
    obtain ⟨hpos, hname, hpair, _⟩ := hbids b0 hb0mem hb0act
    by_cases huid : b0.uid = r.uid
    · have hown : ownBidQuery r.uid r.auctionId b0 = true := by
        simp [ownBidQuery, huid, hb0item, hb0act]
      have hfind := find?_of_filter_singleton _ (ownBidQuery r.uid r.auctionId) _ _ hb0
        (fun y hy => itemBidQuery_of_own _ _ y hy) hown
      have h1 : (refundExisting now r s).bids.filter (itemBidQuery r.auctionId) = [] := by
        rw [refundExisting_eq]
        exact filter_updateOne_only _ _ _ _ b0 hb0 hfind (by simp [itemBidQuery, markReplaced])
      have h2 := refundOutbid_bids_sublist now r auction (refundExisting now r s)
        (itemBidQuery r.auctionId) (fun b hb => by simp [itemBidQuery, hb])
      rw [h1] at h2
      exact List.sublist_nil.mp h2
    · have hown : ownBidQuery r.uid r.auctionId b0 = false := by simp [ownBidQuery, huid]
      have hnone := find?_none_of_filter_singleton _ (ownBidQuery r.uid r.auctionId) _ _ hb0
        (fun y hy => itemBidQuery_of_own _ _ y hy) hown
      have h1 : refundExisting now r s = s := by simp only [refundExisting, hnone]
      rw [h1]
      have hdiff : b0.username ≠ r.username := by
        intro he
        exact huid ((hdisc _ hpair _ hr).mpr he)
      have hc := hcons auction hamem
      unfold HighBidConsistent at hc
      rw [haid] at hc
      have hhigh : auction.currentHighBid = b0.amount ∧
          auction.highestBidder = some b0.username := by
        rcases hc.2 with ⟨b, hb, hq, h3, h4⟩ | ⟨h3, _⟩
        · have : b ∈ s.bids.filter (itemBidQuery r.auctionId) := List.mem_filter.mpr ⟨hb, hq⟩
          rw [hb0, List.mem_singleton] at this
          rw [this] at h3 h4
          exact ⟨h3.symm, h4⟩
        · rw [h3 b0 hb0mem] at hb0q; cases hb0q
      have hout : outbidName auction r.username = some b0.username := by
        unfold outbidName
        rw [hhigh.2]
        simp only
        rw [if_pos ⟨by rw [hhigh.1]; exact hpos, hname, hdiff⟩]
      have hnamed : namedBidQuery r.auctionId b0.username b0 = true := by
        simp [namedBidQuery, hb0item, hb0act]
      have hfind := find?_of_filter_singleton _ (namedBidQuery r.auctionId b0.username) _ _ hb0
        (fun y hy => itemBidQuery_of_named _ _ y hy) hnamed
      have e : refundOutbid now r auction s =
          { users := updateOne (userQuery b0.uid) (incBalance b0.amount) s.users,
            auctions := s.auctions,
            bids := updateOne (namedBidQuery r.auctionId b0.username) (markOutbid now) s.bids } := by
        simp only [refundOutbid, hout, hfind]
      rw [e]
      exact filter_updateOne_only _ _ _ _ b0 hb0 hfind (by simp [itemBidQuery, markOutbid])

theorem reserves_updateOne (q : Auction → Bool) (u : Auction → Auction)
    (hu : ∀ x, (u x).reserveBid = x.reserveBid) (l : List Auction)
    (hl : ∀ a ∈ l, 0 < a.reserveBid) : ∀ a ∈ updateOne q u l, 0 < a.reserveBid := by
  intro a ha
  rcases mem_updateOne q u l a ha with h | ⟨x, hx, _, rfl⟩
  · exact hl a h
  · rw [hu x]; exact hl x hx

theorem exists_id_updateOne (q : Auction → Bool) (u : Auction → Auction)
    (hu : ∀ x, (u x).id = x.id) (l : List Auction) (k : String)
    (h : ∃ a ∈ l, a.id = k) : ∃ a ∈ updateOne q u l, a.id = k := by
  have h1 : k ∈ l.map (fun a => a.id) := List.mem_map.mpr h
  rw [← ids_updateOne q u hu l] at h1
  exact List.mem_map.mp h1

theorem oneBidInv_placeBid (pairs : List (String × String)) (now : Nat) (s : Db)
    (r : BidRequest) (hinv : OneBidInv pairs s)
    (hdisc : ∀ p ∈ pairs, ∀ q ∈ pairs, (p.1 = q.1 ↔ p.2 = q.2))
    (hr : (r.uid, r.username) ∈ pairs) : OneBidInv pairs (placeBid now s r).1 := by
  rcases placeBid_cases now s r with ⟨h1, _⟩ | ⟨user, auction, hf, hu, hb, ha, hm⟩
  · rw [h1]; exact hinv
  · have hnil := refunded_item_nil pairs now s r auction hinv hdisc hr ha
    obtain ⟨hids, hres, hcons, hone, hbids⟩ := hinv
    rw [placeBid_of_success now s r user auction hf hu hb ha hm]
    have hamem : auction ∈ s.auctions := List.mem_of_find?_eq_some ha
    have haid : auction.id = r.auctionId := by
      have := List.find?_some ha
      simp only [activeAuctionQuery, Bool.and_eq_true, beq_iff_eq] at this
      exact this.1
    have hauc : (commitBid now r (refundOutbid now r auction (refundExisting now r s))).auctions =
        updateOne (auctionQuery r.auctionId) (setHighBid r.bidAmount r.username now)
          s.auctions := by
      simp only [commitBid, refundOutbid_auctions]
      rw [refundExisting_eq]
    refine ⟨?_, ?_, consistent_after_commit now s r auction hids hres hcons ha hm, ?_, ?_⟩
    · unfold UniqueAuctionIds
      rw [hauc, ids_updateOne (auctionQuery r.auctionId)
        (setHighBid r.bidAmount r.username now) (fun _ => rfl)]
      exact hids
    · unfold PositiveReserves
      rw [hauc]
      exact reserves_updateOne (auctionQuery r.auctionId) (setHighBid r.bidAmount r.username now)
        (fun _ => rfl) _ hres
    · intro aid
      simp only [commitBid, List.filter_append]
      by_cases he : aid = r.auctionId
      · rw [he, hnil]
        simp only [List.nil_append]
        exact List.length_filter_le _ _
      · rw [List.filter_cons_of_neg (by simp [itemBidQuery, newBid, Ne.symm he])]
        simp only [List.filter_nil, List.append_nil]
        exact le_trans (refunded_sublist now r auction s (itemBidQuery aid)
          (fun b hb => by simp [itemBidQuery, hb])).length_le (hone aid)
    · intro b hbmem hact
      rw [hauc]
      simp only [commitBid] at hbmem
      rcases List.mem_append.mp hbmem with hbmem | hbmem
      · obtain ⟨h1, h2, h3, h4⟩ := hbids b (mem_active_refunded now r auction s b hbmem hact) hact
        exact ⟨h1, h2, h3, exists_id_updateOne (auctionQuery r.auctionId)
          (setHighBid r.bidAmount r.username now) (fun _ => rfl) _ _ h4⟩
      · rw [List.mem_singleton] at hbmem
        subst hbmem
        have hfields : r.username ≠ "" := by
          simp only [missingField, Bool.or_eq_false_iff, beq_eq_false_iff_ne, ne_eq] at hf
          exact hf.1.1.2
        have hhigh : 0 ≤ auction.currentHighBid := by
          have hc := hcons auction hamem
          rcases hc.2 with ⟨b, hb1, hq, h3, _⟩ | ⟨_, h3, _⟩
          · have hbact : b.active = true := by
              simp only [itemBidQuery, Bool.and_eq_true] at hq; exact hq.2
            have := (hbids b hb1 hbact).1
            omega
          · omega
        have hpos : 0 < r.bidAmount := by
          have h2 := hres auction hamem
          unfold minimumBid CONFIG.MIN_BID_INCREMENT at hm
          by_cases h0 : auction.currentHighBid = 0
          · rw [if_neg (by simpa using h0)] at hm; omega
          · rw [if_pos h0] at hm; omega
        refine ⟨hpos, hfields, hr, ?_⟩
        exact exists_id_updateOne (auctionQuery r.auctionId) (setHighBid r.bidAmount r.username now)
          (fun _ => rfl) _ _ ⟨auction, hamem, haid⟩

theorem removeBid_auctions_shape (now : Nat) (s : Db) (r : RemoveRequest) (bid : Bid)
    (hauc : (removeBid now s r).1.auctions =
      (match remainingBids r.auctionId
          (updateOne (ownBidQuery r.uid r.auctionId) (markRemoved now) s.bids) with
      | top :: _ =>
        updateOne (auctionQuery r.auctionId)
          (resetHighBid top.amount (some top.username)) s.auctions
      | [] => updateOne (auctionQuery r.auctionId) (resetHighBid 0 none) s.auctions))
    (_hb : s.bids.find? (ownBidQuery r.uid r.auctionId) = some bid) :
    ∃ (n : Int) (name : Option String), (removeBid now s r).1.auctions =
      updateOne (auctionQuery r.auctionId) (resetHighBid n name) s.auctions := by
  cases hrem : remainingBids r.auctionId
      (updateOne (ownBidQuery r.uid r.auctionId) (markRemoved now) s.bids) with
  | nil => rw [hrem] at hauc; exact ⟨0, none, hauc⟩
  | cons top rest => rw [hrem] at hauc; exact ⟨top.amount, some top.username, hauc⟩

theorem oneBidInv_removeBid (pairs : List (String × String)) (now : Nat) (s : Db)
    (r : RemoveRequest) (hinv : OneBidInv pairs s) : OneBidInv pairs (removeBid now s r).1 := by
  rcases removeBid_cases now s r with ⟨h1, _⟩ | ⟨bid, _, hfb, _, hbids', hauc, _⟩
  · rw [h1]; exact hinv
  · obtain ⟨hids, hres, hcons, hone, hbids⟩ := hinv
    obtain ⟨n, name, hshape⟩ := removeBid_auctions_shape now s r bid hauc hfb
    refine ⟨?_, ?_, consistent_after_remove now s r hids hcons, ?_, ?_⟩
    · unfold UniqueAuctionIds
      rw [hshape, ids_updateOne (auctionQuery r.auctionId) (resetHighBid n name) (fun _ => rfl)]
      exact hids
    · unfold PositiveReserves
      rw [hshape]
      exact reserves_updateOne (auctionQuery r.auctionId) (resetHighBid n name)
        (fun _ => rfl) _ hres
    · intro aid
      rw [hbids']
      exact le_trans (filter_updateOne_sublist _ _ _
        (fun x _ => by simp [itemBidQuery, markRemoved]) _).length_le (hone aid)
    · intro b hbmem hact
      rw [hbids'] at hbmem
      rw [hshape]
      obtain ⟨h1, h2, h3, h4⟩ := hbids b (mem_active_updateOne (fun _ => rfl) hbmem hact) hact
      exact ⟨h1, h2, h3, exists_id_updateOne (auctionQuery r.auctionId)
        (resetHighBid n name) (fun _ => rfl) _ _ h4⟩

theorem oneBidInv_getBalance (pairs : List (String × String)) (now : Nat) (s : Db)
    (r : BalanceRequest) (hinv : OneBidInv pairs s) : OneBidInv pairs (getBalance now s r) := by
  rcases getBalance_cases now s r with e | ⟨_, e⟩ | ⟨_, _, e⟩
  · rw [e]; exact hinv
  · rw [e]; exact hinv
  · rw [e]; exact hinv

theorem mem_bidPairs (calls : List Call) (now : Nat) (r : BidRequest)
    (h : Call.bid now r ∈ calls) : (r.uid, r.username) ∈ bidPairs calls := by
  unfold bidPairs
  exact List.mem_filterMap.mpr ⟨Call.bid now r, h, rfl⟩

theorem oneBidInv_run (pairs : List (String × String))
    (hdisc : ∀ p ∈ pairs, ∀ q ∈ pairs, (p.1 = q.1 ↔ p.2 = q.2))
    (cs : List Call) (hsub : ∀ now r, Call.bid now r ∈ cs → (r.uid, r.username) ∈ pairs)
    (s : Db) (hinv : OneBidInv pairs s) : OneBidInv pairs (run s cs) := by
  induction cs generalizing s with
  | nil => exact hinv
  | cons c t ih =>
    apply ih (fun now r h => hsub now r (List.mem_cons_of_mem _ h))
    cases c with
    | balance now r => exact oneBidInv_getBalance pairs now s r hinv
    | bid now r =>
      exact oneBidInv_placeBid pairs now s r hinv hdisc (hsub now r (List.mem_cons_self _ _))
    | remove now r => exact oneBidInv_removeBid pairs now s r hinv

theorem oneBidInv_initial (pairs : List (String × String)) (s0 : Db)
    (hb : s0.bids = []) (h0 : AllUnbid s0) (hids : UniqueAuctionIds s0)
    (hres : PositiveReserves s0) : OneBidInv pairs s0 := by
  refine ⟨hids, hres, ?_, ?_, ?_⟩
  · intro a ha
    rw [hb]
    exact ⟨by simp, Or.inr ⟨by simp, (h0 a ha).1, (h0 a ha).2⟩⟩
  · intro aid; rw [hb]; simp
  · intro b hbm; rw [hb] at hbm; cases hbm

theorem amounts_updateOne (q : Bid → Bool) (u : Bid → Bid)
    (hu : ∀ x, (u x).amount = x.amount) (l : List Bid)
    (hl : ∀ b ∈ l, 0 ≤ b.amount) : ∀ b ∈ updateOne q u l, 0 ≤ b.amount := by
  intro b hb
  rcases mem_updateOne q u l b hb with h | ⟨x, hx, _, rfl⟩
  · exact hl b h
  · rw [hu x]; exact hl x hx

theorem highBids_updateOne (q : Auction → Bool) (n : Int) (hn : 0 ≤ n) (u : Auction → Auction)
    (hu : ∀ x, (u x).currentHighBid = n) (l : List Auction)
    (hl : ∀ a ∈ l, 0 ≤ a.currentHighBid) : ∀ a ∈ updateOne q u l, 0 ≤ a.currentHighBid := by
  intro a ha
  rcases mem_updateOne q u l a ha with h | ⟨x, _, _, rfl⟩
  · exact hl a h
  · rw [hu x]; exact hn

theorem bounds_after_placeBid (now : Nat) (s : Db) (r : BidRequest)
    (hb : NonnegativeBids s) (hres : PositiveReserves s) (hhigh : NonnegativeHighBids s) :
    NonnegativeBids (placeBid now s r).1 ∧ PositiveReserves (placeBid now s r).1 ∧
      NonnegativeHighBids (placeBid now s r).1 := by
  rcases placeBid_cases now s r with ⟨h1, _⟩ | ⟨user, auction, hf, hu, hbal, ha, hm⟩
  · rw [h1]; exact ⟨hb, hres, hhigh⟩
  · rw [placeBid_of_success now s r user auction hf hu hbal ha hm]
    have hmin := minimumBid_pos s auction (List.mem_of_find?_eq_some ha) hres hhigh
    have hauc : (refundOutbid now r auction (refundExisting now r s)).auctions = s.auctions := by
      rw [refundOutbid_auctions, refundExisting_eq]
    have h1 : ∀ b ∈ (refundExisting now r s).bids, 0 ≤ b.amount := by
      rw [refundExisting_eq]
      refine amounts_updateOne _ _ ?_ _ hb
      intro x; rfl
    have h2 : ∀ b ∈ (refundOutbid now r auction (refundExisting now r s)).bids,
        0 ≤ b.amount := by
      rcases refundOutbid_cases now r auction (refundExisting now r s) with h | ⟨_, _, _, _, h⟩
      · rw [h]; exact h1
      · rw [h]
        refine amounts_updateOne _ _ ?_ _ h1
        intro x; rfl
    refine ⟨?_, ?_, ?_⟩
    · intro b hmem
      simp only [commitBid] at hmem
      rcases List.mem_append.mp hmem with hmem | hmem
      · exact h2 b hmem
      · rw [List.mem_singleton] at hmem
        rw [hmem]
        simp only [newBid]
        omega
    · unfold PositiveReserves
      simp only [commitBid]
      rw [hauc]
      refine reserves_updateOne _ _ ?_ _ hres
      intro x; rfl
    · unfold NonnegativeHighBids
      simp only [commitBid]
      rw [hauc]
      refine highBids_updateOne _ r.bidAmount (by omega) _ ?_ _ hhigh
      intro x; rfl

theorem bounds_after_removeBid (now : Nat) (s : Db) (r : RemoveRequest)
    (hb : NonnegativeBids s) (hres : PositiveReserves s) (hhigh : NonnegativeHighBids s) :
    NonnegativeBids (removeBid now s r).1 ∧ PositiveReserves (removeBid now s r).1 ∧
      NonnegativeHighBids (removeBid now s r).1 := by
  rcases removeBid_cases now s r with ⟨h1, _⟩ | ⟨bid, _, hfb, _, hbids, hauc, _⟩
  · rw [h1]; exact ⟨hb, hres, hhigh⟩
  · have hb1 : ∀ b ∈ updateOne (ownBidQuery r.uid r.auctionId) (markRemoved now) s.bids,
        0 ≤ b.amount := by
      refine amounts_updateOne _ _ ?_ _ hb
      intro x; rfl
    refine ⟨?_, ?_, ?_⟩
    · unfold NonnegativeBids
      rw [hbids]
      exact hb1
    · unfold PositiveReserves
      obtain ⟨n, name, hshape⟩ := removeBid_auctions_shape now s r bid hauc hfb
      rw [hshape]
      refine reserves_updateOne _ _ ?_ _ hres
      intro x; rfl
    · unfold NonnegativeHighBids
      rw [hauc]
      cases hrem : remainingBids r.auctionId
          (updateOne (ownBidQuery r.uid r.auctionId) (markRemoved now) s.bids) with
      | nil =>
        refine highBids_updateOne _ 0 (le_refl _) _ ?_ _ hhigh
        intro x; rfl
      | cons top rest =>
        have htop := (remaining_top _ _ top rest hrem).1.1
        refine highBids_updateOne _ top.amount (hb1 top htop) _ ?_ _ hhigh
        intro x; rfl

theorem bounds_after_getBalance (now : Nat) (s : Db) (r : BalanceRequest)
    (h : NonnegativeBalances s) :
    NonnegativeBalances (getBalance now s r) ∧ (getBalance now s r).bids = s.bids ∧
      (getBalance now s r).auctions = s.auctions := by
  rcases getBalance_cases now s r with e | ⟨_, e⟩ | ⟨_, _, e⟩
  · rw [e]; exact ⟨h, rfl, rfl⟩
  · rw [e]
    refine ⟨?_, rfl, rfl⟩
    intro u hu
    simp only at hu
    rcases List.mem_append.mp hu with hu | hu
    · exact h u hu
    · rw [List.mem_singleton] at hu
      rw [hu]
      simp [newUser, CONFIG.STARTING_APPRAICENTS]
  · rw [e]
    refine ⟨?_, rfl, rfl⟩
    exact forall_updateOne (fun u : User => 0 ≤ u.appraiCentsBalance) (userQuery r.uid)
      (touchActivity now) s.users h (fun x hx => h x (List.mem_of_find?_eq_some hx))

theorem bounds_run (calls : List Call) (s : Db)
    (hb : NonnegativeBids s) (h : NonnegativeBalances s) (hres : PositiveReserves s)
    (hhigh : NonnegativeHighBids s) :
    NonnegativeBids (run s calls) ∧ NonnegativeBalances (run s calls) ∧
      PositiveReserves (run s calls) ∧ NonnegativeHighBids (run s calls) := by
  induction calls generalizing s with
  | nil => exact ⟨hb, h, hres, hhigh⟩
  | cons c rest ih =>
    show NonnegativeBids (run (step s c) rest) ∧ NonnegativeBalances (run (step s c) rest) ∧
      PositiveReserves (run (step s c) rest) ∧ NonnegativeHighBids (run (step s c) rest)
    cases c with
    | balance now r =>
      obtain ⟨h1, h2, h3⟩ := bounds_after_getBalance now s r h
      apply ih
      · unfold NonnegativeBids; simp only [step]; rw [h2]; exact hb
      · exact h1
      · unfold PositiveReserves; simp only [step]; rw [h3]; exact hres
      · unfold NonnegativeHighBids; simp only [step]; rw [h3]; exact hhigh
    | bid now r =>
      obtain ⟨h1, h2, h3⟩ := bounds_after_placeBid now s r hb hres hhigh
      exact ih _ h1 (nonneg_after_placeBid now s r hb h) h2 h3
    | remove now r =>
      obtain ⟨h1, h2, h3⟩ := bounds_after_removeBid now s r hb hres hhigh
      exact ih _ h1 (nonneg_after_removeBid now s r hb h) h2 h3

/-! ## The claims -/

/-- Counterexample to C1 as stated.  In `dbShadowed` two auction documents carry
the id `auction1` and every auction is high-bid consistent; alice's bid of 100
succeeds, `updateOne({ id })` rewrites the first document only, and the second
one still says `(0, null)` although an active bid of 100 stands on its id.  In
`dbZeroBid` the ids are unique, the reserve is -10 and bob's active bid of 0 is
the high bid, so every auction is consistent; alice's bid of -5 succeeds, bob's
bid stays active (`currentHighBid > 0` fails) and the auction says -5 below
bob's 0. -/
theorem high_bid_consistency_counterexample :
    AllConsistent dbShadowed ∧
    (placeBid 1 dbShadowed ⟨"u1", "alice", "auction1", 100⟩).2.success = true ∧
    ¬ AllConsistent (placeBid 1 dbShadowed ⟨"u1", "alice", "auction1", 100⟩).1 ∧
    (placeBid 1 dbShadowed ⟨"u1", "alice", "auction1", 100⟩).1.auctions =
      [{ auction1 with active := false, currentHighBid := 100,
                       highestBidder := some "alice", lastBidAt := some 1 }, auction1] ∧
    UniqueAuctionIds dbZeroBid ∧ AllConsistent dbZeroBid ∧
    (placeBid 2 dbZeroBid ⟨"u1", "alice", "auction1", -5⟩).2.success = true ∧
    ¬ AllConsistent (placeBid 2 dbZeroBid ⟨"u1", "alice", "auction1", -5⟩).1 ∧
    (placeBid 2 dbZeroBid ⟨"u1", "alice", "auction1", -5⟩).1.bids =
      [bidZero, newBid 2 ⟨"u1", "alice", "auction1", -5⟩] :=
  ⟨by decide, by decide, by decide, by decide, by decide, by decide, by decide, by decide,
   by decide⟩

/-- C1 as amended (high-bid consistency is preserved).  In a database whose
auction ids are unique and whose reserves are positive, if every auction is
high-bid consistent, then every auction is high-bid consistent after any
successful `placeBid` and after any successful `removeBid`. -/
theorem high_bid_consistency_preserved (now : Nat) (s : Db)
    (hids : UniqueAuctionIds s) (hres : PositiveReserves s) (h : AllConsistent s) :
    (∀ r : BidRequest, (placeBid now s r).2.success = true →
      AllConsistent (placeBid now s r).1) ∧
    (∀ r : RemoveRequest, (removeBid now s r).2.success = true →
      AllConsistent (removeBid now s r).1) := by
  constructor
  · intro r hs
    obtain ⟨user, auction, hf, hu, hb, ha, hm⟩ := placeBid_success_inv now s r hs
    rw [placeBid_of_success now s r user auction hf hu hb ha hm]
    exact consistent_after_commit now s r auction hids hres h ha hm
  · intro r _
    exact consistent_after_remove now s r hids h

/-- Witness of C1 as amended: bob outbids alice, and alice withdraws her bid. -/
theorem high_bid_consistency_preserved_witness :
    UniqueAuctionIds dbAliceHigh ∧ PositiveReserves dbAliceHigh ∧ AllConsistent dbAliceHigh ∧
    (placeBid 2 dbAliceHigh ⟨"u2", "bob", "auction1", 150⟩).2.success = true ∧
    AllConsistent (placeBid 2 dbAliceHigh ⟨"u2", "bob", "auction1", 150⟩).1 ∧
    (removeBid 2 dbAliceHigh ⟨"u1", "auction1"⟩).2.success = true ∧
    AllConsistent (removeBid 2 dbAliceHigh ⟨"u1", "auction1"⟩).1 :=
  ⟨by decide, by decide, by decide, by decide,
   (high_bid_consistency_preserved 2 dbAliceHigh (by decide) (by decide) (by decide)).1
     ⟨"u2", "bob", "auction1", 150⟩ (by decide),
   by decide,
   (high_bid_consistency_preserved 2 dbAliceHigh (by decide) (by decide) (by decide)).2
     ⟨"u1", "auction1"⟩ (by decide)⟩

/-- Counterexample to C2 as stated.  Alice starts with `STARTING_APPRAICENTS` and
no bid; she bids 128.2 on `auction1` and 32.4 on `auction3` and withdraws both
bids.  The four requests succeed, no active bid is left, and her balance is
999.9999999999999.  In `dbLarge` the amounts are integers: alice has a balance
of 2^53 and an active bid of 1; her `removeBid` succeeds and answers a refund of
1, the bid is no longer active and her balance is still 2^53. -/
theorem balance_conservation_counterexample :
    Js.balanceOf Js.dbFresh "u1" = some (Js.Number.ofInt CONFIG.STARTING_APPRAICENTS) ∧
    Js.dbFresh.bids = [] ∧
    (Js.placeBid 1 Js.dbFresh ⟨"u1", "alice", "auction1", .num (Js.Number.ofDecimal 1282 1)⟩).2 =
      .placed (Js.Number.ofDecimal 8718 1) ∧
    (Js.placeBid 2 (Js.run Js.dbFresh (Js.callsFractions.take 1))
        ⟨"u1", "alice", "auction3", .num (Js.Number.ofDecimal 324 1)⟩).2 =
      .placed (Js.Number.ofDecimal 8394 1) ∧
    (Js.removeBid 3 (Js.run Js.dbFresh (Js.callsFractions.take 2)) ⟨"u1", "auction1"⟩).2 =
      .removed (Js.Number.ofDecimal 1282 1) ∧
    (Js.removeBid 4 (Js.run Js.dbFresh (Js.callsFractions.take 3)) ⟨"u1", "auction3"⟩).2 =
      .removed (Js.Number.ofDecimal 324 1) ∧
    (Js.run Js.dbFresh Js.callsFractions).bids.filter (fun b => b.active) = [] ∧
    Js.balanceOf (Js.run Js.dbFresh Js.callsFractions) "u1" =
      some (Js.Number.ofDecimal 9999999999999999 13) ∧
    Js.Number.ofDecimal 9999999999999999 13 ≠ Js.Number.ofInt CONFIG.STARTING_APPRAICENTS ∧
    Js.balanceOf Js.dbLarge "u1" = some (Js.Number.ofInt (2 ^ 53)) ∧
    Js.dbLarge.bids.map (fun b => (b.uid, b.amount, b.active)) =
      [("u1", .num (Js.Number.ofInt 1), true)] ∧
    (Js.removeBid 2 Js.dbLarge ⟨"u1", "auction1"⟩).2 = .removed (Js.Number.ofInt 1) ∧
    (Js.removeBid 2 Js.dbLarge ⟨"u1", "auction1"⟩).1.bids.filter (fun b => b.active) = [] ∧
    Js.balanceOf (Js.removeBid 2 Js.dbLarge ⟨"u1", "auction1"⟩).1 "u1" =
      some (Js.Number.ofInt (2 ^ 53)) :=
  ⟨by decide, by decide, by decide, by decide, by decide, by decide, by decide, by decide,
   by decide, by decide, by decide, by decide, by decide, by decide⟩

/-- C2 as amended (balance conservation on integer amounts).  All amounts and
balances are integers.  In a database whose user ids are unique, every
`placeBid` and every `removeBid` call, successful or failed, leaves for every
user the sum of the balance and the amounts of that user's active bids as it
was; and in every database reached from start-up by `getBalance`, `placeBid`
and `removeBid` requests that sum is `STARTING_APPRAICENTS` for every user. -/
theorem balance_conservation (now : Nat) (s : Db) (hnd : UniqueUids s) :
    (∀ r : BidRequest, conserved (placeBid now s r).1 = conserved s) ∧
    (∀ r : RemoveRequest, conserved (removeBid now s r).1 = conserved s) ∧
    (∀ (auctions : List Auction) (calls : List Call),
      ∀ u ∈ (run (freshDb auctions) calls).users,
        u.appraiCentsBalance + escrow (run (freshDb auctions) calls).bids u.uid =
          CONFIG.STARTING_APPRAICENTS) := by
  refine ⟨fun r => conserved_placeBid now s r hnd, fun r => conserved_removeBid now s r hnd, ?_⟩
  intro auctions calls u hu
  have hinv := run_invariant calls (freshDb auctions)
    ⟨by simp [UniqueUids, freshDb], by simp [freshDb], by simp [conserved, freshDb]⟩
  exact hinv.2.2 (u.uid, u.appraiCentsBalance + escrow (run (freshDb auctions) calls).bids u.uid)
    (List.mem_map_of_mem
      (fun u => (u.uid, u.appraiCentsBalance + escrow (run (freshDb auctions) calls).bids u.uid))
      hu)

/-- Witness of C2 as amended: bob outbids alice, alice withdraws, and the sums
are 1000. -/
theorem balance_conservation_witness :
    UniqueUids dbAliceHigh ∧
    conserved (placeBid 2 dbAliceHigh ⟨"u2", "bob", "auction1", 150⟩).1 =
      conserved dbAliceHigh ∧
    conserved (removeBid 2 dbAliceHigh ⟨"u1", "auction1"⟩).1 = conserved dbAliceHigh ∧
    conserved dbAliceHigh = [("u1", 1000), ("u2", 1000)] :=
  ⟨by decide,
   (balance_conservation 2 dbAliceHigh (by decide)).1 ⟨"u2", "bob", "auction1", 150⟩,
   (balance_conservation 2 dbAliceHigh (by decide)).2.1 ⟨"u1", "auction1"⟩,
   by decide⟩

/-- C3 (single active bid).  If every (uid, auction) pair has at most one
active bid, the same holds after any `placeBid` and any `removeBid` call, and
after a successful `placeBid` the active bids of the bidder on that auction
are exactly the newly inserted bid. -/
theorem single_active_bid_preserved (now : Nat) (s : Db) (h : SingleActive s) :
    (∀ r : BidRequest, SingleActive (placeBid now s r).1) ∧
    (∀ r : RemoveRequest, SingleActive (removeBid now s r).1) ∧
    (∀ r : BidRequest, (placeBid now s r).2.success = true →
      ownActiveBids (placeBid now s r).1 r.uid r.auctionId = [newBid now r]) := by
  refine ⟨fun r => singleActive_placeBid now s r h, fun r => singleActive_removeBid now s r h, ?_⟩
  intro r hs
  obtain ⟨user, auction, hf, hu, hb, ha, hm⟩ := placeBid_success_inv now s r hs
  rw [placeBid_of_success now s r user auction hf hu hb ha hm]
  exact ownActiveBids_commit now r auction s (h _ _)

/-- Witness of C3: alice raises her own bid, and alice withdraws her bid. -/
theorem single_active_bid_preserved_witness :
    SingleActive dbAliceHigh ∧
    SingleActive (placeBid 2 dbAliceHigh ⟨"u1", "alice", "auction1", 120⟩).1 ∧
    SingleActive (removeBid 2 dbAliceHigh ⟨"u1", "auction1"⟩).1 ∧
    ownActiveBids (placeBid 2 dbAliceHigh ⟨"u1", "alice", "auction1", 120⟩).1 "u1" "auction1" =
      [newBid 2 ⟨"u1", "alice", "auction1", 120⟩] :=
  have h : SingleActive dbAliceHigh :=
    fun _ _ => le_trans (List.length_filter_le _ _) (by decide)
  ⟨h, (single_active_bid_preserved 2 dbAliceHigh h).1 ⟨"u1", "alice", "auction1", 120⟩,
   (single_active_bid_preserved 2 dbAliceHigh h).2.1 ⟨"u1", "auction1"⟩,
   (single_active_bid_preserved 2 dbAliceHigh h).2.2 ⟨"u1", "alice", "auction1", 120⟩
     (by decide)⟩

/-- C4 (a failed `placeBid` is atomic).  Whenever `placeBid` answers
`success == false`, the users, bids and auctions collections after the call are
the collections before it. -/
theorem placeBid_failure_atomic (now : Nat) (s : Db) (r : BidRequest)
    (h : (placeBid now s r).2.success = false) : (placeBid now s r).1 = s := by
  rcases placeBid_cases now s r with ⟨h1, _⟩ | ⟨user, auction, hf, hu, hb, ha, hm⟩
  · exact h1
  · rw [placeBid_of_success now s r user auction hf hu hb ha hm] at h
    cases h

/-- Witness of C4: alice bids 1001 with a balance of 1000. -/
theorem placeBid_failure_atomic_witness :
    (placeBid 1 dbFresh ⟨"u1", "alice", "auction1", 1001⟩).2.success = false ∧
    (placeBid 1 dbFresh ⟨"u1", "alice", "auction1", 1001⟩).1 = dbFresh :=
  ⟨by decide, placeBid_failure_atomic 1 dbFresh ⟨"u1", "alice", "auction1", 1001⟩ (by decide)⟩

/-- C5 (outbid refund): the handler diverges from it.  The database `dbTwoSams`
is high-bid consistent and has a single active bid; the high bid of `auction1`
is the active bid of `u1`; `u3`, a different user id that sends the same name,
bids 150 successfully and becomes the highest bidder; afterwards the bid of
`u1` is the same active document, with no `outbidAt`, and the balance of `u1`
is still 900: the previous highest bidder is neither refunded nor
deactivated, because lines 341-346 compare and look up user names where lines
320-324 use the uid. -/
theorem outbid_refund_counterexample :
    AllConsistent dbTwoSams ∧ SingleActive dbTwoSams ∧
    (placeBid 2 dbTwoSams ⟨"u3", "sam", "auction1", 150⟩).2.success = true ∧
    dbTwoSams.bids[0]? = some (bid100 "sam") ∧
    (bid100 "sam").uid ≠ "u3" ∧ (bid100 "sam").active = true ∧
    dbTwoSams.auctions.find? (activeAuctionQuery "auction1") =
      some { auction1 with currentHighBid := (bid100 "sam").amount,
                           highestBidder := some (bid100 "sam").username,
                           lastBidAt := some 1 } ∧
    (placeBid 2 dbTwoSams ⟨"u3", "sam", "auction1", 150⟩).1.bids[0]? = some (bid100 "sam") ∧
    balanceOf dbTwoSams "u1" = some 900 ∧
    balanceOf (placeBid 2 dbTwoSams ⟨"u3", "sam", "auction1", 150⟩).1 "u1" = some 900 ∧
    (bid100 "sam").outbidAt = none ∧
    (placeBid 2 dbTwoSams ⟨"u3", "sam", "auction1", 150⟩).1.bids.filter
        (itemBidQuery "auction1") =
      [bid100 "sam", newBid 2 ⟨"u3", "sam", "auction1", 150⟩] ∧
    (placeBid 2 dbTwoSams ⟨"u3", "sam", "auction1", 150⟩).1.auctions.find?
        (activeAuctionQuery "auction1") =
      some { auction1 with currentHighBid := 150, highestBidder := some "sam",
                           lastBidAt := some 2 } :=
  ⟨by decide, fun _ _ => le_trans (List.length_filter_le _ _) (by decide), by decide,
   by decide, by decide, by decide, by decide, by decide, by decide, by decide, by decide,
   by decide, by decide⟩

/-- The outbid refund where user names identify users.  Auction ids are
unique.  A successful `placeBid` is made on an auction whose current high bid
is the bid `a`: an active bid of positive amount owned by a user id other than
the bidder's, whose name is not empty, differs from the name the bidder sends,
and is carried by no other active bid on the auction.  Then after the call the
document `a` has `active: false` and `outbidAt: now` and is otherwise as it
was, the balance of the owner of `a` is larger by exactly the amount of `a`,
and the auction has the bidder's name as `highestBidder` and the bidder's
amount as `currentHighBid`. -/
theorem outbid_refund (now : Nat) (s : Db) (r : BidRequest) (a : Bid) (auction : Auction)
    (balA : Int)
    (hs : (placeBid now s r).2.success = true)
    (hids : UniqueAuctionIds s)
    (hauc : s.auctions.find? (activeAuctionQuery r.auctionId) = some auction)
    (hhigh : auction.currentHighBid = a.amount)
    (hname : auction.highestBidder = some a.username)
    (hA : s.bids.filter (namedBidQuery r.auctionId a.username) = [a])
    (hpos : 0 < a.amount) (hne : a.username ≠ "")
    (huid : a.uid ≠ r.uid) (hdiff : a.username ≠ r.username)
    (hbal : balanceOf s a.uid = some balA) :
    (∃ i : Nat, s.bids[i]? = some a ∧
      (placeBid now s r).1.bids[i]? =
        some { a with active := false, outbidAt := some now }) ∧
    balanceOf (placeBid now s r).1 a.uid = some (balA + a.amount) ∧
    (∃ a', (placeBid now s r).1.auctions.find? (activeAuctionQuery r.auctionId) = some a' ∧
      a'.highestBidder = some r.username ∧ a'.currentHighBid = r.bidAmount) := by
  obtain ⟨user, auction', hf, hu, hb, ha, hm⟩ := placeBid_success_inv now s r hs
  rw [hauc] at ha
  cases ha
  rw [placeBid_of_success now s r user auction hf hu hb hauc hm]
  have hamem : a ∈ s.bids.filter (namedBidQuery r.auctionId a.username) := by rw [hA]; simp
  have hown : ownBidQuery r.uid r.auctionId a = false := by simp [ownBidQuery, huid]
  obtain ⟨i, hi⟩ := List.getElem?_of_mem (List.mem_filter.mp hamem).1
  have hA1 : (refundExisting now r s).bids.filter (namedBidQuery r.auctionId a.username) = [a] := by
    rw [refundExisting_eq, ← hA]
    apply filter_updateOne_of_other
    intro x hx hq
    refine ⟨?_, by simp [namedBidQuery, markReplaced]⟩
    by_contra hc
    have : x ∈ s.bids.filter (namedBidQuery r.auctionId a.username) :=
      List.mem_filter.mpr ⟨hx, by simpa using hc⟩
    rw [hA, List.mem_singleton] at this
    rw [this, hown] at hq
    cases hq
  have hi1 : (refundExisting now r s).bids[i]? = some a := by
    rw [refundExisting_eq]
    exact getElem?_updateOne_of_not _ _ _ i a hi hown
  have hfind1 : (refundExisting now r s).bids.find? (namedBidQuery r.auctionId a.username) =
      some a := by
    rw [find?_eq_head?_filter, hA1]; rfl
  have hout : outbidName auction r.username = some a.username := by
    unfold outbidName
    rw [hname]
    simp only
    rw [if_pos ⟨by rw [hhigh]; exact hpos, hne, hdiff⟩]
  have h2 : refundOutbid now r auction (refundExisting now r s) =
      { users := updateOne (userQuery a.uid) (incBalance a.amount) (refundExisting now r s).users,
        auctions := (refundExisting now r s).auctions,
        bids := updateOne (namedBidQuery r.auctionId a.username) (markOutbid now)
          (refundExisting now r s).bids } := by
    simp only [refundOutbid, hout, hfind1]
  refine ⟨⟨i, hi, ?_⟩, ?_, ?_⟩
  · simp only [commitBid]
    apply getElem?_append_some
    rw [h2]
    exact getElem?_updateOne_unique _ _ _ a i hA1 hi1
  · unfold balanceOf at hbal ⊢
    simp only [commitBid]
    rw [find_user_of_ne r.uid a.uid (debitBid r.bidAmount) (fun _ => rfl) (Ne.symm huid), h2]
    simp only
    rw [find?_updateOne_same _ _ (fun x hx => by simpa [userQuery, incBalance] using hx),
      refundExisting_eq]
    simp only
    rw [find_user_of_ne r.uid a.uid (incBalance (existingAmount s r)) (fun _ => rfl)
      (Ne.symm huid)]
    cases hfu : s.users.find? (userQuery a.uid) with
    | none => rw [hfu] at hbal; simp at hbal
    | some ua =>
      rw [hfu] at hbal
      simp only [Option.map_some', Option.some.injEq] at hbal
      simp [incBalance, hbal]
  · refine ⟨setHighBid r.bidAmount r.username now auction, ?_, rfl, rfl⟩
    simp only [commitBid, refundOutbid_auctions]
    rw [refundExisting_eq]
    exact find_active_updateOne _ _ _ auction (fun _ => ⟨rfl, rfl⟩) hids hauc

/-- The outbid refund at work: bob outbids alice. -/
theorem outbid_refund_witness :
    (placeBid 2 dbAliceHigh ⟨"u2", "bob", "auction1", 150⟩).2.success = true ∧
    UniqueAuctionIds dbAliceHigh ∧
    dbAliceHigh.bids.filter (namedBidQuery "auction1" "alice") = [bid100 "alice"] ∧
    balanceOf dbAliceHigh "u1" = some 900 ∧
    (∃ i : Nat, dbAliceHigh.bids[i]? = some (bid100 "alice") ∧
      (placeBid 2 dbAliceHigh ⟨"u2", "bob", "auction1", 150⟩).1.bids[i]? =
        some { bid100 "alice" with active := false, outbidAt := some 2 }) ∧
    balanceOf (placeBid 2 dbAliceHigh ⟨"u2", "bob", "auction1", 150⟩).1 "u1" =
      some (900 + 100) ∧
    (∃ a', (placeBid 2 dbAliceHigh ⟨"u2", "bob", "auction1", 150⟩).1.auctions.find?
        (activeAuctionQuery "auction1") = some a' ∧
      a'.highestBidder = some "bob" ∧ a'.currentHighBid = 150) :=
  ⟨by decide, by decide, by decide, by decide,
   outbid_refund 2 dbAliceHigh ⟨"u2", "bob", "auction1", 150⟩ (bid100 "alice")
     { auction1 with currentHighBid := 100, highestBidder := some "alice", lastBidAt := some 1 }
     900 (by decide) (by decide) (by decide) (by decide) (by decide) (by decide) (by decide)
     (by decide) (by decide) (by decide) (by decide)⟩

/-- C6 (bid replacement).  In every database reached from start-up, when a user
who holds the active bid `e` on an auction places a successful bid on the same
auction: `e` becomes inactive with `replacedAt` set, the stored balance of the
user changes by exactly `e.amount - bidAmount` (one refund of `e`, also when
`e` was the high bid of the auction), and the active bids of that user on that
auction are exactly the new bid, of amount `bidAmount`. -/
theorem bid_replacement (auctions : List Auction) (calls : List Call) (now : Nat) (s : Db)
    (r : BidRequest) (e : Bid) (b : Int)
    (hreach : s = run (freshDb auctions) calls)
    (he : e ∈ ownActiveBids s r.uid r.auctionId)
    (hbal : balanceOf s r.uid = some b)
    (hs : (placeBid now s r).2.success = true) :
    (∃ i : Nat, s.bids[i]? = some e ∧
      (placeBid now s r).1.bids[i]? = some (markReplaced now e)) ∧
    balanceOf (placeBid now s r).1 r.uid = some (b + (e.amount - r.bidAmount)) ∧
    ownActiveBids (placeBid now s r).1 r.uid r.auctionId = [newBid now r] ∧
    (newBid now r).amount = r.bidAmount := by
  have hsingle : (ownActiveBids s r.uid r.auctionId).length ≤ 1 := by
    rw [hreach]; exact singleActive_reachable auctions calls r.uid r.auctionId
  exact replacement_of_single now s r e b (eq_singleton_of_mem _ e hsingle he) hbal hs

/-- Witness of C6: alice, high bidder with 100, raises her bid to 120. -/
theorem bid_replacement_witness :
    dbAliceHigh = run (freshDb [auction1, auction3]) callsAliceHigh ∧
    bid100 "alice" ∈ ownActiveBids dbAliceHigh "u1" "auction1" ∧
    balanceOf dbAliceHigh "u1" = some 900 ∧
    (placeBid 2 dbAliceHigh ⟨"u1", "alice", "auction1", 120⟩).2.success = true ∧
    (∃ i : Nat, dbAliceHigh.bids[i]? = some (bid100 "alice") ∧
      (placeBid 2 dbAliceHigh ⟨"u1", "alice", "auction1", 120⟩).1.bids[i]? =
        some (markReplaced 2 (bid100 "alice"))) ∧
    balanceOf (placeBid 2 dbAliceHigh ⟨"u1", "alice", "auction1", 120⟩).1 "u1" =
      some (900 + (100 - 120)) ∧
    ownActiveBids (placeBid 2 dbAliceHigh ⟨"u1", "alice", "auction1", 120⟩).1 "u1" "auction1" =
      [newBid 2 ⟨"u1", "alice", "auction1", 120⟩] ∧
    (newBid 2 ⟨"u1", "alice", "auction1", 120⟩).amount = 120 :=
  ⟨by decide, by decide, by decide, by decide,
   bid_replacement [auction1, auction3] callsAliceHigh 2 dbAliceHigh
     ⟨"u1", "alice", "auction1", 120⟩ (bid100 "alice") 900
     (by decide) (by decide) (by decide) (by decide)⟩

/-- Counterexample to C7 as stated.  Alice bids 88.4 on `auction1` and then
128.2 on the same auction.  The second bid succeeds and replaces the first; the
answer carries `newBalance` 871.8000000000001, computed as `(911.6 - 128.2) +
88.4`, and the balance stored for her is 871.8, computed as `(911.6 + 88.4) -
128.2`.  In `dbLarge` the amounts are integers: alice, with a balance of 2^53
and an active bid of 1, bids 2; the answer carries 2^53 - 1 and the balance
stored for her is 2^53 - 2. -/
theorem newBalance_counterexample :
    Js.balanceOf (Js.run Js.dbFresh Js.callsRaise) "u1" =
      some (Js.Number.ofDecimal 9116 1) ∧
    (Js.run Js.dbFresh Js.callsRaise).bids.map (fun b => (b.uid, b.amount, b.active)) =
      [("u1", .num (Js.Number.ofDecimal 884 1), true)] ∧
    (Js.placeBid 2 (Js.run Js.dbFresh Js.callsRaise)
        ⟨"u1", "alice", "auction1", .num (Js.Number.ofDecimal 1282 1)⟩).2 =
      .placed (Js.Number.ofDecimal 8718000000000001 13) ∧
    Js.balanceOf (Js.placeBid 2 (Js.run Js.dbFresh Js.callsRaise)
        ⟨"u1", "alice", "auction1", .num (Js.Number.ofDecimal 1282 1)⟩).1 "u1" =
      some (Js.Number.ofDecimal 8718 1) ∧
    Js.Number.ofDecimal 8718000000000001 13 ≠ Js.Number.ofDecimal 8718 1 ∧
    ((Js.Number.ofDecimal 9116 1).sub (Js.Number.ofDecimal 1282 1)).add
      (Js.Number.ofDecimal 884 1) = Js.Number.ofDecimal 8718000000000001 13 ∧
    ((Js.Number.ofDecimal 9116 1).add (Js.Number.ofDecimal 884 1)).sub
      (Js.Number.ofDecimal 1282 1) = Js.Number.ofDecimal 8718 1 ∧
    (Js.placeBid 2 Js.dbLarge ⟨"u1", "alice", "auction1", .num (Js.Number.ofInt 2)⟩).2 =
      .placed (Js.Number.ofInt (2 ^ 53 - 1)) ∧
    Js.balanceOf (Js.placeBid 2 Js.dbLarge
        ⟨"u1", "alice", "auction1", .num (Js.Number.ofInt 2)⟩).1 "u1" =
      some (Js.Number.ofInt (2 ^ 53 - 2)) ∧
    Js.Number.ofInt (2 ^ 53 - 1) ≠ Js.Number.ofInt (2 ^ 53 - 2) :=
  ⟨by decide, by decide, by decide, by decide, by decide, by decide, by decide, by decide,
   by decide, by decide⟩

/-- C7 as amended (the returned balance on integer amounts).  All amounts and
balances are integers.  In every database reached from start-up, a successful
`placeBid` answers with `newBalance` equal to the old balance minus the amount
plus the amount of the replaced active bid of the user (0 if there is none),
and that value is the `appraiCentsBalance` stored for the user after the
call. -/
theorem placeBid_newBalance (auctions : List Auction) (calls : List Call) (now : Nat)
    (s : Db) (r : BidRequest)
    (hreach : s = run (freshDb auctions) calls)
    (hs : (placeBid now s r).2.success = true) :
    ∃ user, s.users.find? (userQuery r.uid) = some user ∧
      (placeBid now s r).2.newBalance =
        some (user.appraiCentsBalance - r.bidAmount +
          (match s.bids.find? (ownBidQuery r.uid r.auctionId) with
           | some existingBid => existingBid.amount
           | none => 0)) ∧
      balanceOf (placeBid now s r).1 r.uid = (placeBid now s r).2.newBalance := by
  have hsingle : (ownActiveBids s r.uid r.auctionId).length ≤ 1 := by
    rw [hreach]; exact singleActive_reachable auctions calls r.uid r.auctionId
  exact newBalance_of_single now s r hsingle hs

/-- Witness of C7 as amended: alice, with 900 and a bid of 100, raises her bid
to 130. -/
theorem placeBid_newBalance_witness :
    dbAliceHigh = run (freshDb [auction1, auction3]) callsAliceHigh ∧
    (placeBid 3 dbAliceHigh ⟨"u1", "alice", "auction1", 130⟩).2.success = true ∧
    ∃ user, dbAliceHigh.users.find? (userQuery "u1") = some user ∧
      (placeBid 3 dbAliceHigh ⟨"u1", "alice", "auction1", 130⟩).2.newBalance =
        some (user.appraiCentsBalance - 130 +
          (match dbAliceHigh.bids.find? (ownBidQuery "u1" "auction1") with
           | some existingBid => existingBid.amount
           | none => 0)) ∧
      balanceOf (placeBid 3 dbAliceHigh ⟨"u1", "alice", "auction1", 130⟩).1 "u1" =
        (placeBid 3 dbAliceHigh ⟨"u1", "alice", "auction1", 130⟩).2.newBalance :=
  ⟨by decide, by decide,
   placeBid_newBalance [auction1, auction3] callsAliceHigh 3 dbAliceHigh
     ⟨"u1", "alice", "auction1", 130⟩ (by decide) (by decide)⟩

/-- Counterexample to C8 as stated.  Alice's bid of `"60"`, a string, passes
every check and is stored as the high bid of `auction1`.  Bob, with all fields
present and a balance of 1000, then bids the number 61 on that active auction:
the floor is `"60" + 1`, the string `"601"`, the bid is refused as too low and
the message reports 601, although 61 is the high bid plus `MIN_BID_INCREMENT`.
In `dbLargeBid` the amounts are integers: the high bid is alice's 2^53, the
floor `2^53 + 1` is computed as 2^53, and bob's bid of 2^53, which is below the
high bid plus `MIN_BID_INCREMENT`, succeeds. -/
theorem bid_floor_counterexample :
    (Js.placeBid 1 Js.dbFresh ⟨"u1", "alice", "auction1", .digits [6, 0]⟩).2 =
      .placed (Js.Number.ofInt 940) ∧
    (Js.run Js.dbFresh Js.callsText).auctions.find? (Js.activeAuctionQuery "auction1") =
      some { Js.auction1 with currentHighBid := .digits [6, 0],
                              highestBidder := some "alice", lastBidAt := some 1 } ∧
    Js.balanceOf (Js.run Js.dbFresh Js.callsText) "u2" = some (Js.Number.ofInt 1000) ∧
    (Js.Value.digits [6, 0]).toNumber = Js.Number.ofInt 60 ∧
    (Js.Value.digits [6, 0]).toNumber.add (Js.Number.ofInt CONFIG.MIN_BID_INCREMENT) =
      Js.Number.ofInt 61 ∧
    Js.placeBid 2 (Js.run Js.dbFresh Js.callsText)
        ⟨"u2", "bob", "auction1", .num (Js.Number.ofInt 61)⟩ =
      (Js.run Js.dbFresh Js.callsText, .tooLow (.digits [6, 0, 1])) ∧
    Js.dbLargeBid.auctions.find? (Js.activeAuctionQuery "auction1") =
      some { Js.auction1 with currentHighBid := .num (Js.Number.ofInt (2 ^ 53)),
                              highestBidder := some "alice", lastBidAt := some 1 } ∧
    Js.balanceOf Js.dbLargeBid "u2" = some (Js.Number.ofInt (2 ^ 53)) ∧
    (Js.placeBid 2 Js.dbLargeBid
        ⟨"u2", "bob", "auction1", .num (Js.Number.ofInt (2 ^ 53))⟩).2 =
      .placed (Js.Number.ofInt 0) :=
  ⟨by decide, by decide, by decide, by decide, by decide, by decide, by decide, by decide,
   by decide⟩

/-- C8 as amended (bid floor on integer amounts).  The amount, the balance, the
high bid and the reserve are integers.  For a request with all fields present,
an existing user whose balance is at least the amount and an existing active
auction, with
`m = (currentHighBid if it is not 0, else reserveBid) + MIN_BID_INCREMENT`:
`placeBid` answers the too-low failure, whose message reports `m`, if and only
if the amount is below `m`; it fails if and only if the amount is below `m`;
and it succeeds if and only if the amount is at least `m`. -/
theorem placeBid_floor (now : Nat) (s : Db) (r : BidRequest) (user : User)
    (auction : Auction) (hf : missingField r = false)
    (hu : s.users.find? (userQuery r.uid) = some user)
    (hb : r.bidAmount ≤ user.appraiCentsBalance)
    (ha : s.auctions.find? (activeAuctionQuery r.auctionId) = some auction) :
    minimumBid auction =
        (if auction.currentHighBid = 0 then auction.reserveBid else auction.currentHighBid)
          + CONFIG.MIN_BID_INCREMENT ∧
      ((placeBid now s r).2 =
          failure ("Bid must be at least " ++ toString (minimumBid auction) ++ " aC") ↔
        r.bidAmount < minimumBid auction) ∧
      ((placeBid now s r).2.success = false ↔ r.bidAmount < minimumBid auction) ∧
      ((placeBid now s r).2.success = true ↔ minimumBid auction ≤ r.bidAmount) := by
  have key : r.bidAmount < minimumBid auction →
      placeBid now s r =
        (s, failure ("Bid must be at least " ++ toString (minimumBid auction) ++ " aC")) := by
    intro hm
    unfold placeBid
    simp only [hf, hu, ha]
    rw [if_neg (by simp), if_neg (not_lt.mpr hb), if_pos hm]
  refine ⟨?_, ?_, ?_, ?_⟩
  · unfold minimumBid
    by_cases h0 : auction.currentHighBid = 0 <;> simp [h0]
  · constructor
    · intro h
      by_contra hm
      rw [placeBid_of_success now s r user auction hf hu hb ha (not_lt.mp hm)] at h
      simp [failure] at h
    · intro hm; rw [key hm]
  · constructor
    · intro h
      by_contra hm
      rw [placeBid_of_success now s r user auction hf hu hb ha (not_lt.mp hm)] at h
      cases h
    · intro hm; rw [key hm]; rfl
  · constructor
    · intro h
      by_contra hm
      rw [key (not_le.mp hm)] at h
      cases h
    · intro hm
      rw [placeBid_of_success now s r user auction hf hu hb ha hm]

/-- Witness of C8 as amended: with a high bid of 100, bob's bid of 100 is told
the floor 101. -/
theorem placeBid_floor_witness :
    missingField ⟨"u2", "bob", "auction1", 100⟩ = false ∧
    dbAliceHigh.users.find? (userQuery "u2") = some (sampleUser "u2" "bob" 1000) ∧
    (100 : Int) ≤ (sampleUser "u2" "bob" 1000).appraiCentsBalance ∧
    (placeBid 2 dbAliceHigh ⟨"u2", "bob", "auction1", 100⟩).2 =
      failure "Bid must be at least 101 aC" :=
  ⟨by decide, by decide, by decide,
   ((placeBid_floor 2 dbAliceHigh ⟨"u2", "bob", "auction1", 100⟩ (sampleUser "u2" "bob" 1000)
     { auction1 with currentHighBid := 100, highestBidder := some "alice", lastBidAt := some 1 }
     (by decide) (by decide) (by decide) (by decide)).2.1).mpr (by decide)⟩

/-- Counterexample to C9 as stated.  Alice has a balance of 1000 and `auction1`
is active with `reserveBid = 50` and `currentHighBid = 0`; her bid of 50 fails
and her balance stays 1000. -/
theorem scenarioA_counterexample :
    balanceOf dbFresh "u1" = some 1000 ∧
    dbFresh.auctions.find? (activeAuctionQuery "auction1") = some auction1 ∧
    auction1.reserveBid = 50 ∧ auction1.currentHighBid = 0 ∧
    (placeBid 1 dbFresh ⟨"u1", "alice", "auction1", 50⟩).2.success = false ∧
    balanceOf (placeBid 1 dbFresh ⟨"u1", "alice", "auction1", 50⟩).1 "u1" = some 1000 :=
  ⟨by decide, by decide, by decide, by decide, by decide, by decide⟩

/-- C9 as amended (scenario A).  A user with balance 1000 and no active bid on
an active auction with `reserveBid = 50` and `currentHighBid = 0`: a bid of 50
is refused with the floor 51 and changes nothing; a bid of 51 succeeds, the
answer carries the balance 949 and the stored balance becomes 949. -/
theorem scenarioA_boundary (now : Nat) (s : Db) (uid username auctionId : String)
    (user : User) (auction : Auction)
    (h1 : uid ≠ "") (h2 : username ≠ "") (h3 : auctionId ≠ "")
    (hu : s.users.find? (userQuery uid) = some user)
    (hb : user.appraiCentsBalance = 1000)
    (ha : s.auctions.find? (activeAuctionQuery auctionId) = some auction)
    (hr : auction.reserveBid = 50) (hh : auction.currentHighBid = 0)
    (hfresh : ownActiveBids s uid auctionId = []) :
    placeBid now s ⟨uid, username, auctionId, 50⟩ =
        (s, failure "Bid must be at least 51 aC") ∧
      (placeBid now s ⟨uid, username, auctionId, 51⟩).2.success = true ∧
      (placeBid now s ⟨uid, username, auctionId, 51⟩).2.newBalance = some 949 ∧
      balanceOf (placeBid now s ⟨uid, username, auctionId, 51⟩).1 uid = some 949 := by
  have hmin : minimumBid auction = 51 := by
    unfold minimumBid; rw [hh, hr]; decide
  have hex : ∀ n, existingAmount s ⟨uid, username, auctionId, n⟩ = 0 := by
    intro n
    unfold existingAmount
    simp only
    rw [find?_eq_head?_filter]
    unfold ownActiveBids at hfresh
    rw [hfresh]; rfl
  have hlen : (ownActiveBids s uid auctionId).length ≤ 1 := by rw [hfresh]; simp
  constructor
  · unfold placeBid
    have hf : missingField ⟨uid, username, auctionId, 50⟩ = false := by
      simp [missingField, h1, h2, h3]
    simp only [hf, hu, ha, hmin, hb]
    rw [if_neg (by decide), if_neg (by decide), if_pos (by decide)]
    have hmsg : "Bid must be at least " ++ toString (51 : Int) ++ " aC" =
        "Bid must be at least 51 aC" := by decide
    rw [hmsg]
  · have hf : missingField ⟨uid, username, auctionId, 51⟩ = false := by
      simp [missingField, h1, h2, h3]
    have e := placeBid_of_success now s ⟨uid, username, auctionId, 51⟩ user auction hf hu
      (by rw [hb]; show (51 : Int) ≤ 1000; decide) ha (by rw [hmin])
    rw [e]
    refine ⟨rfl, ?_, ?_⟩
    · simp only [hb, hex]; decide
    · have := balanceOf_commit now ⟨uid, username, auctionId, 51⟩ auction s user hu hlen
      simp only at this
      rw [this, hb, hex]; decide

/-- Witness of C9 as amended: bob on `auction1`. -/
theorem scenarioA_boundary_witness :
    dbFresh.users.find? (userQuery "u2") = some (sampleUser "u2" "bob" 1000) ∧
    dbFresh.auctions.find? (activeAuctionQuery "auction1") = some auction1 ∧
    ownActiveBids dbFresh "u2" "auction1" = [] ∧
    placeBid 1 dbFresh ⟨"u2", "bob", "auction1", 50⟩ =
      (dbFresh, failure "Bid must be at least 51 aC") ∧
    (placeBid 1 dbFresh ⟨"u2", "bob", "auction1", 51⟩).2.success = true ∧
    (placeBid 1 dbFresh ⟨"u2", "bob", "auction1", 51⟩).2.newBalance = some 949 ∧
    balanceOf (placeBid 1 dbFresh ⟨"u2", "bob", "auction1", 51⟩).1 "u2" = some 949 :=
  ⟨by decide, by decide, by decide,
   scenarioA_boundary 1 dbFresh "u2" "bob" "auction1" (sampleUser "u2" "bob" 1000) auction1
     (by decide) (by decide) (by decide) (by decide) (by decide) (by decide) (by decide)
     (by decide) (by decide)⟩

/-- Counterexample to C10 as stated.  The user id `u9` has no record, all
fields are present, `auction1` is active and 60 meets the floor and is at most
the starting balance; `placeBid` answers `User not found` and creates no user. -/
theorem placeBid_first_contact_counterexample :
    dbNoUsers.users.find? (userQuery "u9") = none ∧
    missingField ⟨"u9", "zoe", "auction1", 60⟩ = false ∧
    dbNoUsers.auctions.find? (activeAuctionQuery "auction1") = some auction1 ∧
    minimumBid auction1 ≤ 60 ∧ (60 : Int) ≤ CONFIG.STARTING_APPRAICENTS ∧
    (placeBid 1 dbNoUsers ⟨"u9", "zoe", "auction1", 60⟩).2 = failure "User not found" ∧
    (placeBid 1 dbNoUsers ⟨"u9", "zoe", "auction1", 60⟩).1.users = [] :=
  ⟨by decide, by decide, by decide, by decide, by decide, by decide, by decide⟩

/-- C10 as amended (unknown user).  For a user id that has no record, a
`placeBid` request with all fields present answers `User not found` and
changes nothing.  The user is created by `getBalance`, with the balance
`STARTING_APPRAICENTS`; after that call the same request (active auction,
amount that meets the floor and is at most `STARTING_APPRAICENTS`, no active
bid under that user id on the auction) succeeds and leaves the balance at
`STARTING_APPRAICENTS - bidAmount`. -/
theorem placeBid_unknown_user (now later : Nat) (s : Db) (r : BidRequest) (auction : Auction)
    (hf : missingField r = false)
    (hu : s.users.find? (userQuery r.uid) = none)
    (ha : s.auctions.find? (activeAuctionQuery r.auctionId) = some auction)
    (hfloor : minimumBid auction ≤ r.bidAmount)
    (hmax : r.bidAmount ≤ CONFIG.STARTING_APPRAICENTS)
    (hfresh : ownActiveBids s r.uid r.auctionId = []) :
    placeBid now s r = (s, failure "User not found") ∧
    balanceOf (getBalance now s ⟨r.uid, r.username⟩) r.uid =
      some CONFIG.STARTING_APPRAICENTS ∧
    (placeBid later (getBalance now s ⟨r.uid, r.username⟩) r).2.success = true ∧
    balanceOf (placeBid later (getBalance now s ⟨r.uid, r.username⟩) r).1 r.uid =
      some (CONFIG.STARTING_APPRAICENTS - r.bidAmount) := by
  have hfields : r.uid ≠ "" ∧ r.username ≠ "" := by
    simp only [missingField, Bool.or_eq_false_iff, beq_eq_false_iff_ne, ne_eq] at hf
    exact ⟨hf.1.1.1, hf.1.1.2⟩
  have hget : getBalance now s ⟨r.uid, r.username⟩ =
      { users := s.users ++ [newUser now r.uid r.username], auctions := s.auctions,
        bids := s.bids } := by
    unfold getBalance initializeUser
    simp [hfields.1, hfields.2, hu]
  have hfind : (s.users ++ [newUser now r.uid r.username]).find? (userQuery r.uid) =
      some (newUser now r.uid r.username) := by
    rw [List.find?_append, hu]
    simp [userQuery, newUser]
  have husers : (getBalance now s ⟨r.uid, r.username⟩).users.find? (userQuery r.uid) =
      some (newUser now r.uid r.username) := by rw [hget]; exact hfind
  have hbids : (getBalance now s ⟨r.uid, r.username⟩).bids = s.bids := by rw [hget]
  have haucs : (getBalance now s ⟨r.uid, r.username⟩).auctions = s.auctions := by rw [hget]
  generalize getBalance now s ⟨r.uid, r.username⟩ = s1 at husers hbids haucs ⊢
  refine ⟨?_, ?_, ?_⟩
  · unfold placeBid
    simp only [hf, hu]
    rw [if_neg (by simp)]
  · unfold balanceOf
    rw [husers]; rfl
  · have e := placeBid_of_success later s1 r (newUser now r.uid r.username) auction hf husers
      hmax (by rw [haucs]; exact ha) hfloor
    rw [e]
    refine ⟨rfl, ?_⟩
    have hown : ownActiveBids s1 r.uid r.auctionId = [] := by
      unfold ownActiveBids at hfresh ⊢
      rw [hbids]; exact hfresh
    have hlen : (ownActiveBids s1 r.uid r.auctionId).length ≤ 1 := by rw [hown]; simp
    have hex : existingAmount s1 r = 0 := by
      unfold existingAmount
      rw [find?_eq_head?_filter]
      unfold ownActiveBids at hown
      rw [hown]; rfl
    simp only
    rw [balanceOf_commit later r auction s1 (newUser now r.uid r.username) husers hlen, hex]
    simp [newUser]

/-- Witness of C10 as amended: the unknown user `u7` on `auction3`. -/
theorem placeBid_unknown_user_witness :
    missingField ⟨"u7", "yan", "auction3", 31⟩ = false ∧
    dbFresh.users.find? (userQuery "u7") = none ∧
    dbFresh.auctions.find? (activeAuctionQuery "auction3") = some auction3 ∧
    placeBid 1 dbFresh ⟨"u7", "yan", "auction3", 31⟩ = (dbFresh, failure "User not found") ∧
    balanceOf (getBalance 1 dbFresh ⟨"u7", "yan"⟩) "u7" = some CONFIG.STARTING_APPRAICENTS ∧
    (placeBid 2 (getBalance 1 dbFresh ⟨"u7", "yan"⟩) ⟨"u7", "yan", "auction3", 31⟩).2.success =
      true ∧
    balanceOf (placeBid 2 (getBalance 1 dbFresh ⟨"u7", "yan"⟩)
        ⟨"u7", "yan", "auction3", 31⟩).1 "u7" =
      some (CONFIG.STARTING_APPRAICENTS - 31) :=
  ⟨by decide, by decide, by decide,
   placeBid_unknown_user 1 2 dbFresh ⟨"u7", "yan", "auction3", 31⟩ auction3
     (by decide) (by decide) (by decide) (by decide) (by decide) (by decide)⟩

/-- Counterexample to C11 as stated.  After her bid of 51.1 on `auction3` alice
has a balance of 948.9, and `auction1` has no active bid.  She bids 128.2 on
`auction1` and withdraws that bid at once: both requests succeed, the auction is
back at `(0, null)`, and her balance is 948.9000000000001.  In `dbLargeBalance`
the amounts are integers: alice, with a balance of 2^53 + 34, bids 33 on
`auction3`, which has no bid, and withdraws the bid at once; her balance is
2^53 + 32. -/
theorem place_then_remove_counterexample :
    Js.balanceOf (Js.run Js.dbFresh Js.callsAside) "u1" = some (Js.Number.ofDecimal 9489 1) ∧
    (Js.run Js.dbFresh Js.callsAside).bids.filter (Js.itemBidQuery "auction1") = [] ∧
    (Js.placeBid 2 (Js.run Js.dbFresh Js.callsAside)
        ⟨"u1", "alice", "auction1", .num (Js.Number.ofDecimal 1282 1)⟩).2.success = true ∧
    (Js.removeBid 3 (Js.placeBid 2 (Js.run Js.dbFresh Js.callsAside)
        ⟨"u1", "alice", "auction1", .num (Js.Number.ofDecimal 1282 1)⟩).1
        ⟨"u1", "auction1"⟩).2 = .removed (Js.Number.ofDecimal 1282 1) ∧
    Js.balanceOf (Js.removeBid 3 (Js.placeBid 2 (Js.run Js.dbFresh Js.callsAside)
        ⟨"u1", "alice", "auction1", .num (Js.Number.ofDecimal 1282 1)⟩).1
        ⟨"u1", "auction1"⟩).1 "u1" = some (Js.Number.ofDecimal 9489000000000001 13) ∧
    Js.Number.ofDecimal 9489000000000001 13 ≠ Js.Number.ofDecimal 9489 1 ∧
    (Js.removeBid 3 (Js.placeBid 2 (Js.run Js.dbFresh Js.callsAside)
        ⟨"u1", "alice", "auction1", .num (Js.Number.ofDecimal 1282 1)⟩).1
        ⟨"u1", "auction1"⟩).1.auctions.find? (Js.auctionQuery "auction1") =
      some { Js.auction1 with lastBidAt := some 2 } ∧
    Js.balanceOf Js.dbLargeBalance "u1" = some (Js.Number.ofInt (2 ^ 53 + 34)) ∧
    Js.dbLargeBalance.bids = [] ∧
    (Js.placeBid 1 Js.dbLargeBalance
        ⟨"u1", "alice", "auction3", .num (Js.Number.ofInt 33)⟩).2.success = true ∧
    (Js.removeBid 2 (Js.placeBid 1 Js.dbLargeBalance
        ⟨"u1", "alice", "auction3", .num (Js.Number.ofInt 33)⟩).1
        ⟨"u1", "auction3"⟩).2 = .removed (Js.Number.ofInt 33) ∧
    Js.balanceOf (Js.removeBid 2 (Js.placeBid 1 Js.dbLargeBalance
        ⟨"u1", "alice", "auction3", .num (Js.Number.ofInt 33)⟩).1
        ⟨"u1", "auction3"⟩).1 "u1" = some (Js.Number.ofInt (2 ^ 53 + 32)) ∧
    Js.Number.ofInt (2 ^ 53 + 32) ≠ Js.Number.ofInt (2 ^ 53 + 34) :=
  ⟨by decide, by decide, by decide, by decide, by decide, by decide, by decide, by decide,
   by decide, by decide, by decide, by decide, by decide⟩

/-- C11 as amended (place-then-remove round trip on integer amounts).  All
amounts and balances are integers.  When an auction has no active bid and a
user places a successful bid on it and then calls `removeBid` for it, with no
call in between: the removal succeeds and refunds the amount, the balance of
the user is its value before the bid, and the auction document of that id is at
`currentHighBid` 0 and `highestBidder` null (when auction ids are unique this
is the active auction that was bid on). -/
theorem place_then_remove (now later : Nat) (s : Db) (r : BidRequest)
    (hnone : ∀ b ∈ s.bids, itemBidQuery r.auctionId b = false)
    (hs : (placeBid now s r).2.success = true) :
    (removeBid later (placeBid now s r).1 ⟨r.uid, r.auctionId⟩).2.success = true ∧
    (removeBid later (placeBid now s r).1 ⟨r.uid, r.auctionId⟩).2.refundedAmount =
      some r.bidAmount ∧
    balanceOf (removeBid later (placeBid now s r).1 ⟨r.uid, r.auctionId⟩).1 r.uid =
      balanceOf s r.uid ∧
    (∃ a', (removeBid later (placeBid now s r).1 ⟨r.uid, r.auctionId⟩).1.auctions.find?
        (auctionQuery r.auctionId) = some a' ∧
      a'.currentHighBid = 0 ∧ a'.highestBidder = none) ∧
    (UniqueAuctionIds s →
      ∃ a', (removeBid later (placeBid now s r).1 ⟨r.uid, r.auctionId⟩).1.auctions.find?
          (activeAuctionQuery r.auctionId) = some a' ∧
        a'.currentHighBid = 0 ∧ a'.highestBidder = none) := by
  obtain ⟨user, auction, hf, hu, hb, ha, hm⟩ := placeBid_success_inv now s r hs
  rw [placeBid_of_success now s r user auction hf hu hb ha hm]
  simp only
  rw [refunded_eq_of_no_active now r auction s hnone]
  have hownfalse : ∀ y ∈ s.bids, ownBidQuery r.uid r.auctionId y = false := by
    intro y hy
    by_contra hc
    have := itemBidQuery_of_own _ _ y (by simpa using hc)
    rw [hnone y hy] at this; cases this
  have hfind : (commitBid now r s).bids.find? (ownBidQuery r.uid r.auctionId) =
      some (newBid now r) :=
    find?_append_last _ _ _ hownfalse (ownBidQuery_newBid now r)
  have hbids0 : updateOne (ownBidQuery r.uid r.auctionId) (markRemoved later)
      (commitBid now r s).bids = s.bids ++ [markRemoved later (newBid now r)] :=
    updateOne_append_last _ _ _ _ hownfalse (ownBidQuery_newBid now r)
  have hrem : remainingBids r.auctionId (s.bids ++ [markRemoved later (newBid now r)]) = [] := by
    unfold remainingBids
    have : (s.bids ++ [markRemoved later (newBid now r)]).filter (itemBidQuery r.auctionId) =
        [] := by
      apply List.filter_eq_nil_iff.mpr
      intro b hb'
      rcases List.mem_append.mp hb' with hb' | hb'
      · simp [hnone b hb']
      · rw [List.mem_singleton] at hb'
        simp [hb', itemBidQuery, markRemoved]
    rw [this]; rfl
  rcases removeBid_cases later (commitBid now r s) ⟨r.uid, r.auctionId⟩ with
    ⟨_, _, h3⟩ | ⟨bid, _, hfb, husers, hbids, hauc, hresp⟩
  · exfalso
    rcases h3 with h3 | h3
    · simp only [missingField, Bool.or_eq_false_iff, beq_eq_false_iff_ne, ne_eq] at hf
      simp [hf.1.1.1, hf.1.2] at h3
    · rw [hfind] at h3; cases h3
  · have hbid : bid = newBid now r := by
      have : some bid = some (newBid now r) := by rw [← hfb]; exact hfind
      exact Option.some.inj this
    subst hbid
    simp only at hbids hauc husers
    rw [hbids0] at hauc
    rw [hrem] at hauc
    simp only at hauc
    obtain ⟨x, hx⟩ := find_auction_of_active _ _ _ ha
    refine ⟨by rw [hresp], by rw [hresp]; rfl, ?_, ?_, ?_⟩
    · unfold balanceOf
      rw [husers]
      rw [find?_updateOne_same _ _ (fun x hx => by simpa [userQuery, incBalance] using hx)]
      rw [find_user_commitBid]
      cases hfu : s.users.find? (userQuery r.uid) with
      | none => rfl
      | some u0 => simp [incBalance, debitBid, newBid]
    · refine ⟨resetHighBid 0 none (setHighBid r.bidAmount r.username now x), ?_, rfl, rfl⟩
      rw [hauc, find_auction_updateOne r.auctionId (resetHighBid 0 none) (fun _ => rfl)]
      simp only [commitBid]
      rw [find_auction_updateOne r.auctionId (setHighBid r.bidAmount r.username now)
        (fun _ => rfl), hx]
      rfl
    · intro hids
      refine ⟨resetHighBid 0 none (setHighBid r.bidAmount r.username now auction), ?_, rfl, rfl⟩
      rw [hauc]
      apply find_active_updateOne r.auctionId (resetHighBid 0 none) _ _ (fun _ => ⟨rfl, rfl⟩)
      · simp only [commitBid]
        rw [ids_updateOne (auctionQuery r.auctionId) (setHighBid r.bidAmount r.username now)
          (fun _ => rfl)]
        exact hids
      · simp only [commitBid]
        exact find_active_updateOne r.auctionId (setHighBid r.bidAmount r.username now) _
          auction (fun _ => ⟨rfl, rfl⟩) hids ha

/-- Witness of C11 as amended: with alice's bid on `auction1` only, bob bids 40
on `auction3` and withdraws it. -/
theorem place_then_remove_witness :
    (∀ b ∈ dbAliceHigh.bids, itemBidQuery "auction3" b = false) ∧
    (placeBid 2 dbAliceHigh ⟨"u2", "bob", "auction3", 40⟩).2.success = true ∧
    balanceOf (removeBid 3 (placeBid 2 dbAliceHigh ⟨"u2", "bob", "auction3", 40⟩).1
      ⟨"u2", "auction3"⟩).1 "u2" = balanceOf dbAliceHigh "u2" ∧
    balanceOf dbAliceHigh "u2" = some 1000 ∧
    (∃ a', (removeBid 3 (placeBid 2 dbAliceHigh ⟨"u2", "bob", "auction3", 40⟩).1
        ⟨"u2", "auction3"⟩).1.auctions.find? (auctionQuery "auction3") = some a' ∧
      a'.currentHighBid = 0 ∧ a'.highestBidder = none) :=
  ⟨by decide, by decide,
   (place_then_remove 2 3 dbAliceHigh ⟨"u2", "bob", "auction3", 40⟩ (by decide)
     (by decide)).2.2.1,
   by decide,
   (place_then_remove 2 3 dbAliceHigh ⟨"u2", "bob", "auction3", 40⟩ (by decide)
     (by decide)).2.2.2.1⟩

/-- C12 (refund on removal).  For a successful `removeBid` of a user whose
active bid on the auction is `bid`: the response carries `refundedAmount =
bid.amount`, the balance of the user grows by exactly `bid.amount`, the bid
document, active before the call, has `active: false` and `removedAt: now`
after it and is otherwise as it was, in place; every other bid document is
unchanged, the user has one active bid fewer on the auction, and the user
document of every other uid is unchanged. -/
theorem removeBid_refund (now : Nat) (s : Db) (r : RemoveRequest) (bid : Bid) (b : Int)
    (hs : (removeBid now s r).2.success = true)
    (hfind : s.bids.find? (ownBidQuery r.uid r.auctionId) = some bid)
    (hbal : balanceOf s r.uid = some b) :
    (removeBid now s r).2.refundedAmount = some bid.amount ∧
    balanceOf (removeBid now s r).1 r.uid = some (b + bid.amount) ∧
    bid.active = true ∧
    (∃ i : Nat, s.bids[i]? = some bid ∧
      (removeBid now s r).1.bids[i]? =
        some { bid with active := false, removedAt := some now } ∧
      ∀ j : Nat, j ≠ i → (removeBid now s r).1.bids[j]? = s.bids[j]?) ∧
    (ownActiveBids (removeBid now s r).1 r.uid r.auctionId).length + 1 =
      (ownActiveBids s r.uid r.auctionId).length ∧
    (∀ w : String, w ≠ r.uid →
      (removeBid now s r).1.users.find? (userQuery w) = s.users.find? (userQuery w)) := by
  rcases removeBid_cases now s r with ⟨_, h, _⟩ | ⟨bid', _, hfb, husers, hbids, _, hresp⟩
  · rw [h] at hs; cases hs
  · rw [hfind] at hfb
    cases hfb
    have hact : bid.active = true := by
      have := List.find?_some hfind
      simp only [ownBidQuery, Bool.and_eq_true] at this
      exact this.2
    refine ⟨by rw [hresp], ?_, hact, ?_, ?_, ?_⟩
    · unfold balanceOf at hbal ⊢
      rw [husers, find?_updateOne_same _ _ (fun x hx => by simpa [userQuery, incBalance] using hx)]
      cases hfu : s.users.find? (userQuery r.uid) with
      | none => rw [hfu] at hbal; simp at hbal
      | some u0 =>
        rw [hfu] at hbal
        simp only [Option.map_some', Option.some.injEq] at hbal
        simp [incBalance, hbal]
    · rw [hbids]
      exact getElem?_updateOne_frame _ _ _ _ hfind
    · unfold ownActiveBids
      rw [hbids, filter_updateOne_self _ _ (fun x _ => ownBidQuery_inactive _ _ _ rfl),
        List.length_tail]
      have hmem : bid ∈ s.bids.filter (ownBidQuery r.uid r.auctionId) :=
        List.mem_filter.mpr ⟨List.mem_of_find?_eq_some hfind, List.find?_some hfind⟩
      have := List.length_pos_of_mem hmem
      omega
    · intro w hw
      rw [husers]
      exact find_user_of_ne r.uid w (incBalance bid.amount) (fun _ => rfl) (Ne.symm hw) s.users

/-- Witness of C12: alice withdraws her bid of 100; the bid document is left
inactive with `removedAt` 2. -/
theorem removeBid_refund_witness :
    (removeBid 2 dbAliceHigh ⟨"u1", "auction1"⟩).2.success = true ∧
    dbAliceHigh.bids.find? (ownBidQuery "u1" "auction1") = some (bid100 "alice") ∧
    balanceOf dbAliceHigh "u1" = some 900 ∧
    (removeBid 2 dbAliceHigh ⟨"u1", "auction1"⟩).2.refundedAmount = some 100 ∧
    balanceOf (removeBid 2 dbAliceHigh ⟨"u1", "auction1"⟩).1 "u1" = some (900 + 100) ∧
    (∃ i : Nat, dbAliceHigh.bids[i]? = some (bid100 "alice") ∧
      (removeBid 2 dbAliceHigh ⟨"u1", "auction1"⟩).1.bids[i]? =
        some { bid100 "alice" with active := false, removedAt := some 2 } ∧
      ∀ j : Nat, j ≠ i →
        (removeBid 2 dbAliceHigh ⟨"u1", "auction1"⟩).1.bids[j]? = dbAliceHigh.bids[j]?) ∧
    (removeBid 2 dbAliceHigh ⟨"u1", "auction1"⟩).1.bids =
      [{ uid := "u1", username := "alice", itemId := "auction1", amount := 100,
         active := false, createdAt := 1, replacedAt := none, outbidAt := none,
         removedAt := some 2 }] ∧
    (removeBid 2 dbAliceHigh ⟨"u1", "auction1"⟩).1.users.find? (userQuery "u2") =
      dbAliceHigh.users.find? (userQuery "u2") :=
  ⟨by decide, by decide, by decide,
   (removeBid_refund 2 dbAliceHigh ⟨"u1", "auction1"⟩ (bid100 "alice") 900 (by decide)
     (by decide) (by decide)).1,
   (removeBid_refund 2 dbAliceHigh ⟨"u1", "auction1"⟩ (bid100 "alice") 900 (by decide)
     (by decide) (by decide)).2.1,
   (removeBid_refund 2 dbAliceHigh ⟨"u1", "auction1"⟩ (bid100 "alice") 900 (by decide)
     (by decide) (by decide)).2.2.2.1,
   by decide,
   (removeBid_refund 2 dbAliceHigh ⟨"u1", "auction1"⟩ (bid100 "alice") 900 (by decide)
     (by decide) (by decide)).2.2.2.2.2 "u2" (by decide)⟩

/-- C13 (bid not found).  With both identifiers present, `removeBid` succeeds
if and only if the user has an active bid on the auction; otherwise it answers
`No active bid found` and leaves the database unchanged.  When the user has at
most one active bid on the auction, as in every database reached from start-up,
a second `removeBid` right after the first answers `No active bid found` and
changes nothing. -/
theorem removeBid_iff_active (now : Nat) (s : Db) (r : RemoveRequest)
    (h1 : r.uid ≠ "") (h2 : r.auctionId ≠ "") :
    ((removeBid now s r).2.success = true ↔ ownActiveBids s r.uid r.auctionId ≠ []) ∧
    (ownActiveBids s r.uid r.auctionId = [] →
      removeBid now s r = (s, failure "No active bid found")) ∧
    ((ownActiveBids s r.uid r.auctionId).length ≤ 1 → ∀ later : Nat,
      removeBid later (removeBid now s r).1 r =
        ((removeBid now s r).1, failure "No active bid found")) ∧
    (∀ (auctions : List Auction) (calls : List Call), s = run (freshDb auctions) calls →
      ∀ later : Nat, removeBid later (removeBid now s r).1 r =
        ((removeBid now s r).1, failure "No active bid found")) := by
  have hnil : ownActiveBids s r.uid r.auctionId = [] →
      s.bids.find? (ownBidQuery r.uid r.auctionId) = none := by
    intro h
    rw [find?_eq_head?_filter]
    unfold ownActiveBids at h
    rw [h]; rfl
  have hsecond : (ownActiveBids s r.uid r.auctionId).length ≤ 1 → ∀ later : Nat,
      removeBid later (removeBid now s r).1 r =
        ((removeBid now s r).1, failure "No active bid found") := by
    intro hlen later
    apply removeBid_of_none later _ r h1 h2
    rcases removeBid_cases now s r with ⟨hst, _, h3⟩ | ⟨bid, _, _, _, hbids, _, _⟩
    · rw [hst]
      rcases h3 with h3 | h3
      · simp [h1, h2] at h3
      · exact h3
    · rw [hbids, find?_eq_head?_filter,
        filter_updateOne_self _ _ (fun x _ => ownBidQuery_inactive _ _ _ rfl)]
      have : (s.bids.filter (ownBidQuery r.uid r.auctionId)).tail = [] := by
        apply List.length_eq_zero.mp
        rw [List.length_tail]
        unfold ownActiveBids at hlen
        omega
      rw [this]; rfl
  refine ⟨⟨?_, ?_⟩, ?_, hsecond, ?_⟩
  · intro hs hnone
    rw [removeBid_of_none now s r h1 h2 (hnil hnone)] at hs
    cases hs
  · intro hne
    rcases removeBid_cases now s r with ⟨_, _, h3⟩ | ⟨bid, _, _, _, _, _, hresp⟩
    · exfalso
      rcases h3 with h3 | h3
      · simp [h1, h2] at h3
      · apply hne
        unfold ownActiveBids
        rw [find?_eq_head?_filter] at h3
        exact List.head?_eq_none_iff.mp h3
    · rw [hresp]
  · intro hnone
    exact removeBid_of_none now s r h1 h2 (hnil hnone)
  · intro auctions calls hreach later
    apply hsecond _ later
    rw [hreach]
    exact singleActive_reachable auctions calls r.uid r.auctionId

/-- Witness of C13: alice withdraws her bid, and withdraws again. -/
theorem removeBid_iff_active_witness :
    ("u1" : String) ≠ "" ∧ ("auction1" : String) ≠ "" ∧
    (ownActiveBids dbAliceHigh "u1" "auction1").length ≤ 1 ∧
    (removeBid 2 dbAliceHigh ⟨"u1", "auction1"⟩).2.success = true ∧
    removeBid 3 (removeBid 2 dbAliceHigh ⟨"u1", "auction1"⟩).1 ⟨"u1", "auction1"⟩ =
      ((removeBid 2 dbAliceHigh ⟨"u1", "auction1"⟩).1, failure "No active bid found") :=
  ⟨by decide, by decide, by decide, by decide,
   (removeBid_iff_active 2 dbAliceHigh ⟨"u1", "auction1"⟩ (by decide) (by decide)).2.2.1
     (by decide) 3⟩

/-- C14 (insufficient funds).  For a request with all fields present and an
existing user, `placeBid` answers `Insufficient appraiCENTS balance` if and only
if the stored balance of the user is below the amount; the amount escrowed in
the user's own active bid on the auction does not count: the bid is refused even
when balance plus that amount would cover it. -/
theorem insufficient_funds_iff (now : Nat) (s : Db) (r : BidRequest) (user : User)
    (hf : missingField r = false)
    (hu : s.users.find? (userQuery r.uid) = some user) :
    ((placeBid now s r).2 = failure "Insufficient appraiCENTS balance" ↔
      user.appraiCentsBalance < r.bidAmount) ∧
    (user.appraiCentsBalance < r.bidAmount →
      r.bidAmount ≤ user.appraiCentsBalance + existingAmount s r →
      placeBid now s r = (s, failure "Insufficient appraiCENTS balance")) := by
  have key : user.appraiCentsBalance < r.bidAmount →
      placeBid now s r = (s, failure "Insufficient appraiCENTS balance") := by
    intro hb
    unfold placeBid; simp [hf, hu, hb]
  refine ⟨⟨?_, fun hb => by rw [key hb]⟩, fun hb _ => key hb⟩
  intro h
  by_contra hb
  rcases placeBid_outcomes now s r hf with h1 | ⟨u, hu', hlt, _⟩ | ⟨_, _, _, h1⟩ |
    ⟨_, auction, _, _, _, _, h1⟩ | ⟨_, _, _, _, _, _, h1⟩
  · rw [h1] at h
    exact absurd (failure_inj _ _ h) (by decide)
  · rw [hu] at hu'; cases hu'
    exact hb hlt
  · rw [h1] at h
    exact absurd (failure_inj _ _ h) (by decide)
  · rw [h1] at h
    exact tooLow_message_ne _ _ (by decide) (failure_inj _ _ h)
  · rw [h] at h1; cases h1

/-- Witness of C14: alice has 900 and 100 in escrow on `auction1`; her bid of
950 on that auction is refused for insufficient funds. -/
theorem insufficient_funds_iff_witness :
    missingField ⟨"u1", "alice", "auction1", 950⟩ = false ∧
    dbAliceHigh.users.find? (userQuery "u1") =
      some { sampleUser "u1" "alice" 900 with totalBidsPlaced := 1 } ∧
    existingAmount dbAliceHigh ⟨"u1", "alice", "auction1", 950⟩ = 100 ∧
    placeBid 2 dbAliceHigh ⟨"u1", "alice", "auction1", 950⟩ =
      (dbAliceHigh, failure "Insufficient appraiCENTS balance") :=
  ⟨by decide, by decide, by decide,
   (insufficient_funds_iff 2 dbAliceHigh ⟨"u1", "alice", "auction1", 950⟩
     { sampleUser "u1" "alice" 900 with totalBidsPlaced := 1 } (by decide) (by decide)).2
     (by decide) (by decide)⟩

/-- Counterexample to C15 as stated.  Alice's bid of -5 on `auction1` is refused
with `Bid must be at least 51 aC`, which is not the validation failure; from an
unknown user the same amount is refused with `User not found`; and on the
auction of `dbNegativeReserve`, whose reserve is -10, her bid of -5 succeeds
and credits her balance, which becomes 1005. -/
theorem negative_amount_counterexample :
    (-5 : Int) ≤ 0 ∧
    (placeBid 1 dbFresh ⟨"u1", "alice", "auction1", -5⟩).2 =
      failure "Bid must be at least 51 aC" ∧
    (placeBid 1 dbFresh ⟨"u1", "alice", "auction1", -5⟩).2 ≠ failure "All fields required" ∧
    (placeBid 1 dbNoUsers ⟨"u1", "alice", "auction1", -5⟩).2 = failure "User not found" ∧
    (placeBid 1 dbNegativeReserve ⟨"u1", "alice", "auction1", -5⟩).2.success = true ∧
    balanceOf (placeBid 1 dbNegativeReserve ⟨"u1", "alice", "auction1", -5⟩).1 "u1" =
      some 1005 :=
  ⟨by decide, by decide, by decide, by decide, by decide, by decide⟩

/-- C15 as amended (amounts that are not positive).  Whatever the state, a
`placeBid` with the amount 0 answers the validation failure `All fields
required` and changes nothing, and a `placeBid` with a negative amount and the
other fields present never answers the validation failure.  In a database with
positive reserves and no negative `currentHighBid`, a `placeBid` with an amount
`≤ 0` fails and changes nothing, and for a negative amount with the other
fields present the failure is one of user-not-found, insufficient-funds,
auction-not-found or bid-too-low. -/
theorem nonpositive_amount_refused (now : Nat) (s : Db) (r : BidRequest)
    (hle : r.bidAmount ≤ 0) :
    (r.bidAmount = 0 → placeBid now s r = (s, failure "All fields required")) ∧
    (r.bidAmount < 0 → r.uid ≠ "" → r.username ≠ "" → r.auctionId ≠ "" →
      (placeBid now s r).2 ≠ failure "All fields required") ∧
    (PositiveReserves s → NonnegativeHighBids s →
      (placeBid now s r).2.success = false ∧ (placeBid now s r).1 = s ∧
      (r.bidAmount < 0 → r.uid ≠ "" → r.username ≠ "" → r.auctionId ≠ "" →
        ((placeBid now s r).2 = failure "User not found" ∨
         (placeBid now s r).2 = failure "Insufficient appraiCENTS balance" ∨
         (placeBid now s r).2 = failure "Auction not found or inactive" ∨
         ∃ auction, s.auctions.find? (activeAuctionQuery r.auctionId) = some auction ∧
           (placeBid now s r).2 =
             failure ("Bid must be at least " ++ toString (minimumBid auction) ++ " aC")))) := by
  refine ⟨?_, ?_, ?_⟩
  · intro h0
    unfold placeBid
    have : missingField r = true := by simp [missingField, h0]
    rw [if_pos this]
  · intro hneg h1 h2 h3
    have hf : missingField r = false := by
      simp [missingField, h1, h2, h3, ne_of_lt hneg]
    rcases placeBid_outcomes now s r hf with e | ⟨_, _, _, e⟩ | ⟨_, _, _, e⟩ |
      ⟨_, auction, _, _, ha, _, e⟩ | ⟨_, _, _, _, _, _, e⟩
    · rw [e]
      exact fun h => absurd (failure_inj _ _ h) (by decide)
    · rw [e]
      exact fun h => absurd (failure_inj _ _ h) (by decide)
    · rw [e]
      exact fun h => absurd (failure_inj _ _ h) (by decide)
    · rw [e]
      exact fun h => tooLow_message_ne _ _ (by decide) (failure_inj _ _ h)
    · intro h
      rw [h] at e
      cases e
  · intro hres hhigh
    have hfail : (placeBid now s r).2.success = false := by
      by_contra hc
      have hs : (placeBid now s r).2.success = true := by simpa using hc
      obtain ⟨user, auction, hf, hu, hb, ha, hm⟩ := placeBid_success_inv now s r hs
      have := minimumBid_pos s auction (List.mem_of_find?_eq_some ha) hres hhigh
      omega
    refine ⟨hfail, ?_, ?_⟩
    · rcases placeBid_cases now s r with ⟨h1, _⟩ | ⟨user, auction, hf, hu, hb, ha, hm⟩
      · exact h1
      · rw [placeBid_of_success now s r user auction hf hu hb ha hm] at hfail
        cases hfail
    · intro hneg h1 h2 h3
      have hf : missingField r = false := by
        simp [missingField, h1, h2, h3, ne_of_lt hneg]
      rcases placeBid_outcomes now s r hf with e | ⟨_, _, _, e⟩ | ⟨_, _, _, e⟩ |
        ⟨_, auction, _, _, ha, _, e⟩ | ⟨_, _, _, _, _, _, e⟩
      · rw [e]
        exact Or.inl rfl
      · rw [e]
        exact Or.inr (Or.inl rfl)
      · rw [e]
        exact Or.inr (Or.inr (Or.inl rfl))
      · rw [e]
        exact Or.inr (Or.inr (Or.inr ⟨auction, ha, rfl⟩))
      · rw [hfail] at e; cases e

/-- Witness of C15 as amended: a bid of 0 gets the validation failure also on
the auction with the negative reserve; alice's bid of -5 on `auction1` is
refused, not by validation, and changes nothing. -/
theorem nonpositive_amount_refused_witness :
    (0 : Int) ≤ 0 ∧ (-5 : Int) ≤ 0 ∧ PositiveReserves dbFresh ∧ NonnegativeHighBids dbFresh ∧
    placeBid 1 dbNegativeReserve ⟨"u1", "alice", "auction1", 0⟩ =
      (dbNegativeReserve, failure "All fields required") ∧
    (placeBid 1 dbFresh ⟨"u1", "alice", "auction1", -5⟩).2 ≠ failure "All fields required" ∧
    (placeBid 1 dbFresh ⟨"u1", "alice", "auction1", -5⟩).2.success = false ∧
    (placeBid 1 dbFresh ⟨"u1", "alice", "auction1", -5⟩).1 = dbFresh :=
  ⟨by decide, by decide, by decide, by decide,
   (nonpositive_amount_refused 1 dbNegativeReserve ⟨"u1", "alice", "auction1", 0⟩
     (by decide)).1 rfl,
   (nonpositive_amount_refused 1 dbFresh ⟨"u1", "alice", "auction1", -5⟩ (by decide)).2.1
     (by decide) (by decide) (by decide) (by decide),
   ((nonpositive_amount_refused 1 dbFresh ⟨"u1", "alice", "auction1", -5⟩ (by decide)).2.2
     (by decide) (by decide)).1,
   ((nonpositive_amount_refused 1 dbFresh ⟨"u1", "alice", "auction1", -5⟩ (by decide)).2.2
     (by decide) (by decide)).2.1⟩

/-- Counterexample to C16 as stated.  In `dbNegativeBid` every balance is `≥ 0`
(alice has 0) and alice's stored active bid has the amount -5; her `removeBid`
succeeds and leaves her balance at -5.  From `dbNegativeReserve`, where every
balance is 1000 and there is no bid, the requests `callsOverdraw` (a bid of -5
on the auction with the negative reserve, a bid of the whole balance on
`auction3`, the withdrawal of the first bid) leave alice's balance at -5. -/
theorem negative_balance_counterexample :
    NonnegativeBalances dbNegativeBid ∧
    (removeBid 2 dbNegativeBid ⟨"u1", "auction1"⟩).2.success = true ∧
    balanceOf (removeBid 2 dbNegativeBid ⟨"u1", "auction1"⟩).1 "u1" = some (-5) ∧
    ¬ NonnegativeBalances (removeBid 2 dbNegativeBid ⟨"u1", "auction1"⟩).1 ∧
    NonnegativeBalances dbNegativeReserve ∧ dbNegativeReserve.bids = [] ∧
    NonnegativeBalances (run dbNegativeReserve (callsOverdraw.take 2)) ∧
    balanceOf (run dbNegativeReserve callsOverdraw) "u1" = some (-5) ∧
    ¬ NonnegativeBalances (run dbNegativeReserve callsOverdraw) :=
  ⟨by decide, by decide, by decide, by decide, by decide, by decide, by decide, by decide,
   by decide⟩

/-- C16 as amended (balances never go negative).  In a database whose stored
bid amounts are not negative, if every balance is `≥ 0` then every balance is
`≥ 0` after any `placeBid` and any `removeBid` call.  When moreover the
reserves are positive and no `currentHighBid` is negative, these four
conditions hold again after any `placeBid` and any `removeBid` call, so that
every balance is `≥ 0` after any sequence of `getBalance`, `placeBid` and
`removeBid` requests. -/
theorem balances_stay_nonnegative (now : Nat) (s : Db)
    (hb : NonnegativeBids s) (h : NonnegativeBalances s) :
    (∀ r : BidRequest, NonnegativeBalances (placeBid now s r).1) ∧
    (∀ r : RemoveRequest, NonnegativeBalances (removeBid now s r).1) ∧
    (PositiveReserves s → NonnegativeHighBids s →
      (∀ r : BidRequest, NonnegativeBids (placeBid now s r).1 ∧
        PositiveReserves (placeBid now s r).1 ∧ NonnegativeHighBids (placeBid now s r).1) ∧
      (∀ r : RemoveRequest, NonnegativeBids (removeBid now s r).1 ∧
        PositiveReserves (removeBid now s r).1 ∧ NonnegativeHighBids (removeBid now s r).1) ∧
      (∀ calls : List Call, NonnegativeBalances (run s calls))) :=
  ⟨fun r => nonneg_after_placeBid now s r hb h, fun r => nonneg_after_removeBid now s r hb h,
   fun hres hhigh =>
    ⟨fun r => bounds_after_placeBid now s r hb hres hhigh,
     fun r => bounds_after_removeBid now s r hb hres hhigh,
     fun calls => (bounds_run calls s hb h hres hhigh).2.1⟩⟩

/-- Witness of C16 as amended: bob outbids alice with his whole balance, alice
withdraws her bid, and the balances after the two requests in a row. -/
theorem balances_stay_nonnegative_witness :
    NonnegativeBids dbAliceHigh ∧ NonnegativeBalances dbAliceHigh ∧
    PositiveReserves dbAliceHigh ∧ NonnegativeHighBids dbAliceHigh ∧
    NonnegativeBalances (placeBid 2 dbAliceHigh ⟨"u2", "bob", "auction1", 1000⟩).1 ∧
    NonnegativeBalances (removeBid 2 dbAliceHigh ⟨"u1", "auction1"⟩).1 ∧
    NonnegativeBalances (run dbAliceHigh
      [.bid 2 ⟨"u2", "bob", "auction1", 1000⟩, .remove 3 ⟨"u2", "auction1"⟩]) ∧
    (run dbAliceHigh
      [.bid 2 ⟨"u2", "bob", "auction1", 1000⟩, .remove 3 ⟨"u2", "auction1"⟩]).users.map
        (fun u => u.appraiCentsBalance) = [1000, 1000] :=
  ⟨by decide, by decide, by decide, by decide,
   (balances_stay_nonnegative 2 dbAliceHigh (by decide) (by decide)).1
     ⟨"u2", "bob", "auction1", 1000⟩,
   (balances_stay_nonnegative 2 dbAliceHigh (by decide) (by decide)).2.1 ⟨"u1", "auction1"⟩,
   ((balances_stay_nonnegative 2 dbAliceHigh (by decide) (by decide)).2.2 (by decide)
     (by decide)).2.2 _,
   by decide⟩

/-- C17 (`getBalance` resolves the user).  With uid and username present: for a
uid without a record the call appends exactly one user document, with balance
`STARTING_APPRAICENTS`, `totalBidsPlaced` 0 and `totalWins` 0, changes nothing
else and returns that balance; for a uid with a record it returns the stored
balance and stats, and the only change is `lastActivity` of that document; a
second call returns the balance stored after the first and adds no document. -/
theorem getBalance_resolves_user (now : Nat) (s : Db) (r : BalanceRequest)
    (h1 : r.uid ≠ "") (h2 : r.username ≠ "") :
    (s.users.find? (userQuery r.uid) = none →
      (userBalance now s r).1.users = s.users ++ [newUser now r.uid r.username] ∧
      (newUser now r.uid r.username).uid = r.uid ∧
      (newUser now r.uid r.username).appraiCentsBalance = CONFIG.STARTING_APPRAICENTS ∧
      (newUser now r.uid r.username).totalBidsPlaced = 0 ∧
      (newUser now r.uid r.username).totalWins = 0 ∧
      (userBalance now s r).1.auctions = s.auctions ∧
      (userBalance now s r).1.bids = s.bids ∧
      (userBalance now s r).2 = .ok CONFIG.STARTING_APPRAICENTS r.username 0 0) ∧
    (∀ user, s.users.find? (userQuery r.uid) = some user →
      (userBalance now s r).2 =
        .ok user.appraiCentsBalance user.username user.totalBidsPlaced user.totalWins ∧
      (∃ i : Nat, s.users[i]? = some user ∧
        (userBalance now s r).1.users[i]? = some { user with lastActivity := now } ∧
        ∀ j : Nat, j ≠ i → (userBalance now s r).1.users[j]? = s.users[j]?) ∧
      (userBalance now s r).1.auctions = s.auctions ∧
      (userBalance now s r).1.bids = s.bids) ∧
    (∀ later : Nat, ∃ u1, (userBalance now s r).1.users.find? (userQuery r.uid) = some u1 ∧
      (userBalance later (userBalance now s r).1 r).2 =
        .ok u1.appraiCentsBalance u1.username u1.totalBidsPlaced u1.totalWins ∧
      (userBalance later (userBalance now s r).1 r).1.users.length =
        (userBalance now s r).1.users.length ∧
      balanceOf (userBalance later (userBalance now s r).1 r).1 r.uid =
        some u1.appraiCentsBalance) := by
  have hsecond : ∀ (s1 : Db) (u1 : User) (later : Nat),
      s1.users.find? (userQuery r.uid) = some u1 →
      (userBalance later s1 r).2 =
        .ok u1.appraiCentsBalance u1.username u1.totalBidsPlaced u1.totalWins ∧
      (userBalance later s1 r).1.users.length = s1.users.length ∧
      balanceOf (userBalance later s1 r).1 r.uid = some u1.appraiCentsBalance := by
    intro s1 u1 later hf
    rw [userBalance_known later s1 r u1 h1 h2 hf]
    refine ⟨rfl, length_updateOne _ _ _, ?_⟩
    unfold balanceOf
    simp only
    rw [find?_updateOne_same _ _ (fun x hx => by simpa [userQuery, touchActivity] using hx), hf]
    rfl
  refine ⟨?_, ?_, ?_⟩
  · intro hu
    rw [userBalance_new now s r h1 h2 hu]
    exact ⟨rfl, rfl, rfl, rfl, rfl, rfl, rfl, rfl⟩
  · intro user hu
    rw [userBalance_known now s r user h1 h2 hu]
    refine ⟨rfl, ?_, rfl, rfl⟩
    exact getElem?_updateOne_frame (userQuery r.uid) (touchActivity now) s.users user hu
  · intro later
    cases hu : s.users.find? (userQuery r.uid) with
    | none =>
      have hf : (userBalance now s r).1.users.find? (userQuery r.uid) =
          some (newUser now r.uid r.username) := by
        rw [userBalance_new now s r h1 h2 hu]
        simp only
        rw [List.find?_append, hu]
        simp [userQuery, newUser]
      exact ⟨_, hf, hsecond _ _ later hf⟩
    | some user =>
      have hf : (userBalance now s r).1.users.find? (userQuery r.uid) =
          some (touchActivity now user) := by
        rw [userBalance_known now s r user h1 h2 hu]
        simp only
        rw [find?_updateOne_same _ _ (fun x hx => by simpa [userQuery, touchActivity] using hx),
          hu]
        rfl
      exact ⟨_, hf, hsecond _ _ later hf⟩

/-- Witness of C17: the unknown user `u7` asks for the balance. -/
theorem getBalance_resolves_user_witness :
    ("u7" : String) ≠ "" ∧ ("yan" : String) ≠ "" ∧
    dbFresh.users.find? (userQuery "u7") = none ∧
    (userBalance 5 dbFresh ⟨"u7", "yan"⟩).1.users = dbFresh.users ++ [newUser 5 "u7" "yan"] ∧
    (userBalance 5 dbFresh ⟨"u7", "yan"⟩).2 = .ok 1000 "yan" 0 0 :=
  ⟨by decide, by decide, by decide,
   ((getBalance_resolves_user 5 dbFresh ⟨"u7", "yan"⟩ (by decide) (by decide)).1
     (by decide)).1,
   ((getBalance_resolves_user 5 dbFresh ⟨"u7", "yan"⟩ (by decide) (by decide)).1
     (by decide)).2.2.2.2.2.2.2⟩

/-- C18 (the list operations are pure reads).  `listActiveAuctions` returns, in
order, exactly the auction documents with `active == true`; `listUserBids` for
a present uid returns exactly the bid documents of that uid with `active ==
true`; neither changes the database; calling either again on the database it
leaves returns the same result. -/
theorem list_operations_pure (s : Db) (uid : String) (huid : uid ≠ "") :
    (listActiveAuctions s).1 = s ∧
    (∀ a, a ∈ (listActiveAuctions s).2 ↔ a ∈ s.auctions ∧ a.active = true) ∧
    List.Sublist (listActiveAuctions s).2 s.auctions ∧
    (listUserBids s uid).1 = s ∧
    (∃ bids, (listUserBids s uid).2 = .ok bids ∧ List.Sublist bids s.bids ∧
      ∀ b, b ∈ bids ↔ b ∈ s.bids ∧ b.uid = uid ∧ b.active = true) ∧
    listActiveAuctions (listActiveAuctions s).1 = listActiveAuctions s ∧
    listUserBids (listUserBids s uid).1 uid = listUserBids s uid := by
  have hb : listUserBids s uid =
      (s, .ok (s.bids.filter (fun b => b.uid == uid && b.active))) := by
    unfold listUserBids
    rw [if_neg (by simpa using huid)]
  refine ⟨rfl, ?_, List.filter_sublist _, by rw [hb], ?_, rfl, by rw [hb]; exact hb⟩
  · intro a
    simp [listActiveAuctions, List.mem_filter]
  · refine ⟨_, by rw [hb], List.filter_sublist _, ?_⟩
    intro b
    simp [List.mem_filter, and_assoc]

/-- Witness of C18: the active auctions and alice's active bids. -/
theorem list_operations_pure_witness :
    ("u1" : String) ≠ "" ∧
    (listActiveAuctions dbAliceHigh).1 = dbAliceHigh ∧
    (listUserBids dbAliceHigh "u1").1 = dbAliceHigh ∧
    (listUserBids dbAliceHigh "u1").2 = .ok [bid100 "alice"] ∧
    listUserBids (listUserBids dbAliceHigh "u1").1 "u1" = listUserBids dbAliceHigh "u1" :=
  ⟨by decide, (list_operations_pure dbAliceHigh "u1" (by decide)).1,
   (list_operations_pure dbAliceHigh "u1" (by decide)).2.2.2.1, by decide,
   (list_operations_pure dbAliceHigh "u1" (by decide)).2.2.2.2.2.2⟩

/-- Counterexample to C19 as stated.  In `dbRich` alice's bid of 1000000, above
`MAX_BID_AMOUNT`, succeeds and changes the database. -/
theorem above_max_counterexample :
    CONFIG.MAX_BID_AMOUNT < 1000000 ∧
    (placeBid 1 dbRich ⟨"u1", "alice", "auction1", 1000000⟩).2.success = true ∧
    (placeBid 1 dbRich ⟨"u1", "alice", "auction1", 1000000⟩).1 ≠ dbRich ∧
    balanceOf (placeBid 1 dbRich ⟨"u1", "alice", "auction1", 1000000⟩).1 "u1" =
      some 1000000 :=
  ⟨by decide, by decide, by decide, by decide⟩

/-- C19 as amended (`MAX_BID_AMOUNT`).  The handler never reads
`MAX_BID_AMOUNT`.  When no stored balance exceeds `MAX_BID_AMOUNT`, a `placeBid`
with an amount above it fails and changes nothing, and for a known user with
all fields present the failure is `Insufficient appraiCENTS balance`. -/
theorem above_max_refused (now : Nat) (s : Db) (r : BidRequest)
    (hmax : CONFIG.MAX_BID_AMOUNT < r.bidAmount) (hbal : BalancesWithinMax s) :
    (placeBid now s r).2.success = false ∧ (placeBid now s r).1 = s ∧
    (missingField r = false → ∀ user, s.users.find? (userQuery r.uid) = some user →
      (placeBid now s r).2 = failure "Insufficient appraiCENTS balance") := by
  have hfail : (placeBid now s r).2.success = false := by
    by_contra hc
    have hs : (placeBid now s r).2.success = true := by simpa using hc
    obtain ⟨user, auction, hf, hu, hb, ha, hm⟩ := placeBid_success_inv now s r hs
    have := hbal user (List.mem_of_find?_eq_some hu)
    omega
  refine ⟨hfail, ?_, ?_⟩
  · rcases placeBid_cases now s r with ⟨h1, _⟩ | ⟨user, auction, hf, hu, hb, ha, hm⟩
    · exact h1
    · rw [placeBid_of_success now s r user auction hf hu hb ha hm] at hfail
      cases hfail
  · intro hf user hu
    have := hbal user (List.mem_of_find?_eq_some hu)
    have hlt : user.appraiCentsBalance < r.bidAmount := by omega
    unfold placeBid
    simp [hf, hu, hlt]

/-- Witness of C19 as amended: alice, with 900, bids one million. -/
theorem above_max_refused_witness :
    CONFIG.MAX_BID_AMOUNT < 1000000 ∧ BalancesWithinMax dbAliceHigh ∧
    (placeBid 2 dbAliceHigh ⟨"u1", "alice", "auction1", 1000000⟩).2.success = false ∧
    (placeBid 2 dbAliceHigh ⟨"u1", "alice", "auction1", 1000000⟩).1 = dbAliceHigh :=
  ⟨by decide, by decide,
   (above_max_refused 2 dbAliceHigh ⟨"u1", "alice", "auction1", 1000000⟩ (by decide)
     (by decide)).1,
   (above_max_refused 2 dbAliceHigh ⟨"u1", "alice", "auction1", 1000000⟩ (by decide)
     (by decide)).2.1⟩

/-- Counterexample to C20 as stated.  `dbShadowed` has no bids and every auction
unbid, and two auction documents carry the id `auction1`, the first one ended.
Alice bids 100 and bob bids 60, each uid under its own name: both bids succeed
and both stay active, since the bid is checked against the running document
while `updateOne({ id })` records it on the ended one; bob's withdrawal then
promotes alice to highest bidder.  `dbNegativeReserve` has unique auction ids
and a reserve of -10: alice's bid of -5 and bob's bid of -3 both stay active,
since the outbid refund requires `currentHighBid > 0`. -/
theorem one_active_bid_counterexample :
    dbShadowed.bids = [] ∧ AllUnbid dbShadowed ∧ Disciplined callsShadowed ∧
    (run dbShadowed callsShadowed).bids.filter (itemBidQuery "auction1") =
      [newBid 1 ⟨"u1", "alice", "auction1", 100⟩, newBid 2 ⟨"u2", "bob", "auction1", 60⟩] ∧
    (removeBid 3 (run dbShadowed callsShadowed) ⟨"u2", "auction1"⟩).2.success = true ∧
    (removeBid 3 (run dbShadowed callsShadowed) ⟨"u2", "auction1"⟩).1.auctions.find?
        (auctionQuery "auction1") =
      some { auction1 with active := false, currentHighBid := 100,
                           highestBidder := some "alice", lastBidAt := some 2 } ∧
    dbNegativeReserve.bids = [] ∧ AllUnbid dbNegativeReserve ∧
    UniqueAuctionIds dbNegativeReserve ∧ Disciplined callsBelowZero ∧
    (run dbNegativeReserve callsBelowZero).bids.filter (itemBidQuery "auction1") =
      [newBid 1 ⟨"u1", "alice", "auction1", -5⟩, newBid 2 ⟨"u2", "bob", "auction1", -3⟩] :=
  ⟨by decide, by decide, by decide, by decide, by decide, by decide, by decide, by decide,
   by decide, by decide, by decide⟩

/-- C20 as amended (at most one active bid per auction).  Start from a database
with no bids, every auction unbid, unique auction ids and positive reserves, and serve
any sequence of `getBalance`, `placeBid` and `removeBid` requests whose bid
requests carry the same uid exactly when they carry the same username.  Then
every auction has at most one active bid, and every successful `removeBid`
leaves no active bid on the auction and sets it to `currentHighBid` 0 and
`highestBidder` null. -/
theorem one_active_bid_per_auction (s0 : Db) (calls : List Call)
    (hb : s0.bids = []) (h0 : AllUnbid s0) (hids : UniqueAuctionIds s0)
    (hres : PositiveReserves s0) (hd : Disciplined calls) :
    (∀ a ∈ (run s0 calls).auctions,
      ((run s0 calls).bids.filter (itemBidQuery a.id)).length ≤ 1) ∧
    (∀ (now : Nat) (r : RemoveRequest), (removeBid now (run s0 calls) r).2.success = true →
      (removeBid now (run s0 calls) r).1.bids.filter (itemBidQuery r.auctionId) = [] ∧
      ∃ a', (removeBid now (run s0 calls) r).1.auctions.find? (auctionQuery r.auctionId) =
          some a' ∧
        a'.currentHighBid = 0 ∧ a'.highestBidder = none) := by
  have hinv : OneBidInv (bidPairs calls) (run s0 calls) :=
    oneBidInv_run (bidPairs calls) hd calls (fun now r h => mem_bidPairs calls now r h) s0
      (oneBidInv_initial (bidPairs calls) s0 hb h0 hids hres)
  generalize run s0 calls = s at hinv ⊢
  obtain ⟨_, _, _, hone, hbids⟩ := hinv
  refine ⟨fun a _ => hone a.id, ?_⟩
  intro now r hs
  rcases removeBid_cases now s r with ⟨_, h, _⟩ | ⟨bid, _, hfb, _, hbids', hauc, _⟩
  · rw [h] at hs; cases hs
  · have hown := List.find?_some hfb
    have hmem := List.mem_of_find?_eq_some hfb
    have hitem : itemBidQuery r.auctionId bid = true := itemBidQuery_of_own _ _ bid hown
    have hact : bid.active = true := by
      simp only [itemBidQuery, Bool.and_eq_true] at hitem; exact hitem.2
    have hid : bid.itemId = r.auctionId := by
      simp only [itemBidQuery, Bool.and_eq_true, beq_iff_eq] at hitem; exact hitem.1
    have hA : s.bids.filter (itemBidQuery r.auctionId) = [bid] :=
      eq_singleton_of_mem _ bid (hone r.auctionId) (List.mem_filter.mpr ⟨hmem, hitem⟩)
    have hnil : (updateOne (ownBidQuery r.uid r.auctionId) (markRemoved now) s.bids).filter
        (itemBidQuery r.auctionId) = [] :=
      filter_updateOne_only _ _ _ _ bid hA hfb (by simp [itemBidQuery, markRemoved])
    have hrem : remainingBids r.auctionId
        (updateOne (ownBidQuery r.uid r.auctionId) (markRemoved now) s.bids) = [] := by
      unfold remainingBids; rw [hnil]; rfl
    rw [hrem] at hauc
    simp only at hauc
    refine ⟨by rw [hbids']; exact hnil, ?_⟩
    obtain ⟨a, ha, haid⟩ := (hbids bid hmem hact).2.2.2
    cases hx : s.auctions.find? (auctionQuery r.auctionId) with
    | none =>
      exfalso
      have := List.find?_eq_none.mp hx a ha
      simp [auctionQuery, haid, hid] at this
    | some x =>
      refine ⟨resetHighBid 0 none x, ?_, rfl, rfl⟩
      rw [hauc, find_auction_updateOne r.auctionId (resetHighBid 0 none) (fun _ => rfl), hx]
      rfl

/-- Witness of C20 as amended: alice bids 100, bob outbids her with 150 and withdraws; the
auction goes back to unbid and alice is not promoted. -/
theorem one_active_bid_per_auction_witness :
    dbFresh.bids = [] ∧ AllUnbid dbFresh ∧ UniqueAuctionIds dbFresh ∧
    PositiveReserves dbFresh ∧ Disciplined callsOutbid ∧
    (removeBid 3 (run dbFresh callsOutbid) ⟨"u2", "auction1"⟩).2.success = true ∧
    (removeBid 3 (run dbFresh callsOutbid) ⟨"u2", "auction1"⟩).1.bids.filter
      (itemBidQuery "auction1") = [] ∧
    ∃ a', (removeBid 3 (run dbFresh callsOutbid) ⟨"u2", "auction1"⟩).1.auctions.find?
        (auctionQuery "auction1") = some a' ∧
      a'.currentHighBid = 0 ∧ a'.highestBidder = none :=
  ⟨by decide, by decide, by decide, by decide, by decide, by decide,
   ((one_active_bid_per_auction dbFresh callsOutbid (by decide) (by decide) (by decide)
     (by decide) (by decide)).2 3 ⟨"u2", "auction1"⟩ (by decide)).1,
   ((one_active_bid_per_auction dbFresh callsOutbid (by decide) (by decide) (by decide)
     (by decide) (by decide)).2 3 ⟨"u2", "auction1"⟩ (by decide)).2⟩

end MiniPraisells
